import Mathlib

/-!
# Habit tracker: the habit store and its streak engine

A shallow embedding of `src/contexts/HabitContext.js` (the `HabitProvider`
operations, the load effect and `exportHabits`) together with the `date-fns` functions
they call, of the validation and submit handler of `src/components/HabitForm.js`, of
`calculateCompletionRate` and `groupCompletionsByPeriod` from `src/utils/helpers.js`,
and of `calculateStats` and the chart series of `src/components/HabitStats.js`.

Modelling conventions.

* A JavaScript `Date` is an `Int`: milliseconds on the local clock, under a
  fixed UTC offset (every calendar day lasts `msPerDay` milliseconds).
* `format(date, 'yyyy-MM-dd')` is a one-to-one naming of local calendar days;
  the string is represented by the number of the day it names.
* The clock (`new Date()`) and the id generator (`uuidv4()`) are explicit
  arguments `now` and `uuid` of the operation that reads them; `addHabit` reads the
  clock twice and takes the two readings `now` and `now'`.
* `habits` is the collection captured by the closures of one render, and
  `prevHabits` the collection handed to a `setHabits` updater. In a settled
  store the two coincide.
* Saving and loading are modelled on the JSON content: `JSON.stringify` followed by
  `JSON.parse` returns strings, numbers, arrays and objects as they were and every
  `Date` as its ISO-8601 string; a date-valued field is a `DateValue`, which tells a
  `Date` from such a string.
* The calendar is the proleptic Gregorian calendar: `civilFromDays` gives the year,
  month and day of a day number and `daysFromCivil` the day number of a date
  (`civilFromDays_spec`, `same_month_iff`). The keys of `groupCompletionsByPeriod` are
  represented by the calendar data their strings print (`PeriodKey`).
* The value that `JSON.parse` returns on load is a `JsValue`. The call
  `JSON.parse(text, reviver)` is an argument `jsonParse` of the load effect, a function
  from the stored text to the value it returns or the error it throws; the calls of
  `console.error` are recorded in the state the effect returns.
* The Numbers of `calculateCompletionRate` are IEEE 754 binary64 values. Division and
  multiplication round the exact result to the nearest value, ties to even
  (`roundRatio`, proved nearest in `roundRatio_nearest`); `Math.round(x)` is
  `⌊x + 1/2⌋`.
-/

namespace HabitTracker

/-! ## Dates (`date-fns`) -/

/-- Length of a calendar day in milliseconds. -/
def msPerDay : Int := 86400000

/-- The `date-fns` function `startOfDay`: the first instant of the calendar day of `date`. -/
def startOfDay (date : Int) : Int := Int.fdiv date msPerDay * msPerDay

/-- The key `format(date, 'yyyy-MM-dd')`, represented by the number of the calendar day. -/
def formatYMD (date : Int) : Int := Int.fdiv date msPerDay

/-- The `date-fns` function `isToday`, with the clock reading `now`:
both instants have the same start of day. -/
def isToday (now date : Int) : Bool := startOfDay date == startOfDay now

/-- The `date-fns` function `compareDesc`: `-1` when the left date is later, `1` when it
is earlier, `0` when they are equal. -/
def compareDesc (dateLeft dateRight : Int) : Int :=
  if dateLeft - dateRight > 0 then -1
  else if dateLeft - dateRight < 0 then 1
  else 0

/-! ## Data model -/

/-- A completion record `{id, date, timestamp}`. -/
structure Completion where
  id : String
  date : Int
  timestamp : Int
  deriving DecidableEq, Repr

/-- A reminder `{time, days}`. -/
structure Reminder where
  time : String
  days : List Nat
  deriving DecidableEq, Repr

/-- The frequency object: `{type: 'daily'}`, `{type: 'weekly', days}` or
`{type: 'custom', timesPerWeek | timesPerMonth}`. -/
structure Frequency where
  type : String
  days : Option (List Nat) := none
  timesPerWeek : Option Nat := none
  timesPerMonth : Option Nat := none
  deriving DecidableEq, Repr

/-- A habit record, with the fields `addHabit` gives it. -/
structure Habit where
  id : String
  name : String
  description : String
  icon : String
  category : String
  frequency : Frequency
  reminders : List Reminder
  completions : List Completion
  createdAt : Int
  updatedAt : Int
  streak : Nat
  bestStreak : Nat
  color : String
  deriving DecidableEq, Repr

/-- The argument of `addHabit`; an absent field is `none`. -/
structure HabitData where
  name : String
  description : Option String := none
  icon : Option String := none
  category : Option String := none
  frequency : Option Frequency := none
  reminders : Option (List Reminder) := none
  color : Option String := none
  deriving DecidableEq, Repr

/-- The argument `updatedData` of `updateHabit`: any subset of the fields of a habit. -/
structure UpdatedData where
  id : Option String := none
  name : Option String := none
  description : Option String := none
  icon : Option String := none
  category : Option String := none
  frequency : Option Frequency := none
  reminders : Option (List Reminder) := none
  completions : Option (List Completion) := none
  createdAt : Option Int := none
  updatedAt : Option Int := none
  streak : Option Nat := none
  bestStreak : Option Nat := none
  color : Option String := none
  deriving DecidableEq, Repr

/-- The JavaScript `value || fallback` on an optional string: an absent or empty string
is falsy. -/
def strOr (value : Option String) (fallback : String) : String :=
  match value with
  | some s => if s = "" then fallback else s
  | none => fallback

/-! ## Store operations (`HabitProvider`) -/

/-- The habit `addHabit` builds from `habitData`. The object literal evaluates
`new Date()` twice: `now` is the reading for `createdAt` and `now'` the one for
`updatedAt`. -/
def newHabit (now now' : Int) (uuid : String) (habitData : HabitData) : Habit :=
  { id := uuid
    name := habitData.name
    description := strOr habitData.description ""
    icon := strOr habitData.icon "check_circle"
    category := strOr habitData.category "General"
    frequency := habitData.frequency.getD { type := "daily" }
    reminders := habitData.reminders.getD []
    completions := []
    createdAt := now
    updatedAt := now'
    streak := 0
    bestStreak := 0
    color := strOr habitData.color "#6200ee" }

/-- The operation `addHabit`: the updated collection and the returned id. -/
def addHabit (now now' : Int) (uuid : String) (habitData : HabitData)
    (prevHabits : List Habit) : List Habit × String :=
  (prevHabits ++ [newHabit now now' uuid habitData], (newHabit now now' uuid habitData).id)

/-- The object spread `{...habit, ...updatedData, updatedAt: new Date()}`. -/
def mergeHabit (now : Int) (habit : Habit) (updatedData : UpdatedData) : Habit :=
  { id := updatedData.id.getD habit.id
    name := updatedData.name.getD habit.name
    description := updatedData.description.getD habit.description
    icon := updatedData.icon.getD habit.icon
    category := updatedData.category.getD habit.category
    frequency := updatedData.frequency.getD habit.frequency
    reminders := updatedData.reminders.getD habit.reminders
    completions := updatedData.completions.getD habit.completions
    createdAt := updatedData.createdAt.getD habit.createdAt
    updatedAt := now
    streak := updatedData.streak.getD habit.streak
    bestStreak := updatedData.bestStreak.getD habit.bestStreak
    color := updatedData.color.getD habit.color }

/-- The operation `updateHabit`. -/
def updateHabit (now : Int) (id : String) (updatedData : UpdatedData)
    (prevHabits : List Habit) : List Habit :=
  prevHabits.map fun habit =>
    if habit.id == id then mergeHabit now habit updatedData else habit

/-- The operation `deleteHabit`. -/
def deleteHabit (id : String) (prevHabits : List Habit) : List Habit :=
  prevHabits.filter fun habit => habit.id != id

/-- The `while (daysPassed <= 1000)` loop of `calculateStreak`. The first argument bounds
the number of iterations; `calculateStreak` supplies `1001`, which the loop guard never
lets it exceed. -/
def streakLoop (habitCompletions : List Completion) :
    Nat → Int → Nat → Nat → Nat
  | 0, _, streak, _ => streak
  | fuel + 1, currentDate, streak, daysPassed =>
    if daysPassed ≤ 1000 then
      if habitCompletions.any (fun comp => formatYMD comp.date == formatYMD currentDate) then
        streakLoop habitCompletions fuel (currentDate - msPerDay) (streak + 1) (daysPassed + 1)
      else streak
    else streak

/-- The function `calculateStreak(habitId, completions = null)`, with the clock reading
`now`. -/
def calculateStreak (habits : List Habit) (now : Int) (habitId : String)
    (completions : Option (List Completion)) : Nat :=
  match habits.find? (fun h => h.id == habitId) with
  | none => 0
  | some habit =>
    let habitCompletions := completions.getD habit.completions
    if habitCompletions.length == 0 then 0
    else if habit.frequency.type == "daily" then
      let isTodayCompleted := habitCompletions.any (fun comp => isToday now comp.date)
      if !isTodayCompleted then
        streakLoop habitCompletions 1001 (now - msPerDay) 0 1
      else
        streakLoop habitCompletions 1001 now 0 0
    else 0

/-- The comparator handed to `sort` in `toggleHabitCompletion` puts `a` no later than `b`
when `compareDesc(a.date, b.date) <= 0`. -/
def sortsBefore (a b : Completion) : Prop := compareDesc a.date b.date ≤ 0

instance : DecidableRel sortsBefore := fun a b =>
  inferInstanceAs (Decidable (compareDesc a.date b.date ≤ 0))

/-- The call `newCompletions.sort((a, b) => compareDesc(a.date, b.date))`: a stable sort. -/
def sortCompletions (completions : List Completion) : List Completion :=
  completions.insertionSort sortsBefore

/-- The body of the `map` callback of `toggleHabitCompletion` for a habit whose id matches.
On a number, `habit.bestStreak || 0` is `habit.bestStreak`. -/
def toggleHabit (habits : List Habit) (now : Int) (uuid : String) (date : Int)
    (habit : Habit) : Habit :=
  let targetDate := startOfDay date
  let dateStr := formatYMD targetDate
  let existingCompletionIndex :=
    habit.completions.findIdx? (fun comp => formatYMD comp.date == dateStr)
  let newCompletions :=
    match existingCompletionIndex with
    | some index => habit.completions.eraseIdx index
    | none => habit.completions ++ [{ id := uuid, date := targetDate, timestamp := now }]
  let newCompletions := sortCompletions newCompletions
  let streak := calculateStreak habits now habit.id (some newCompletions)
  let bestStreak := max streak habit.bestStreak
  { habit with
    completions := newCompletions
    streak := streak
    bestStreak := bestStreak
    updatedAt := now }

/-- The operation `toggleHabitCompletion(habitId, date)`: the updater applied to
`prevHabits`, with `calculateStreak` reading the captured collection `habits`. -/
def toggleHabitCompletion (habits : List Habit) (now : Int) (uuid : String)
    (habitId : String) (date : Int) (prevHabits : List Habit) : List Habit :=
  prevHabits.map fun habit =>
    if habit.id != habitId then habit else toggleHabit habits now uuid date habit

/-- The function `isHabitCompletedForDate(habitId, date)`. -/
def isHabitCompletedForDate (habits : List Habit) (habitId : String) (date : Int) : Bool :=
  match habits.find? (fun h => h.id == habitId) with
  | none => false
  | some habit =>
    habit.completions.any fun comp => formatYMD comp.date == formatYMD (startOfDay date)

/-- The store operation `toggleCompletion` on a settled store: the captured collection is
the current one. -/
def toggleCompletion (now : Int) (uuid : String) (habitId : String) (date : Int)
    (habits : List Habit) : List Habit :=
  toggleHabitCompletion habits now uuid habitId date habits

/-! ## The calendar-day reading of a completion list -/

/-- Whether `completions` holds a record dated on the calendar day numbered `day`. -/
def completedOn (completions : List Completion) (day : Int) : Bool :=
  completions.any fun comp => formatYMD comp.date == day

/-- At most one completion per calendar day. -/
def DistinctDays (completions : List Completion) : Prop :=
  (completions.map fun comp => formatYMD comp.date).Nodup

instance (completions : List Completion) : Decidable (DistinctDays completions) :=
  inferInstanceAs (Decidable (List.Nodup _))

/-- The loop `streakLoop` read on day numbers: `done` tells which days are completed and
`day` is the day of `currentDate`. -/
def dayWalk (done : Int → Bool) : Nat → Int → Nat → Nat → Nat
  | 0, _, streak, _ => streak
  | fuel + 1, day, streak, daysPassed =>
    if daysPassed ≤ 1000 then
      if done day then dayWalk done fuel (day - 1) (streak + 1) (daysPassed + 1)
      else streak
    else streak

/-- The daily branch of `calculateStreak` read on day numbers. -/
def dailyStreak (done : Int → Bool) (today : Int) : Nat :=
  if !done today then dayWalk done 1001 (today - 1) 0 1 else dayWalk done 1001 today 0 0

/-- One call `toggleHabitCompletion(habitId, date)` on a settled store, with the clock
reading and the generated id it meets. -/
structure ToggleCall where
  now : Int
  uuid : String
  habitId : String
  date : Int
  deriving DecidableEq, Repr

/-- A sequence of `toggleCompletion` calls, the head of the list first. -/
def toggleAll (calls : List ToggleCall) (habits : List Habit) : List Habit :=
  calls.foldl (fun hs call => toggleCompletion call.now call.uuid call.habitId call.date hs)
    habits

/-! ## Sequences of store operations -/

/-- One call of a store operation on a settled store, with the clock readings and the
generated id it meets. -/
inductive StoreOp where
  | create (now now' : Int) (uuid : String) (habitData : HabitData)
  | update (now : Int) (id : String) (updatedData : UpdatedData)
  | delete (id : String)
  | toggle (now : Int) (uuid : String) (habitId : String) (date : Int)
  deriving DecidableEq, Repr

/-- The collection after one store operation. -/
def applyOp (op : StoreOp) (habits : List Habit) : List Habit :=
  match op with
  | .create now now' uuid habitData => (addHabit now now' uuid habitData habits).1
  | .update now id updatedData => updateHabit now id updatedData habits
  | .delete id => deleteHabit id habits
  | .toggle now uuid habitId date => toggleCompletion now uuid habitId date habits

/-- The collection after a sequence of store operations, the head of the list first. -/
def runOps (ops : List StoreOp) (habits : List Habit) : List Habit :=
  ops.foldl (fun hs op => applyOp op hs) habits

/-- The ids that `uuidv4()` returned to the `addHabit` calls of a sequence, in order. -/
def createdIds : List StoreOp → List String
  | [] => []
  | .create _ _ uuid _ :: ops => uuid :: createdIds ops
  | .update _ _ _ :: ops => createdIds ops
  | .delete _ :: ops => createdIds ops
  | .toggle _ _ _ _ :: ops => createdIds ops

/-- Whether the operation is an `updateHabit` whose `updatedData` has an `id` field. -/
def givesId : StoreOp → Bool
  | .update _ _ updatedData => updatedData.id.isSome
  | _ => false

/-! ## The habit form (`HabitForm.js`) -/

/-- The state `formData` of the habit form. -/
structure FormData where
  name : String
  description : String
  category : String
  icon : String
  color : String
  frequency : Frequency
  reminders : List Reminder
  deriving DecidableEq, Repr

/-- The characters `String.prototype.trim` removes: the ECMAScript white space and line
terminator code points. -/
def isWhiteSpace (c : Char) : Bool :=
  c.toNat ∈ [0x09, 0x0A, 0x0B, 0x0C, 0x0D, 0x20, 0xA0, 0x1680, 0x2000, 0x2001, 0x2002,
    0x2003, 0x2004, 0x2005, 0x2006, 0x2007, 0x2008, 0x2009, 0x200A, 0x2028, 0x2029,
    0x202F, 0x205F, 0x3000, 0xFEFF]

/-- The method `String.prototype.trim`. -/
def trim (s : String) : String :=
  String.mk ((s.data.dropWhile isWhiteSpace).reverse.dropWhile isWhiteSpace).reverse

/-- The object `newErrors` that `validateForm` builds, as a list of keys and messages. -/
def formErrors (formData : FormData) : List (String × String) :=
  (if trim formData.name == "" then [("name", "Name is required")] else []) ++
  (if formData.frequency.type == "weekly" &&
      (formData.frequency.days.isNone || formData.frequency.days == some []) then
    [("days", "Select at least one day")] else []) ++
  (if formData.frequency.type == "custom" &&
      (formData.frequency.timesPerWeek.isNone || formData.frequency.timesPerWeek == some 0)
    then [("timesPerWeek", "Enter a valid number")] else [])

/-- The function `validateForm`: whether `newErrors` has no key. -/
def validateForm (formData : FormData) : Bool :=
  (formErrors formData).length == 0

/-- The form state as the argument of `addHabit`. -/
def FormData.toHabitData (formData : FormData) : HabitData :=
  { name := formData.name
    description := some formData.description
    icon := some formData.icon
    category := some formData.category
    frequency := some formData.frequency
    reminders := some formData.reminders
    color := some formData.color }

/-- The form state as the argument `updatedData` of `updateHabit`. -/
def FormData.toUpdatedData (formData : FormData) : UpdatedData :=
  { name := some formData.name
    description := some formData.description
    icon := some formData.icon
    category := some formData.category
    frequency := some formData.frequency
    reminders := some formData.reminders
    color := some formData.color }

/-- The effect of `handleSubmit` on the habit collection: nothing when `validateForm`
fails, `updateHabit(id, formData)` in edit mode and `addHabit(formData)` otherwise. -/
def handleSubmit (now now' : Int) (uuid : String) (isEditMode : Bool) (id : String)
    (formData : FormData) (prevHabits : List Habit) : List Habit :=
  if !validateForm formData then prevHabits
  else if isEditMode then updateHabit now id formData.toUpdatedData prevHabits
  else (addHabit now now' uuid formData.toHabitData prevHabits).1

/-! ## Persistence (the `localStorage` effects of `HabitProvider`) -/

/-- The JavaScript value of a date-valued field: a `Date` object for an instant, or the
ISO-8601 string that `Date.prototype.toJSON` gives for that instant. -/
inductive DateValue where
  | date (time : Int)
  | isoString (time : Int)
  deriving DecidableEq, Repr

/-- What `JSON.stringify` writes for a date-valued field: a `Date` becomes its ISO-8601
string, a string stays. -/
def DateValue.toJSON : DateValue → DateValue
  | .date time => .isoString time
  | .isoString time => .isoString time

/-- The call `new Date(value)`: the `Date` of the instant that a `Date` or an ISO-8601
string denotes. -/
def DateValue.toDate : DateValue → DateValue
  | .date time => .date time
  | .isoString time => .date time

/-- A completion as a JavaScript object whose date-valued fields may be dates or strings. -/
structure CompletionValue where
  id : String
  date : DateValue
  timestamp : DateValue
  deriving DecidableEq, Repr

/-- A habit as a JavaScript object whose date-valued fields may be dates or strings. -/
structure HabitValue where
  id : String
  name : String
  description : String
  icon : String
  category : String
  frequency : Frequency
  reminders : List Reminder
  completions : List CompletionValue
  createdAt : DateValue
  updatedAt : DateValue
  streak : Nat
  bestStreak : Nat
  color : String
  deriving DecidableEq, Repr

/-- A completion of the store as a JavaScript object: both date-valued fields are dates. -/
def Completion.toValue (comp : Completion) : CompletionValue :=
  { id := comp.id, date := .date comp.date, timestamp := .date comp.timestamp }

/-- A habit of the store as a JavaScript object: every date-valued field is a date. -/
def Habit.toValue (habit : Habit) : HabitValue :=
  { id := habit.id
    name := habit.name
    description := habit.description
    icon := habit.icon
    category := habit.category
    frequency := habit.frequency
    reminders := habit.reminders
    completions := habit.completions.map Completion.toValue
    createdAt := .date habit.createdAt
    updatedAt := .date habit.updatedAt
    streak := habit.streak
    bestStreak := habit.bestStreak
    color := habit.color }

/-- The content of the text `JSON.stringify(habits)`: the same objects with every date
written as its ISO-8601 string. -/
def stringify (habits : List HabitValue) : List HabitValue :=
  habits.map fun habit =>
    { habit with
      createdAt := habit.createdAt.toJSON
      updatedAt := habit.updatedAt.toJSON
      completions := habit.completions.map fun comp =>
        { comp with date := comp.date.toJSON, timestamp := comp.timestamp.toJSON } }

/-- The call `JSON.parse(storedHabits, reviver)` on such a text: the reviver replaces the
values under the keys `createdAt` and `updatedAt` by `new Date(value)` and maps the array
under the key `completions` to `{...completion, date: new Date(completion.date)}`; every
other value stays as parsed. -/
def parseHabits (stored : List HabitValue) : List HabitValue :=
  stored.map fun habit =>
    { habit with
      createdAt := habit.createdAt.toDate
      updatedAt := habit.updatedAt.toDate
      completions := habit.completions.map fun completion =>
        { completion with date := completion.date.toDate } }

/-! ## Completion rate (`helpers.js`) -/

/-- A finite non-negative JavaScript Number (IEEE 754 binary64), `mantissa * 2 ^ exponent`. -/
structure Binary64 where
  mantissa : Nat
  exponent : Int
  deriving DecidableEq, Repr

/-- The position of the leading bit of `n`, computed in at most `fuel` halvings. -/
def floorLog2Fuel : Nat → Nat → Nat
  | 0, _ => 0
  | fuel + 1, n => if 2 ≤ n then floorLog2Fuel fuel (n / 2) + 1 else 0

/-- The position of the leading bit of `n`: `2 ^ floorLog2 n ≤ n < 2 ^ (floorLog2 n + 1)`
for `n > 0`. -/
def floorLog2 (n : Nat) : Nat := floorLog2Fuel n n

/-- The binary exponent of the ratio `n / d` (`n, d > 0`): the `e` with
`2 ^ e ≤ n / d < 2 ^ (e + 1)`. -/
def binade (n d : Nat) : Int :=
  let e0 : Int := (floorLog2 n : Int) - (floorLog2 d : Int)
  if n * 2 ^ (-e0).toNat < d * 2 ^ e0.toNat then e0 - 1 else e0

/-- The integer nearest to `N / D` (`D > 0`), the even one of the two at a tie. -/
def nearestEven (N D : Nat) : Nat :=
  let q := N / D
  let r := N % D
  if 2 * r < D then q else if D < 2 * r then q + 1 else if q % 2 = 0 then q else q + 1

/-- The binary64 value nearest to the ratio `n / d` (`d > 0`), ties to the even mantissa:
the rounding that IEEE 754 prescribes for the result of an arithmetic operation. The
mantissa has 53 bits; the range of the exponent is not bounded. -/
def roundRatio (n d : Nat) : Binary64 :=
  if n = 0 then ⟨0, 0⟩
  else
    ⟨nearestEven (n * 2 ^ (52 - binade n d).toNat) (d * 2 ^ (binade n d - 52).toNat),
      binade n d - 52⟩

/-- The rational number that a `Binary64` denotes. -/
def Binary64.toRat (a : Binary64) : ℚ := a.mantissa * (2 : ℚ) ^ a.exponent

/-- The JavaScript division `a / b` of Numbers (`b > 0`). -/
def Binary64.div (a b : Binary64) : Binary64 :=
  roundRatio (a.mantissa * 2 ^ (a.exponent - b.exponent).toNat)
    (b.mantissa * 2 ^ (b.exponent - a.exponent).toNat)

/-- The JavaScript multiplication `a * b` of Numbers. -/
def Binary64.mul (a b : Binary64) : Binary64 :=
  roundRatio (a.mantissa * b.mantissa * 2 ^ (a.exponent + b.exponent).toNat)
    (2 ^ (-(a.exponent + b.exponent)).toNat)

/-- The function `Math.round` on a non-negative Number `a`: the integer `⌊a + 1/2⌋`. -/
def Binary64.round (a : Binary64) : Nat :=
  (2 * a.mantissa * 2 ^ a.exponent.toNat + 2 ^ (-a.exponent).toNat) /
    (2 * 2 ^ (-a.exponent).toNat)

/-- The function `calculateCompletionRate(completions, totalDays)` on natural numbers. -/
def calculateCompletionRate (completions totalDays : Nat) : Nat :=
  if totalDays = 0 then 0
  else Binary64.round (Binary64.mul (Binary64.div ⟨completions, 0⟩ ⟨totalDays, 0⟩) ⟨100, 0⟩)

/-! ## Loading (`HabitProvider`, the effect that runs on mount) -/

/-- A JavaScript value that `JSON.parse` with the reviver of the load effect can return. -/
inductive JsValue where
  | null
  | bool (b : Bool)
  | number (n : Int)
  | string (s : String)
  | date (time : Int)
  | array (items : List JsValue)
  | object (fields : List (String × JsValue))

/-- What the load effect works on: the states `habits` and `loading` of `HabitProvider`
and the calls of `console.error` made so far, each with its message and the error it is
given. -/
structure LoadState where
  habits : JsValue
  loading : Bool
  logged : List (String × String)

/-- The state before the effect runs: `useState([])`, `useState(true)`, nothing logged. -/
def initialLoadState : LoadState :=
  { habits := .array [], loading := true, logged := [] }

/-- The load effect of `HabitProvider`. The argument `storedHabits` is what
`localStorage.getItem('habits')` returns, `none` for `null`; the test
`if (storedHabits)` fails for `null` and for the empty string. The argument `jsonParse`
stands for the call `JSON.parse(text, reviver)`: `.ok value` when it returns `value`,
`.error error` when it throws `error`. -/
def loadHabits (jsonParse : String → Except String JsValue)
    (storedHabits : Option String) : LoadState :=
  let state := initialLoadState
  let state :=
    match storedHabits with
    | none => state
    | some text =>
      if text = "" then state
      else
        match jsonParse text with
        | .ok parsedHabits => { state with habits := parsedHabits }
        | .error error =>
          { state with
            logged := state.logged ++ [("Error parsing stored habits:", error)]
            habits := .array [] }
  { state with loading := false }

/-! ## Export (`exportHabits`) -/

/-- The method `Array.prototype.join` on an array of strings. -/
def join (separator : String) : List String → String
  | [] => ""
  | [s] => s
  | s :: t :: rest => s ++ separator ++ join separator (t :: rest)

/-- The template literal that `exportHabits` builds for one habit. The conversion of a
`Date` to a string (`Date.prototype.toString`) is the argument `dateToString`. -/
def csvRow (dateToString : Int → String) (habit : Habit) : String :=
  "\"" ++ habit.id ++ "\",\"" ++ habit.name ++ "\",\"" ++ habit.description ++ "\",\"" ++
    habit.category ++ "\",\"" ++ dateToString habit.createdAt ++ "\",\"" ++
    toString habit.completions.length ++ "\""

/-- The function `exportHabits(format)`; `jsonStringify` stands for
`JSON.stringify(habits, null, 2)`. -/
def exportHabits (jsonStringify : List Habit → String) (dateToString : Int → String)
    (habits : List Habit) (format : String) : Option String :=
  if format == "json" then some (jsonStringify habits)
  else if format == "csv" then
    some ("id,name,description,category,createdAt,completions\n" ++
      join "\n" (habits.map (csvRow dateToString)))
  else none

/-- The lines of a text: the pieces between line feeds, a final line feed ending the last
line. -/
def textLines : List Char → List (List Char)
  | [] => []
  | c :: cs =>
    if c = '\n' then [] :: textLines cs
    else
      match textLines cs with
      | [] => [[c]]
      | line :: lines => (c :: line) :: lines

/-! ## Calendar (`Date` and `date-fns`) -/

/-- The method `Date.prototype.getDay`: 0 for Sunday to 6 for Saturday. Day 0
(1970-01-01) is a Thursday. -/
def getDay (date : Int) : Int := (formatYMD date + 4) % 7

/-- The number of the day `year-month-day` of the Gregorian calendar, months counted from
1; month 13 is January of the next year. The divisors are positive, so `/` rounds down. -/
def daysFromCivil (year month day : Int) : Int :=
  let y := if month ≤ 2 then year - 1 else year
  let era := y / 400
  let yoe := y - era * 400
  let mp := if month > 2 then month - 3 else month + 9
  let doy := (153 * mp + 2) / 5 + day - 1
  let doe := yoe * 365 + yoe / 4 - yoe / 100 + doy
  era * 146097 + doe - 719468

/-- The year, month (from 1) and day of the month of the day numbered `z`. -/
def civilFromDays (z : Int) : Int × Int × Int :=
  let z := z + 719468
  let era := z / 146097
  let doe := z - era * 146097
  let yoe := (doe - doe / 1460 + doe / 36524 - doe / 146096) / 365
  let y := yoe + era * 400
  let doy := doe - (365 * yoe + yoe / 4 - yoe / 100)
  let mp := (5 * doy + 2) / 153
  let d := doy - (153 * mp + 2) / 5 + 1
  let m := if mp < 10 then mp + 3 else mp - 9
  (if m ≤ 2 then y + 1 else y, m, d)

/-- The method `Date.prototype.getFullYear`. -/
def getFullYear (date : Int) : Int := (civilFromDays (formatYMD date)).1

/-- The method `Date.prototype.getMonth`: 0 for January to 11 for December. -/
def getMonth (date : Int) : Int := (civilFromDays (formatYMD date)).2.1 - 1

/-- The method `Date.prototype.getDate`: the day of the month. -/
def getDate (date : Int) : Int := (civilFromDays (formatYMD date)).2.2

/-- The `date-fns` function `startOfWeek(date, { weekStartsOn })`. -/
def startOfWeek (date weekStartsOn : Int) : Int :=
  let day := getDay date
  let diff := (if day < weekStartsOn then 7 else 0) + day - weekStartsOn
  startOfDay date - diff * msPerDay

/-- The `date-fns` function `endOfWeek(date, { weekStartsOn })`: the last millisecond of
the week. -/
def endOfWeek (date weekStartsOn : Int) : Int :=
  let day := getDay date
  let diff := (if day < weekStartsOn then -7 else 0) + 6 - (day - weekStartsOn)
  startOfDay date + diff * msPerDay + (msPerDay - 1)

/-- The `date-fns` function `startOfMonth`: `setDate(1)` and `setHours(0, 0, 0, 0)`. -/
def startOfMonth (date : Int) : Int :=
  startOfDay date - (getDate date - 1) * msPerDay

/-- The `date-fns` function `endOfMonth`: `setFullYear(year, month + 1, 0)` and
`setHours(23, 59, 59, 999)`. -/
def endOfMonth (date : Int) : Int :=
  (daysFromCivil (getFullYear date) (getMonth date + 2) 1 - 1) * msPerDay + (msPerDay - 1)

/-- The `date-fns` function `isWithinInterval(date, { start, end })`. -/
def isWithinInterval (date start finish : Int) : Bool :=
  decide (start ≤ date) && decide (date ≤ finish)

/-- The `date-fns` function `getWeekYear` with the default options (weeks start on Sunday,
the first week of a year contains January 1st). -/
def getWeekYear (date : Int) : Int :=
  let year := getFullYear date
  let startOfNextYear := startOfWeek (daysFromCivil (year + 1) 1 1 * msPerDay) 0
  let startOfThisYear := startOfWeek (daysFromCivil year 1 1 * msPerDay) 0
  if date ≥ startOfNextYear then year + 1
  else if date ≥ startOfThisYear then year
  else year - 1

/-- The `date-fns` function `startOfWeekYear` with the default options. -/
def startOfWeekYear (date : Int) : Int :=
  startOfWeek (daysFromCivil (getWeekYear date) 1 1 * msPerDay) 0

/-- The `date-fns` function `getWeek` with the default options, the value of
`format(date, 'w')`: the number of weeks from the start of the week-numbering year to the
start of the week of `date`, plus one. -/
def getWeek (date : Int) : Int :=
  (startOfWeek date 0 - startOfWeekYear date) / (7 * msPerDay) + 1

/-! ## Grouping (`groupCompletionsByPeriod`) -/

/-- The key of a bucket, represented by the calendar data that the string names:
`yyyy-MM-dd` by the number of the day, `yyyy-Ww` by the calendar year and the week
number, `yyyy-MM` by the calendar year and the month. -/
inductive PeriodKey where
  | day (dayNumber : Int)
  | week (year weekNum : Int)
  | month (year month : Int)
  deriving DecidableEq, Repr

/-- The `switch (period)` of `groupCompletionsByPeriod`. -/
def periodKey (period : String) (date : Int) : PeriodKey :=
  if period == "week" then .week (getFullYear date) (getWeek date)
  else if period == "month" then .month (getFullYear date) (getMonth date + 1)
  else .day (formatYMD date)

/-- The statements `if (!grouped[key]) grouped[key] = []; grouped[key].push(completion)`
on an object whose keys keep their order of insertion. -/
def addToGroup (grouped : List (PeriodKey × List Completion)) (key : PeriodKey)
    (completion : Completion) : List (PeriodKey × List Completion) :=
  match grouped with
  | [] => [(key, [completion])]
  | (k, bucket) :: rest =>
    if k = key then (k, bucket ++ [completion]) :: rest
    else (k, bucket) :: addToGroup rest key completion

/-- The function `groupCompletionsByPeriod(completions, period)`. -/
def groupCompletionsByPeriod (completions : List Completion) (period : String) :
    List (PeriodKey × List Completion) :=
  completions.foldl
    (fun grouped completion =>
      addToGroup grouped (periodKey period completion.date) completion)
    []

/-- The bucket under `key`, empty when there is none. -/
def bucketOf (grouped : List (PeriodKey × List Completion)) (key : PeriodKey) :
    List Completion :=
  match grouped with
  | [] => []
  | (k, bucket) :: rest => if k = key then bucket else bucketOf rest key

/-! ## Statistics (`HabitStats.js`) -/

/-- The `date-fns` function `eachDayOfInterval`: the starts of the days from the day of
`start` to the day of `finish`. -/
def eachDayOfInterval (start finish : Int) : List Int :=
  (List.range (formatYMD finish - formatYMD start + 1).toNat).map fun (i : Nat) =>
    startOfDay start + (i : Int) * msPerDay

/-- The function `calculateStats` of `HabitStats`: the fields `total` and `rate`. The
state `habit` is `none` until the habit is found. -/
def calculateStats (habits : List Habit) (habit : Option Habit) (now : Int) : Nat × Nat :=
  match habit with
  | none => (0, 0)
  | some habit =>
    let totalCompletions := habit.completions.length
    let thirtyDaysAgo := now - 30 * msPerDay
    let daysInRange := eachDayOfInterval thirtyDaysAgo now
    let completedDaysInRange :=
      (daysInRange.filter fun day => isHabitCompletedForDate habits habit.id day).length
    let completionRate := calculateCompletionRate completedDaysInRange daysInRange.length
    (totalCompletions, completionRate)

/-- The `date-fns` function `eachWeekOfInterval({ start, end }, { weekStartsOn })`: the
starts of the weeks from the week of `start` to the week of `finish`. The loop of the
library goes from the start of the week of `start` in steps of one week while the start
of the week of `finish` is not passed. -/
def eachWeekOfInterval (start finish weekStartsOn : Int) : List Int :=
  let startDateWeek := startOfWeek start weekStartsOn
  let endDateWeek := startOfWeek finish weekStartsOn
  (List.range ((formatYMD endDateWeek - formatYMD startDateWeek) / 7 + 1).toNat).map
    fun (i : Nat) => startDateWeek + (i : Int) * (7 * msPerDay)

/-- The series `data` of the chart effect of `HabitStats` for the time range `month`, for
the habit with the id `habitId` and the clock reading `now`: for each week of the month,
the number of its days that are in the month and on which the habit is completed. -/
def monthChartData (habits : List Habit) (habitId : String) (now : Int) : List Nat :=
  let startDate := startOfMonth now
  let endDate := endOfMonth now
  let weeks := eachWeekOfInterval startDate endDate 1
  weeks.map fun weekStart =>
    let weekEnd := endOfWeek weekStart 1
    let daysInWeek := eachDayOfInterval weekStart weekEnd
    (daysInWeek.filter fun day =>
      isWithinInterval day startDate endDate && isHabitCompletedForDate habits habitId day).length

/-! ## Sample data -/

/-- Day `n` as a date: the first instant of the calendar day numbered `n`. -/
def dayStart (n : Int) : Int := n * msPerDay

/-- A daily habit as `addHabit` creates it, at 08:00 on day 19725 (2024-01-03). -/
def sampleHabit : Habit :=
  newHabit (dayStart 19725 + 28800000) (dayStart 19725 + 28800000) "h1" { name := "Run" }

/-- Completions on the days 19723, 19724 and 19725, given out of order. -/
def sampleCompletions : List Completion :=
  [ { id := "c2", date := dayStart 19724, timestamp := dayStart 19724 + 100 },
    { id := "c3", date := dayStart 19725, timestamp := dayStart 19725 + 100 },
    { id := "c1", date := dayStart 19723, timestamp := dayStart 19723 + 100 } ]

/-- A daily habit holding `sampleCompletions`, in the order given there. -/
def trackedHabit : Habit :=
  { sampleHabit with completions := sampleCompletions, streak := 3, bestStreak := 3 }

/-- A habit holding two completions on the same calendar day (2024-01-03), with the
streak that `calculateStreak` gives on that day. -/
def doubledHabit : Habit :=
  { sampleHabit with
    completions :=
      [ { id := "c1", date := dayStart 19725, timestamp := dayStart 19725 + 100 },
        { id := "c2", date := dayStart 19725, timestamp := dayStart 19725 + 200 } ]
    streak := 1
    bestStreak := 1 }

/-- The call that toggles day `19725 + i` (2024-01-03 and the days after it), made at
01:00 on day 20726, the 1002nd of those days. -/
def longRunCall (i : Nat) : ToggleCall :=
  { now := dayStart 20726 + 3600000
    uuid := "c" ++ toString i
    habitId := "h1"
    date := dayStart (19725 + i) }

/-- The calls that toggle 2024-01-01, 01-02 and 01-03, made on 2024-01-03. -/
def threeDayCall (i : Nat) : ToggleCall :=
  { now := dayStart 19725 + 28800000 + 60000 * (i + 1)
    uuid := "c" ++ toString i
    habitId := "h1"
    date := dayStart (19723 + i) + 43200000 }

/-- The call that toggles 2024-01-03 once more, later on that day. -/
def undoCall : ToggleCall :=
  { now := dayStart 19725 + 30000000
    uuid := "c9"
    habitId := "h1"
    date := dayStart 19725 + 43200000 }

/-- A second habit, created on 2024-01-04 with the id `h2`. -/
def otherHabit : Habit :=
  newHabit (dayStart 19726 + 3600000) (dayStart 19726 + 3600000) "h2" { name := "Read" }

/-- A weekly habit (Monday, Wednesday, Friday) with the id `h3`. -/
def weeklyHabit : Habit :=
  newHabit (dayStart 19726 + 7200000) (dayStart 19726 + 7200000) "h3"
    { name := "Swim", frequency := some { type := "weekly", days := some [1, 3, 5] } }

/-- Two habits are created, one is toggled, renamed, the other deleted, a third created. -/
def sampleOps : List StoreOp :=
  [ .create (dayStart 19725 + 28800000) (dayStart 19725 + 28800000) "h1" { name := "Run" },
    .create (dayStart 19726 + 3600000) (dayStart 19726 + 3600000) "h2" { name := "Read" },
    .toggle (dayStart 19726 + 3700000) "c1" "h1" (dayStart 19726),
    .update (dayStart 19726 + 3800000) "h1" { name := some "Walk" },
    .delete "h2",
    .create (dayStart 19727) (dayStart 19727) "h3" { name := "Swim" } ]

/-- Two habits are created, then `updateHabit("h1", {id: "h2"})` is called. -/
def renumberOps : List StoreOp :=
  [ .create (dayStart 19725 + 28800000) (dayStart 19725 + 28800000) "h1" { name := "Run" },
    .create (dayStart 19726 + 3600000) (dayStart 19726 + 3600000) "h2" { name := "Read" },
    .update (dayStart 19726 + 3800000) "h1" { id := some "h2" } ]

/-- Two habits are created, the second is completed on 2024-01-04, then
`updateHabit("h2", {id: "h1"})` is called: both habits now have the id `h1`. -/
def shadowOps : List StoreOp :=
  [ .create (dayStart 19725 + 28800000) (dayStart 19725 + 28800000) "h1" { name := "Run" },
    .create (dayStart 19726 + 3600000) (dayStart 19726 + 3600000) "h2" { name := "Read" },
    .toggle (dayStart 19726 + 3700000) "c1" "h2" (dayStart 19726 + 3700000),
    .update (dayStart 19726 + 3800000) "h2" { id := some "h1" } ]

/-- The call `JSON.parse(text, reviver)` on four sample texts: the texts `42`, `[]` and
the empty object literal parse to the number 42, the empty array and the empty object
(the reviver returns each as it is), and the call throws a `SyntaxError` on the text
`not json`. No other text is sampled; the function gives an error for them. -/
def sampleJsonParse (text : String) : Except String JsValue :=
  if text = "\x7b\x7d" then .ok (.object [])
  else if text = "42" then .ok (.number 42)
  else if text = "[]" then .ok (.array [])
  else .error "SyntaxError"

/-- The initial state of the habit form: every field as the form sets it, the name empty. -/
def emptyForm : FormData :=
  { name := ""
    description := ""
    category := "Health"
    icon := "fitness_center"
    color := "#6200ee"
    frequency := { type := "daily" }
    reminders := [] }

/-- The completion of day `20726 - i`: with `i` below 1001, the 1001 consecutive days
ending on day 20726. -/
def longRunCompletion (i : Nat) : Completion :=
  { id := "c" ++ toString i
    date := dayStart (20726 - i)
    timestamp := dayStart (20726 - i) + 100 }

/-- A habit completed on each of the 30 days ending on 2024-01-03, and on no other day. -/
def steadyHabit : Habit :=
  { sampleHabit with
    completions := (List.range 30).map fun i =>
      { id := "c" ++ toString i, date := dayStart (19725 - i),
        timestamp := dayStart (19725 - i) + 100 } }

/-- A habit whose description has two lines. -/
def twoLineHabit : Habit :=
  { sampleHabit with name := "A, B", description := "Morning\nrun" }

/-- A stand-in for `Date.prototype.toString`: the number of the day, for the samples. -/
def sampleDateToString (date : Int) : String := "day " ++ toString (formatYMD date).toNat

/-- A habit named `A, B`. -/
def commaHabit : Habit := { sampleHabit with name := "A, B" }

/-- A completion on Monday 2024-01-01 and one on Monday 2024-12-30. -/
def yearEndCompletions : List Completion :=
  [ { id := "c1", date := dayStart 19723, timestamp := dayStart 19723 + 100 },
    { id := "c2", date := dayStart 20087, timestamp := dayStart 20087 + 100 } ]

/-! ## Dates -/

theorem formatYMD_eq_ediv (t : Int) : formatYMD t = t / msPerDay :=
  Int.fdiv_eq_ediv t (by decide)

theorem formatYMD_startOfDay (t : Int) : formatYMD (startOfDay t) = formatYMD t := by
  simp only [startOfDay, formatYMD_eq_ediv, Int.fdiv_eq_ediv t (show (0 : Int) ≤ msPerDay by decide)]
  exact Int.mul_ediv_cancel _ (by decide)

theorem formatYMD_sub_day (t : Int) : formatYMD (t - msPerDay) = formatYMD t - 1 := by
  simp only [formatYMD_eq_ediv]
  have h := Int.add_mul_ediv_right t (-1) (show msPerDay ≠ 0 by decide)
  have e : t + -1 * msPerDay = t - msPerDay := by ring
  rw [e] at h
  rw [h]; ring

theorem formatYMD_dayStart_add (n r : Int) (h0 : 0 ≤ r) (h1 : r < msPerDay) :
    formatYMD (dayStart n + r) = n := by
  simp only [formatYMD_eq_ediv, dayStart]
  rw [Int.add_comm, Int.add_mul_ediv_right _ _ (show msPerDay ≠ 0 by decide),
    Int.ediv_eq_zero_of_lt h0 h1]
  simp

theorem formatYMD_dayStart (n : Int) : formatYMD (dayStart n) = n := by
  have := formatYMD_dayStart_add n 0 (by decide) (by decide)
  simpa using this

theorem isToday_iff (now date : Int) :
    isToday now date = true ↔ formatYMD date = formatYMD now := by
  simp only [isToday, startOfDay, formatYMD, beq_iff_eq]
  constructor
  · intro h
    exact Int.eq_of_mul_eq_mul_right (show msPerDay ≠ 0 by decide) h
  · intro h; rw [h]

/-! ## The streak loop on day numbers -/

theorem streakLoop_eq_dayWalk (completions : List Completion) (fuel : Nat) :
    ∀ (currentDate : Int) (streak daysPassed : Nat),
      streakLoop completions fuel currentDate streak daysPassed =
        dayWalk (completedOn completions) fuel (formatYMD currentDate) streak daysPassed := by
  induction fuel with
  | zero => intro _ _ _; rfl
  | succ fuel ih =>
    intro currentDate streak daysPassed
    simp only [streakLoop, dayWalk, completedOn, ih, formatYMD_sub_day]

theorem any_isToday (completions : List Completion) (now : Int) :
    completions.any (fun comp => isToday now comp.date) =
      completedOn completions (formatYMD now) := by
  unfold completedOn
  congr 1
  funext comp
  rw [Bool.eq_iff_iff, isToday_iff, beq_iff_eq]

theorem dayWalk_nil_done (fuel : Nat) (day : Int) (streak daysPassed : Nat) :
    dayWalk (fun _ => false) fuel day streak daysPassed = streak := by
  cases fuel <;> simp [dayWalk]

/-- For a daily habit that the id names in the captured collection, `calculateStreak` is
the day-number walk over the completed days. -/
theorem calculateStreak_daily (habits : List Habit) (now : Int) (habitId : String)
    (habit : Habit) (completions : Option (List Completion))
    (hfind : habits.find? (fun h => h.id == habitId) = some habit)
    (hdaily : habit.frequency.type = "daily") :
    calculateStreak habits now habitId completions =
      dailyStreak (completedOn (completions.getD habit.completions)) (formatYMD now) := by
  simp only [calculateStreak, hfind, hdaily, any_isToday, streakLoop_eq_dayWalk,
    formatYMD_sub_day, dailyStreak]
  by_cases hlen : (completions.getD habit.completions).length = 0
  · have hnil : completions.getD habit.completions = [] := List.length_eq_zero.mp hlen
    have hdone : completedOn [] = fun _ => false := by funext d; rfl
    simp [hnil, hdone, dayWalk_nil_done]
  · simp [hlen]

/-- A run of `k` completed days below `day` is counted whole, as long as the cap and the
fuel allow it. -/
theorem dayWalk_run (done : Int → Bool) (k : Nat) :
    ∀ (fuel : Nat) (day : Int) (streak daysPassed : Nat),
      (∀ j : Nat, j < k → done (day - j) = true) → daysPassed + k ≤ 1001 → k ≤ fuel →
      dayWalk done fuel day streak daysPassed =
        dayWalk done (fuel - k) (day - k) (streak + k) (daysPassed + k) := by
  induction k with
  | zero => intro fuel day streak daysPassed _ _ _; simp
  | succ k ih =>
    intro fuel day streak daysPassed hrun hcap hfuel
    obtain ⟨fuel, rfl⟩ : ∃ f, fuel = f + 1 := ⟨fuel - 1, by omega⟩
    have h0 : done day = true := by simpa using hrun 0 (by omega)
    have hle : daysPassed ≤ 1000 := by omega
    rw [dayWalk, if_pos hle, if_pos h0]
    rw [ih fuel (day - 1) (streak + 1) (daysPassed + 1) ?_ (by omega) (by omega)]
    · have e1 : fuel + 1 - (k + 1) = fuel - k := by omega
      have e2 : day - 1 - (k : Int) = day - ((k + 1 : Nat) : Int) := by push_cast; ring
      rw [e1, e2]
      congr 1 <;> omega
    · intro j hj
      have := hrun (j + 1) (by omega)
      have e : day - 1 - (j : Int) = day - ((j + 1 : Nat) : Int) := by push_cast; ring
      rw [e]; exact this

/-- The walk stops with the current count at a day that is not completed. -/
theorem dayWalk_stop (done : Int → Bool) (fuel : Nat) (day : Int) (streak daysPassed : Nat)
    (h : done day = false) : dayWalk done fuel day streak daysPassed = streak := by
  cases fuel <;> simp [dayWalk, h]

/-- The walk stops with the current count once the cap is passed. -/
theorem dayWalk_cap (done : Int → Bool) (fuel : Nat) (day : Int) (streak daysPassed : Nat)
    (h : 1000 < daysPassed) : dayWalk done fuel day streak daysPassed = streak := by
  cases fuel <;> simp [dayWalk, Nat.not_le.mpr h]

theorem completedOn_iff (completions : List Completion) (day : Int) :
    completedOn completions day = true ↔ ∃ c ∈ completions, formatYMD c.date = day := by
  simp [completedOn]

theorem completedOn_eq_false_iff (completions : List Completion) (day : Int) :
    completedOn completions day = false ↔ ∀ c ∈ completions, formatYMD c.date ≠ day := by
  simp [completedOn]

/-- With today completed, a run of `k ≤ 1000` completed days ending today, followed by a
gap, gives the streak `k`. -/
theorem dailyStreak_today (done : Int → Bool) (today : Int) (k : Nat) (hk1 : 1 ≤ k)
    (hk : k ≤ 1000) (hrun : ∀ j : Nat, j < k → done (today - j) = true)
    (hgap : done (today - k) = false) : dailyStreak done today = k := by
  have h0 : done today = true := by simpa using hrun 0 (by omega)
  rw [dailyStreak, h0]
  simp only [Bool.not_true, Bool.false_eq_true, if_false]
  rw [dayWalk_run done k 1001 today 0 0 hrun (by omega) (by omega),
    dayWalk_stop _ _ _ _ _ hgap]
  simp

/-- With today not completed, a run of `k ≤ 1000` completed days ending yesterday,
followed by a gap, gives the streak `k`. -/
theorem dailyStreak_yesterday (done : Int → Bool) (today : Int) (k : Nat) (hk : k ≤ 1000)
    (htoday : done today = false)
    (hrun : ∀ j : Nat, j < k → done (today - 1 - j) = true)
    (hgap : done (today - 1 - k) = false) : dailyStreak done today = k := by
  rw [dailyStreak, htoday]
  simp only [Bool.not_false, if_true]
  rw [dayWalk_run done k 1001 (today - 1) 0 1 hrun (by omega) (by omega),
    dayWalk_stop _ _ _ _ _ hgap]
  simp

/-! ## C1: the streak recurrence -/

/-- C1. For a daily habit that `habitId` names in the store, a completion list with a
completion on each of the days `d, d-1, ..., d-k+1` and none on `d-k`, where
`1 ≤ k ≤ 1000`, has streak `k` when today is `d`, and also when today is `d+1` and
`d+1` has no completion. The list is the argument of `calculateStreak` or, when the
argument is absent, the habit's own list. -/
theorem calculateStreak_recurrence (habits : List Habit) (habit : Habit) (habitId : String)
    (completions : Option (List Completion)) (d : Int) (k : Nat) (now : Int)
    (hfind : habits.find? (fun h => h.id == habitId) = some habit)
    (hdaily : habit.frequency.type = "daily")
    (hk1 : 1 ≤ k) (hk : k ≤ 1000)
    (hrun : ∀ j : Nat, j < k →
      ∃ c ∈ completions.getD habit.completions, formatYMD c.date = d - j)
    (hgap : ∀ c ∈ completions.getD habit.completions, formatYMD c.date ≠ d - k) :
    (formatYMD now = d → calculateStreak habits now habitId completions = k) ∧
    (formatYMD now = d + 1 →
      (∀ c ∈ completions.getD habit.completions, formatYMD c.date ≠ d + 1) →
      calculateStreak habits now habitId completions = k) := by
  rw [calculateStreak_daily habits now habitId habit completions hfind hdaily]
  constructor
  · intro hnow
    rw [hnow]
    exact dailyStreak_today _ d k hk1 hk
      (fun j hj => (completedOn_iff _ _).mpr (hrun j hj))
      ((completedOn_eq_false_iff _ _).mpr hgap)
  · intro hnow htoday
    rw [hnow]
    refine dailyStreak_yesterday _ (d + 1) k hk
      ((completedOn_eq_false_iff _ _).mpr htoday) ?_ ?_
    · intro j hj
      have e : d + 1 - 1 - (j : Int) = d - j := by ring
      rw [e]
      exact (completedOn_iff _ _).mpr (hrun j hj)
    · have e : d + 1 - 1 - (k : Int) = d - k := by ring
      rw [e]
      exact (completedOn_eq_false_iff _ _).mpr hgap

/-- C1 at a concrete input: completions on 2024-01-01, 01-02 and 01-03 give the streak 3
both on 2024-01-03 and on 2024-01-04. -/
theorem calculateStreak_recurrence_witness :
    calculateStreak [sampleHabit] (dayStart 19725 + 28800000) "h1"
        (some sampleCompletions) = 3 ∧
      calculateStreak [sampleHabit] (dayStart 19726 + 1000) "h1"
        (some sampleCompletions) = 3 :=
  ⟨(calculateStreak_recurrence [sampleHabit] sampleHabit "h1" (some sampleCompletions)
      19725 3 (dayStart 19725 + 28800000) (by decide) (by decide) (by decide) (by decide)
      (by decide) (by decide)).1 (by decide),
   (calculateStreak_recurrence [sampleHabit] sampleHabit "h1" (some sampleCompletions)
      19725 3 (dayStart 19726 + 1000) (by decide) (by decide) (by decide) (by decide)
      (by decide) (by decide)).2 (by decide) (by decide)⟩

/-! ## The completion list after a toggle -/

theorem eraseIdx_of_findIdx? {α : Type} (p : α → Bool) :
    ∀ (l : List α) (i : Nat), l.findIdx? p = some i → l.eraseIdx i = l.eraseP p := by
  intro l
  induction l with
  | nil => intro i h; simp at h
  | cons a l ih =>
    intro i h
    by_cases hp : p a = true
    · simp [List.findIdx?_cons, hp] at h
      subst h
      simp [hp]
    · rw [List.findIdx?_cons, if_neg hp, List.findIdx?_succ] at h
      obtain ⟨j, hj, rfl⟩ := Option.map_eq_some'.mp h
      rw [List.eraseIdx_cons_succ, ih j hj, List.eraseP_cons_of_neg hp]

/-- The completion list `toggleHabitCompletion` stores: the first completion of the day
removed when there is one, a new completion appended otherwise, then sorted. -/
theorem toggleHabit_completions (habits : List Habit) (now : Int) (uuid : String)
    (date : Int) (habit : Habit) :
    (toggleHabit habits now uuid date habit).completions =
      sortCompletions
        (if completedOn habit.completions (formatYMD date) then
          habit.completions.eraseP (fun comp => formatYMD comp.date == formatYMD date)
        else
          habit.completions ++ [{ id := uuid, date := startOfDay date, timestamp := now }]) := by
  simp only [toggleHabit, formatYMD_startOfDay]
  congr 1
  cases hidx : habit.completions.findIdx? (fun comp => formatYMD comp.date == formatYMD date) with
  | none =>
    have hnone := List.findIdx?_eq_none_iff.mp hidx
    have : completedOn habit.completions (formatYMD date) = false := by
      rw [completedOn, List.any_eq_false]
      intro x hx
      simp [hnone x hx]
    simp [this]
  | some i =>
    have hsome : completedOn habit.completions (formatYMD date) = true := by
      by_contra hc
      have hc : completedOn habit.completions (formatYMD date) = false := by simpa using hc
      rw [completedOn, List.any_eq_false] at hc
      have : habit.completions.findIdx? (fun comp => formatYMD comp.date == formatYMD date)
          = none := List.findIdx?_eq_none_iff.mpr (fun x hx => by simpa using hc x hx)
      rw [this] at hidx
      cases hidx
    simp [hsome, eraseIdx_of_findIdx? _ _ _ hidx]

theorem perm_sortCompletions (completions : List Completion) :
    (sortCompletions completions).Perm completions :=
  List.perm_insertionSort _ _

theorem completedOn_perm {l₁ l₂ : List Completion} (h : l₁.Perm l₂) (day : Int) :
    completedOn l₁ day = completedOn l₂ day := by
  rw [Bool.eq_iff_iff, completedOn_iff, completedOn_iff]
  constructor
  · rintro ⟨c, hc, hd⟩; exact ⟨c, h.mem_iff.mp hc, hd⟩
  · rintro ⟨c, hc, hd⟩; exact ⟨c, h.mem_iff.mpr hc, hd⟩

theorem completedOn_sortCompletions (completions : List Completion) (day : Int) :
    completedOn (sortCompletions completions) day = completedOn completions day :=
  completedOn_perm (perm_sortCompletions completions) day

theorem distinctDays_perm {l₁ l₂ : List Completion} (h : l₁.Perm l₂) :
    DistinctDays l₁ ↔ DistinctDays l₂ :=
  (h.map _).nodup_iff

theorem distinctDays_sortCompletions (completions : List Completion) :
    DistinctDays (sortCompletions completions) ↔ DistinctDays completions :=
  distinctDays_perm (perm_sortCompletions completions)

theorem completedOn_append_single (completions : List Completion) (c : Completion)
    (day : Int) :
    completedOn (completions ++ [c]) day =
      (completedOn completions day || formatYMD c.date == day) := by
  simp [completedOn]

theorem eraseP_day_cons_pos (c : Completion) (l : List Completion) (d : Int)
    (hc : formatYMD c.date = d) :
    (c :: l).eraseP (fun comp => formatYMD comp.date == d) = l := by
  simp [List.eraseP_cons, hc]

theorem eraseP_day_cons_neg (c : Completion) (l : List Completion) (d : Int)
    (hc : formatYMD c.date ≠ d) :
    (c :: l).eraseP (fun comp => formatYMD comp.date == d) =
      c :: l.eraseP (fun comp => formatYMD comp.date == d) := by
  simp [List.eraseP_cons, hc]

/-- Removing the first completion of day `d` leaves the other days as they were. -/
theorem completedOn_eraseP_of_ne (completions : List Completion) (d day : Int)
    (hne : day ≠ d) :
    completedOn (completions.eraseP (fun comp => formatYMD comp.date == d)) day =
      completedOn completions day := by
  induction completions with
  | nil => rfl
  | cons c l ih =>
    by_cases hc : formatYMD c.date = d
    · rw [eraseP_day_cons_pos c l d hc]
      have : (formatYMD c.date == day) = false := by
        rw [hc]; simpa using fun h => hne h.symm
      simp [completedOn, this]
    · rw [eraseP_day_cons_neg c l d hc]
      simp only [completedOn, List.any_cons] at ih ⊢
      rw [ih]

/-- With at most one completion per day, removing the first completion of day `d` leaves
day `d` without a completion. -/
theorem completedOn_eraseP_self (completions : List Completion) (d : Int)
    (hdistinct : DistinctDays completions) :
    completedOn (completions.eraseP (fun comp => formatYMD comp.date == d)) d = false := by
  induction completions with
  | nil => rfl
  | cons c l ih =>
    have hcons := List.nodup_cons.mp (show (formatYMD c.date :: l.map fun comp =>
      formatYMD comp.date).Nodup from hdistinct)
    by_cases hc : formatYMD c.date = d
    · rw [eraseP_day_cons_pos c l d hc, completedOn_eq_false_iff]
      intro x hx hxd
      exact hcons.1 (List.mem_map.mpr ⟨x, hx, by rw [hxd, hc]⟩)
    · rw [eraseP_day_cons_neg c l d hc]
      have := ih hcons.2
      simp only [completedOn, List.any_cons] at this ⊢
      rw [this]
      simp [hc]

/-- A toggle leaves every calendar day other than the toggled one as it was. -/
theorem toggleHabit_completedOn_of_ne (habits : List Habit) (now : Int) (uuid : String)
    (date : Int) (habit : Habit) (day : Int) (hne : day ≠ formatYMD date) :
    completedOn (toggleHabit habits now uuid date habit).completions day =
      completedOn habit.completions day := by
  rw [toggleHabit_completions, completedOn_sortCompletions]
  split
  · exact completedOn_eraseP_of_ne _ _ _ hne
  · rw [completedOn_append_single, formatYMD_startOfDay]
    have : (formatYMD date == day) = false := by simpa using fun h => hne h.symm
    simp [this]

/-- With at most one completion per day, a toggle flips the toggled calendar day. -/
theorem toggleHabit_completedOn_self (habits : List Habit) (now : Int) (uuid : String)
    (date : Int) (habit : Habit) (hdistinct : DistinctDays habit.completions) :
    completedOn (toggleHabit habits now uuid date habit).completions (formatYMD date) =
      !completedOn habit.completions (formatYMD date) := by
  rw [toggleHabit_completions, completedOn_sortCompletions]
  split
  · rename_i h
    rw [completedOn_eraseP_self _ _ hdistinct, h]; rfl
  · rename_i h
    have hfalse : completedOn habit.completions (formatYMD date) = false := by simpa using h
    rw [completedOn_append_single, formatYMD_startOfDay, hfalse]
    simp

/-- A toggle keeps the completions at most one per calendar day. -/
theorem toggleHabit_distinctDays (habits : List Habit) (now : Int) (uuid : String)
    (date : Int) (habit : Habit) (hdistinct : DistinctDays habit.completions) :
    DistinctDays (toggleHabit habits now uuid date habit).completions := by
  rw [toggleHabit_completions, distinctDays_sortCompletions]
  split
  · exact List.Nodup.sublist ((List.eraseP_sublist _).map _) hdistinct
  · rename_i h
    have hfalse : completedOn habit.completions (formatYMD date) = false := by simpa using h
    rw [completedOn_eq_false_iff] at hfalse
    unfold DistinctDays
    rw [List.map_append, List.nodup_append]
    refine ⟨hdistinct, by simp, ?_⟩
    intro x hx hx'
    simp only [List.map_cons, List.map_nil, List.mem_singleton] at hx'
    obtain ⟨c, hc, rfl⟩ := List.mem_map.mp hx
    rw [formatYMD_startOfDay] at hx'
    exact hfalse c hc hx'

/-! ## Toggling in the collection -/

theorem mem_toggleHabitCompletion (habits : List Habit) (now : Int) (uuid habitId : String)
    (date : Int) (prevHabits : List Habit) (habit' : Habit)
    (h : habit' ∈ toggleHabitCompletion habits now uuid habitId date prevHabits) :
    ∃ habit ∈ prevHabits,
      (habit.id ≠ habitId ∧ habit' = habit) ∨
      (habit.id = habitId ∧ habit' = toggleHabit habits now uuid date habit) := by
  obtain ⟨habit, hmem, heq⟩ := List.mem_map.mp h
  refine ⟨habit, hmem, ?_⟩
  by_cases hid : habit.id = habitId
  · right; exact ⟨hid, by simpa [hid] using heq.symm⟩
  · left; exact ⟨hid, by simpa [hid] using heq.symm⟩

theorem find?_toggleHabitCompletion (habits : List Habit) (now : Int) (uuid habitId : String)
    (date : Int) (prevHabits : List Habit) (id : String) :
    (toggleHabitCompletion habits now uuid habitId date prevHabits).find?
        (fun h => h.id == id) =
      (prevHabits.find? (fun h => h.id == id)).map
        (fun habit => if habit.id != habitId then habit
          else toggleHabit habits now uuid date habit) := by
  unfold toggleHabitCompletion
  rw [List.find?_map]
  congr 2
  funext h
  simp only [Function.comp]
  split <;> rfl

theorem getElem?_toggleHabitCompletion (habits : List Habit) (now : Int)
    (uuid habitId : String) (date : Int) (prevHabits : List Habit) (i : Nat) (habit : Habit)
    (hget : prevHabits[i]? = some habit) (hid : habit.id = habitId) :
    (toggleHabitCompletion habits now uuid habitId date prevHabits)[i]? =
      some (toggleHabit habits now uuid date habit) := by
  unfold toggleHabitCompletion
  rw [List.getElem?_map, hget]
  simp [hid]

theorem isHabitCompletedForDate_eq (habits : List Habit) (habitId : String) (date : Int)
    (habit : Habit) (hfind : habits.find? (fun h => h.id == habitId) = some habit) :
    isHabitCompletedForDate habits habitId date =
      completedOn habit.completions (formatYMD date) := by
  simp only [isHabitCompletedForDate, hfind, formatYMD_startOfDay, completedOn]

theorem find?_toggle_target (habits : List Habit) (now : Int) (uuid habitId : String)
    (date : Int) (prevHabits : List Habit) (habit : Habit)
    (hfind : prevHabits.find? (fun h => h.id == habitId) = some habit) :
    (toggleHabitCompletion habits now uuid habitId date prevHabits).find?
        (fun h => h.id == habitId) = some (toggleHabit habits now uuid date habit) := by
  have hid : habit.id = habitId := by simpa using List.find?_some hfind
  rw [find?_toggleHabitCompletion, hfind]
  simp [hid]

/-! ## C3: a toggle flips the day and no other day -/

/-- C3. For a habit that `habitId` names in the collection and that holds at most one
completion per calendar day, `toggleHabitCompletion(habitId, date)` flips
`isHabitCompletedForDate(habitId, date)`, leaves it unchanged for every date on another
calendar day, and stores the old list with the completion of that day removed when there
was one, and with a new completion dated at the start of that day appended otherwise
(sorted in both cases). This holds whatever collection the closure captured. -/
theorem toggle_flips_day (habits prevHabits : List Habit) (now : Int)
    (uuid habitId : String) (date : Int) (habit : Habit)
    (hfind : prevHabits.find? (fun h => h.id == habitId) = some habit)
    (hdistinct : DistinctDays habit.completions) :
    isHabitCompletedForDate (toggleHabitCompletion habits now uuid habitId date prevHabits)
        habitId date = !isHabitCompletedForDate prevHabits habitId date ∧
    (∀ date' : Int, formatYMD date' ≠ formatYMD date →
      isHabitCompletedForDate (toggleHabitCompletion habits now uuid habitId date prevHabits)
        habitId date' = isHabitCompletedForDate prevHabits habitId date') ∧
    ∃ habit', (toggleHabitCompletion habits now uuid habitId date prevHabits).find?
        (fun h => h.id == habitId) = some habit' ∧
      habit'.completions = sortCompletions
        (if isHabitCompletedForDate prevHabits habitId date then
          habit.completions.eraseP (fun comp => formatYMD comp.date == formatYMD date)
        else
          habit.completions ++ [{ id := uuid, date := startOfDay date, timestamp := now }]) := by
  have hfind' := find?_toggle_target habits now uuid habitId date prevHabits habit hfind
  refine ⟨?_, ?_, ?_⟩
  · rw [isHabitCompletedForDate_eq _ _ _ _ hfind', isHabitCompletedForDate_eq _ _ _ _ hfind]
    exact toggleHabit_completedOn_self habits now uuid date habit hdistinct
  · intro date' hne
    rw [isHabitCompletedForDate_eq _ _ _ _ hfind', isHabitCompletedForDate_eq _ _ _ _ hfind]
    exact toggleHabit_completedOn_of_ne habits now uuid date habit _ hne
  · refine ⟨_, hfind', ?_⟩
    rw [isHabitCompletedForDate_eq _ _ _ _ hfind]
    exact toggleHabit_completions habits now uuid date habit

/-- C3 at a concrete input: toggling 2024-01-02 on the tracked habit clears that day and
keeps 2024-01-03. -/
theorem toggle_flips_day_witness :
    isHabitCompletedForDate
        (toggleHabitCompletion [trackedHabit] (dayStart 19725 + 9) "c9" "h1"
          (dayStart 19724 + 5) [trackedHabit]) "h1" (dayStart 19724 + 5) =
      !isHabitCompletedForDate [trackedHabit] "h1" (dayStart 19724 + 5) ∧
    isHabitCompletedForDate
        (toggleHabitCompletion [trackedHabit] (dayStart 19725 + 9) "c9" "h1"
          (dayStart 19724 + 5) [trackedHabit]) "h1" (dayStart 19725 + 7) =
      isHabitCompletedForDate [trackedHabit] "h1" (dayStart 19725 + 7) :=
  ⟨(toggle_flips_day [trackedHabit] [trackedHabit] (dayStart 19725 + 9) "c9" "h1"
      (dayStart 19724 + 5) trackedHabit (by decide) (by decide)).1,
   (toggle_flips_day [trackedHabit] [trackedHabit] (dayStart 19725 + 9) "c9" "h1"
      (dayStart 19724 + 5) trackedHabit (by decide) (by decide)).2.1
      (dayStart 19725 + 7) (by decide)⟩

/-! ## C4: two toggles restore the completed days -/

/-- C4. For a habit that `habitId` names in the collection and that holds at most one
completion per calendar day, two successive calls `toggleHabitCompletion(habitId, date)`
restore `isHabitCompletedForDate(habitId, date')` for every date `date'`: the toggled day
and every other day are completed exactly when they were before. -/
theorem toggle_twice_restores_days (habits₁ habits₂ prevHabits : List Habit)
    (now₁ now₂ : Int) (uuid₁ uuid₂ habitId : String) (date : Int) (habit : Habit)
    (hfind : prevHabits.find? (fun h => h.id == habitId) = some habit)
    (hdistinct : DistinctDays habit.completions) (date' : Int) :
    isHabitCompletedForDate
        (toggleHabitCompletion habits₂ now₂ uuid₂ habitId date
          (toggleHabitCompletion habits₁ now₁ uuid₁ habitId date prevHabits))
        habitId date' = isHabitCompletedForDate prevHabits habitId date' := by
  have hfind₁ := find?_toggle_target habits₁ now₁ uuid₁ habitId date prevHabits habit hfind
  have hdistinct₁ := toggleHabit_distinctDays habits₁ now₁ uuid₁ date habit hdistinct
  have hfind₂ := find?_toggle_target habits₂ now₂ uuid₂ habitId date _ _ hfind₁
  rw [isHabitCompletedForDate_eq _ _ _ _ hfind₂, isHabitCompletedForDate_eq _ _ _ _ hfind]
  by_cases hday : formatYMD date' = formatYMD date
  · rw [hday, toggleHabit_completedOn_self _ _ _ _ _ hdistinct₁,
      toggleHabit_completedOn_self _ _ _ _ _ hdistinct, Bool.not_not]
  · rw [toggleHabit_completedOn_of_ne _ _ _ _ _ _ hday,
      toggleHabit_completedOn_of_ne _ _ _ _ _ _ hday]

/-- C4 at a concrete input: toggling 2024-01-02 twice on the tracked habit leaves that day
completed. -/
theorem toggle_twice_restores_days_witness :
    isHabitCompletedForDate
        (toggleHabitCompletion [trackedHabit] (dayStart 19725 + 20) "c8" "h1"
          (dayStart 19724 + 5)
          (toggleHabitCompletion [trackedHabit] (dayStart 19725 + 9) "c9" "h1"
            (dayStart 19724 + 5) [trackedHabit]))
        "h1" (dayStart 19724 + 600) =
      isHabitCompletedForDate [trackedHabit] "h1" (dayStart 19724 + 600) :=
  toggle_twice_restores_days [trackedHabit] [trackedHabit] [trackedHabit]
    (dayStart 19725 + 9) (dayStart 19725 + 20) "c9" "c8" "h1" (dayStart 19724 + 5)
    trackedHabit (by decide) (by decide) (dayStart 19724 + 600)

/-! ## C6: at most one completion per calendar day -/

theorem toggleHabitCompletion_distinctDays (habits : List Habit) (now : Int)
    (uuid habitId : String) (date : Int) (prevHabits : List Habit)
    (hinv : ∀ h ∈ prevHabits, DistinctDays h.completions) :
    ∀ h ∈ toggleHabitCompletion habits now uuid habitId date prevHabits,
      DistinctDays h.completions := by
  intro h' hmem
  obtain ⟨h, hh, hcase⟩ := mem_toggleHabitCompletion _ _ _ _ _ _ _ hmem
  rcases hcase with ⟨_, rfl⟩ | ⟨_, rfl⟩
  · exact hinv _ hh
  · exact toggleHabit_distinctDays _ _ _ _ _ (hinv _ hh)

theorem toggleAll_preserves_distinctDays (calls : List ToggleCall) :
    ∀ habits : List Habit, (∀ h ∈ habits, DistinctDays h.completions) →
      ∀ h ∈ toggleAll calls habits, DistinctDays h.completions := by
  induction calls with
  | nil => intro habits hinv; exact hinv
  | cons call calls ih =>
    intro habits hinv
    exact ih _ (toggleHabitCompletion_distinctDays _ _ _ _ _ _ hinv)

/-- C6. If every habit of the collection holds at most one completion per calendar day,
then after any finite sequence of `toggleHabitCompletion` calls, with any ids, dates and
clock readings, every habit still does; and the same holds when a habit is first created
by `addHabit` and the calls follow. -/
theorem toggleAll_distinctDays (calls : List ToggleCall) (habits : List Habit)
    (now now' : Int) (uuid : String) (habitData : HabitData)
    (hinv : ∀ h ∈ habits, DistinctDays h.completions) :
    (∀ h ∈ toggleAll calls habits, DistinctDays h.completions) ∧
    (∀ h ∈ toggleAll calls (addHabit now now' uuid habitData habits).1,
      DistinctDays h.completions) := by
  refine ⟨toggleAll_preserves_distinctDays calls habits hinv,
    toggleAll_preserves_distinctDays calls _ ?_⟩
  intro h hmem
  rcases List.mem_append.mp hmem with hold | hnew
  · exact hinv h hold
  · rw [List.mem_singleton.mp hnew]
    exact List.nodup_nil

/-- C6 at a concrete input: three toggles, two of them on the same day, on a store holding
the tracked habit. -/
theorem toggleAll_distinctDays_witness :
    (toggleAll
        [ { now := dayStart 19725 + 9, uuid := "c7", habitId := "h1", date := dayStart 19720 },
          { now := dayStart 19725 + 10, uuid := "c8", habitId := "h1",
            date := dayStart 19720 + 50 },
          { now := dayStart 19725 + 11, uuid := "c9", habitId := "h1",
            date := dayStart 19720 + 70 } ]
        [trackedHabit]).all (fun h => decide (DistinctDays h.completions)) = true :=
  List.all_eq_true.mpr fun h hh => decide_eq_true
    ((toggleAll_distinctDays _ [trackedHabit] 0 0 "h2" { name := "Read" } (by decide)).1 h hh)

/-! ## C8: streak and best streak after a toggle -/

/-- C8. For a habit with id `habitId` at position `i` of the collection, after
`toggleHabitCompletion(habitId, date)` the habit at position `i` has as `streak` the
value of `calculateStreak` on its new completion list and as `bestStreak` the maximum of
the previous `bestStreak` and the new `streak`; so `bestStreak` does not decrease. -/
theorem toggle_streak_bestStreak (habits prevHabits : List Habit) (now : Int)
    (uuid habitId : String) (date : Int) (i : Nat) (habit : Habit)
    (hget : prevHabits[i]? = some habit) (hid : habit.id = habitId) :
    ∃ habit', (toggleHabitCompletion habits now uuid habitId date prevHabits)[i]? =
        some habit' ∧
      habit'.streak = calculateStreak habits now habitId (some habit'.completions) ∧
      habit'.bestStreak = max habit.bestStreak habit'.streak ∧
      habit.bestStreak ≤ habit'.bestStreak := by
  refine ⟨_, getElem?_toggleHabitCompletion habits now uuid habitId date prevHabits i habit
    hget hid, ?_, ?_, ?_⟩
  · subst hid; rfl
  · exact Nat.max_comm _ _
  · exact Nat.le_max_right _ _

/-- C8 at a concrete input: removing 2024-01-03 from the tracked habit on 2024-01-03. -/
theorem toggle_streak_bestStreak_witness :
    ∃ habit', (toggleHabitCompletion [trackedHabit] (dayStart 19725 + 9) "c9" "h1"
        (dayStart 19725) [trackedHabit])[0]? = some habit' ∧
      habit'.streak = calculateStreak [trackedHabit] (dayStart 19725 + 9) "h1"
        (some habit'.completions) ∧
      habit'.bestStreak = max trackedHabit.bestStreak habit'.streak ∧
      trackedHabit.bestStreak ≤ habit'.bestStreak :=
  toggle_streak_bestStreak [trackedHabit] [trackedHabit] (dayStart 19725 + 9) "c9" "h1"
    (dayStart 19725) 0 trackedHabit (by decide) (by decide)

/-! ## C9: completions are sorted after a toggle -/

theorem sortsBefore_iff (a b : Completion) : sortsBefore a b ↔ b.date ≤ a.date := by
  unfold sortsBefore compareDesc
  split_ifs <;> omega

theorem sortCompletions_sorted (completions : List Completion) :
    (sortCompletions completions).Pairwise (fun a b => b.date ≤ a.date) := by
  haveI : IsTotal Completion sortsBefore :=
    ⟨fun a b => by rw [sortsBefore_iff, sortsBefore_iff]; omega⟩
  haveI : IsTrans Completion sortsBefore :=
    ⟨fun a b c hab hbc => by rw [sortsBefore_iff] at *; omega⟩
  have h := List.sorted_insertionSort sortsBefore completions
  exact List.Pairwise.imp (fun hab => (sortsBefore_iff _ _).mp hab) h

/-- C9. For a habit with id `habitId` at position `i` of the collection, whatever the
order of its completions, after `toggleHabitCompletion(habitId, date)` the completions of
the habit at position `i` are in descending order of date: each one is dated no earlier
than every one after it. -/
theorem toggle_sorted (habits prevHabits : List Habit) (now : Int)
    (uuid habitId : String) (date : Int) (i : Nat) (habit : Habit)
    (hget : prevHabits[i]? = some habit) (hid : habit.id = habitId) :
    ∃ habit', (toggleHabitCompletion habits now uuid habitId date prevHabits)[i]? =
        some habit' ∧
      habit'.completions.Pairwise (fun a b => b.date ≤ a.date) := by
  refine ⟨_, getElem?_toggleHabitCompletion habits now uuid habitId date prevHabits i habit
    hget hid, ?_⟩
  rw [toggleHabit_completions]
  exact sortCompletions_sorted _

/-- C9 at a concrete input: the tracked habit holds its completions out of order; after a
toggle of 2024-01-05 they are in descending order. -/
theorem toggle_sorted_witness :
    ∃ habit', (toggleHabitCompletion [trackedHabit] (dayStart 19727 + 9) "c9" "h1"
        (dayStart 19727) [trackedHabit])[0]? = some habit' ∧
      habit'.completions.Pairwise (fun a b => b.date ≤ a.date) :=
  toggle_sorted [trackedHabit] [trackedHabit] (dayStart 19727 + 9) "c9" "h1"
    (dayStart 19727) 0 trackedHabit (by decide) (by decide)

/-! ## C10: the completion query -/

/-- C10, as the code has it. The query `isHabitCompletedForDate(habitId, date)` is true
exactly when the lookup of `habitId` finds a habit, the first habit of the collection
with that id, and that habit has a completion on the calendar day of `date`; it is false
when no habit has the id; and in a collection with pairwise distinct ids it is true
exactly when some habit of the collection has the id and a completion on that calendar
day. -/
theorem isHabitCompletedForDate_iff (habits : List Habit) (habitId : String) (date : Int) :
    (isHabitCompletedForDate habits habitId date = true ↔
      ∃ habit, habits.find? (fun h => h.id == habitId) = some habit ∧
        ∃ c ∈ habit.completions, formatYMD c.date = formatYMD date) ∧
    ((∀ h ∈ habits, h.id ≠ habitId) → isHabitCompletedForDate habits habitId date = false) ∧
    ((habits.map fun h => h.id).Nodup →
      (isHabitCompletedForDate habits habitId date = true ↔
        ∃ habit ∈ habits, habit.id = habitId ∧
          ∃ c ∈ habit.completions, formatYMD c.date = formatYMD date)) := by
  have key : isHabitCompletedForDate habits habitId date = true ↔
      ∃ habit, habits.find? (fun h => h.id == habitId) = some habit ∧
        ∃ c ∈ habit.completions, formatYMD c.date = formatYMD date := by
    cases hfind : habits.find? (fun h => h.id == habitId) with
    | none => simp [isHabitCompletedForDate, hfind]
    | some habit =>
      rw [isHabitCompletedForDate_eq _ _ _ _ hfind, completedOn_iff]
      simp
  refine ⟨key, ?_, ?_⟩
  · intro hnone
    have hfind : habits.find? (fun h => h.id == habitId) = none := by
      rw [List.find?_eq_none]
      intro h hh
      simpa using hnone h hh
    simp [isHabitCompletedForDate, hfind]
  · intro hnodup
    rw [key]
    constructor
    · rintro ⟨habit, hfind, hc⟩
      exact ⟨habit, List.mem_of_find?_eq_some hfind, by simpa using List.find?_some hfind, hc⟩
    · rintro ⟨habit, hmem, hid, hc⟩
      refine ⟨habit, ?_, hc⟩
      clear key hc
      induction habits with
      | nil => cases hmem
      | cons h hs ih =>
        rw [List.map_cons, List.nodup_cons] at hnodup
        by_cases hh : h.id = habitId
        · rcases List.mem_cons.mp hmem with rfl | hmem'
          · simp [hh]
          · exact absurd (List.mem_map.mpr ⟨habit, hmem', by rw [hid, hh]⟩) hnodup.1
        · rcases List.mem_cons.mp hmem with rfl | hmem'
          · exact absurd hid hh
          · rw [List.find?_cons_of_neg _ (by simpa using hh)]
            exact ih hnodup.2 hmem'

/-- C10 at a concrete input: an id that is not in the store is reported as not completed,
and the tracked habit is completed on 2024-01-02. -/
theorem isHabitCompletedForDate_iff_witness :
    isHabitCompletedForDate [trackedHabit] "h7" (dayStart 19724 + 5) = false ∧
    (isHabitCompletedForDate [trackedHabit] "h1" (dayStart 19724 + 5) = true ↔
      ∃ habit ∈ [trackedHabit], habit.id = "h1" ∧
        ∃ c ∈ habit.completions, formatYMD c.date = formatYMD (dayStart 19724 + 5)) :=
  ⟨(isHabitCompletedForDate_iff [trackedHabit] "h7" (dayStart 19724 + 5)).2.1 (by decide),
   (isHabitCompletedForDate_iff [trackedHabit] "h1" (dayStart 19724 + 5)).2.2 (by decide)⟩

/-- C10 as stated fails when two habits share an id. After `addHabit` twice, a completion
of the second habit on 2024-01-04 and `updateHabit("h2", {id: "h1"})`, the store holds two
habits with the id `h1`; the second has a completion on 2024-01-04, and
`isHabitCompletedForDate("h1", date)` returns false for a date on that day, because the
lookup stops at the first habit, which has no completion. -/
theorem isHabitCompletedForDate_first_match_only :
    (runOps shadowOps []).map
        (fun h => (h.id, h.name, h.completions.map fun c => formatYMD c.date)) =
      [("h1", "Run", []), ("h1", "Read", [19726])] ∧
    isHabitCompletedForDate (runOps shadowOps []) "h1" (dayStart 19726 + 50000000) = false ∧
    ∃ habit ∈ runOps shadowOps [], habit.id = "h1" ∧
      ∃ c ∈ habit.completions, formatYMD c.date = formatYMD (dayStart 19726 + 50000000) := by
  decide

/-! ## C7: the best streak bounds the streak -/

theorem toggleHabit_streak_le_bestStreak (habits : List Habit) (now : Int) (uuid : String)
    (date : Int) (habit : Habit) :
    (toggleHabit habits now uuid date habit).streak ≤
      (toggleHabit habits now uuid date habit).bestStreak :=
  Nat.le_max_left _ _

/-- C7, as the code has it. A habit built by `addHabit` has `streak ≤ bestStreak`. If
every habit of a collection has `streak ≤ bestStreak`, so has every habit after
`addHabit`, after `deleteHabit` and after `toggleHabitCompletion`; after `updateHabit` it
holds provided the merged fields of the habits with that id (the value `updatedData`
gives, else the habit's own) satisfy it, in particular when `updatedData` gives neither
`streak` nor `bestStreak`. -/
theorem streak_le_bestStreak_preserved (habits captured : List Habit) (now now' : Int)
    (uuid id : String) (date : Int) (habitData : HabitData) (updatedData : UpdatedData)
    (hinv : ∀ h ∈ habits, h.streak ≤ h.bestStreak) :
    (newHabit now now' uuid habitData).streak ≤
      (newHabit now now' uuid habitData).bestStreak ∧
    (∀ h ∈ (addHabit now now' uuid habitData habits).1, h.streak ≤ h.bestStreak) ∧
    (∀ h ∈ deleteHabit id habits, h.streak ≤ h.bestStreak) ∧
    (∀ h ∈ toggleHabitCompletion captured now uuid id date habits,
      h.streak ≤ h.bestStreak) ∧
    ((∀ h ∈ habits, h.id = id →
        updatedData.streak.getD h.streak ≤ updatedData.bestStreak.getD h.bestStreak) →
      ∀ h ∈ updateHabit now id updatedData habits, h.streak ≤ h.bestStreak) ∧
    (updatedData.streak = none → updatedData.bestStreak = none →
      ∀ h ∈ updateHabit now id updatedData habits, h.streak ≤ h.bestStreak) := by
  have hupdate : (∀ h ∈ habits, h.id = id →
        updatedData.streak.getD h.streak ≤ updatedData.bestStreak.getD h.bestStreak) →
      ∀ h ∈ updateHabit now id updatedData habits, h.streak ≤ h.bestStreak := by
    intro hmerged h' hmem
    obtain ⟨h, hh, heq⟩ := List.mem_map.mp hmem
    by_cases hid : h.id = id
    · have : h' = mergeHabit now h updatedData := by simpa [hid] using heq.symm
      rw [this]
      exact hmerged h hh hid
    · have : h' = h := by simpa [hid] using heq.symm
      rw [this]
      exact hinv h hh
  refine ⟨Nat.le_refl 0, ?_, ?_, ?_, hupdate, ?_⟩
  · intro h hmem
    rcases List.mem_append.mp hmem with hold | hnew
    · exact hinv h hold
    · rw [List.mem_singleton.mp hnew]
      exact Nat.le_refl 0
  · intro h hmem
    exact hinv h (List.mem_filter.mp hmem).1
  · intro h' hmem
    obtain ⟨h, hh, hcase⟩ := mem_toggleHabitCompletion _ _ _ _ _ _ _ hmem
    rcases hcase with ⟨_, rfl⟩ | ⟨_, rfl⟩
    · exact hinv _ hh
    · exact toggleHabit_streak_le_bestStreak _ _ _ _ _
  · intro hs hb
    apply hupdate
    intro h hh _
    rw [hs, hb]
    exact hinv h hh

/-- C7 at a concrete input: renaming the tracked habit keeps `streak ≤ bestStreak`. -/
theorem streak_le_bestStreak_preserved_witness :
    (updateHabit (dayStart 19726) "h1" { name := some "Walk" } [trackedHabit]).all
      (fun h => decide (h.streak ≤ h.bestStreak)) = true :=
  List.all_eq_true.mpr fun h hh => decide_eq_true
    ((streak_le_bestStreak_preserved [trackedHabit] [trackedHabit] (dayStart 19726)
      (dayStart 19726) "c9"
      "h1" (dayStart 19726) { name := "Read" } { name := some "Walk" }
      (by decide)).2.2.2.2.2 rfl rfl h hh)

/-- C7 as stated fails: every habit of the store `[sampleHabit]` has
`streak ≤ bestStreak`, and after `updateHabit("h1", {streak: 5})` the habit has streak 5
and best streak 0. -/
theorem update_breaks_streak_le_bestStreak :
    (∀ h ∈ [sampleHabit], h.streak ≤ h.bestStreak) ∧
    (updateHabit (dayStart 19726) "h1" { streak := some 5 } [sampleHabit]).map
      (fun h => (h.streak, h.bestStreak)) = [(5, 0)] ∧
    ¬ ∀ h ∈ updateHabit (dayStart 19726) "h1" { streak := some 5 } [sampleHabit],
      h.streak ≤ h.bestStreak := by
  decide

/-! ## C5: two toggles and the streak -/

theorem calculateStreak_not_daily (habits : List Habit) (now : Int) (habitId : String)
    (habit : Habit) (completions : Option (List Completion))
    (hfind : habits.find? (fun h => h.id == habitId) = some habit)
    (hfreq : habit.frequency.type ≠ "daily") :
    calculateStreak habits now habitId completions = 0 := by
  simp [calculateStreak, hfind, hfreq]

/-- The value of `calculateStreak` depends only on the frequency of the habit found, on
the set of completed calendar days and on the calendar day of the clock. -/
theorem calculateStreak_congr (habits habits' : List Habit) (now now' : Int)
    (habitId : String) (habit habit' : Habit) (c c' : List Completion)
    (hfind : habits.find? (fun h => h.id == habitId) = some habit)
    (hfind' : habits'.find? (fun h => h.id == habitId) = some habit')
    (hfreq : habit.frequency = habit'.frequency)
    (hdays : ∀ day, completedOn c day = completedOn c' day)
    (hnow : formatYMD now = formatYMD now') :
    calculateStreak habits now habitId (some c) =
      calculateStreak habits' now' habitId (some c') := by
  by_cases hd : habit.frequency.type = "daily"
  · rw [calculateStreak_daily habits now habitId habit _ hfind hd,
      calculateStreak_daily habits' now' habitId habit' _ hfind' (hfreq ▸ hd)]
    have : completedOn c = completedOn c' := funext hdays
    simp [this, hnow]
  · rw [calculateStreak_not_daily habits now habitId habit _ hfind hd,
      calculateStreak_not_daily habits' now' habitId habit' _ hfind' (hfreq ▸ hd)]

theorem toggleHabit_twice_completedOn (habits₁ habits₂ : List Habit) (now₁ now₂ : Int)
    (uuid₁ uuid₂ : String) (date : Int) (habit : Habit)
    (hdistinct : DistinctDays habit.completions) (day : Int) :
    completedOn (toggleHabit habits₂ now₂ uuid₂ date
        (toggleHabit habits₁ now₁ uuid₁ date habit)).completions day =
      completedOn habit.completions day := by
  have hdistinct₁ := toggleHabit_distinctDays habits₁ now₁ uuid₁ date habit hdistinct
  by_cases hday : day = formatYMD date
  · rw [hday, toggleHabit_completedOn_self _ _ _ _ _ hdistinct₁,
      toggleHabit_completedOn_self _ _ _ _ _ hdistinct, Bool.not_not]
  · rw [toggleHabit_completedOn_of_ne _ _ _ _ _ _ hday,
      toggleHabit_completedOn_of_ne _ _ _ _ _ _ hday]

/-- C5, as the code has it. For a habit that `habitId` names in a settled store and that
holds at most one completion per calendar day, two successive calls
`toggleHabitCompletion(habitId, date)` made on the same calendar day of the clock leave the
`streak` field equal to `calculateStreak` of the original completions on that day; so
the field has its value from before the first call whenever that value was current. -/
theorem toggle_twice_streak (habits : List Habit) (now₁ now₂ : Int)
    (uuid₁ uuid₂ habitId : String) (date : Int) (habit : Habit)
    (hfind : habits.find? (fun h => h.id == habitId) = some habit)
    (hdistinct : DistinctDays habit.completions)
    (hclock : formatYMD now₂ = formatYMD now₁) :
    ∃ habit'', (toggleCompletion now₂ uuid₂ habitId date
        (toggleCompletion now₁ uuid₁ habitId date habits)).find?
          (fun h => h.id == habitId) = some habit'' ∧
      habit''.streak = calculateStreak habits now₁ habitId (some habit.completions) ∧
      (habit.streak = calculateStreak habits now₁ habitId (some habit.completions) →
        habit''.streak = habit.streak) := by
  have hid : habit.id = habitId := by simpa using List.find?_some hfind
  have hfind₁ := find?_toggle_target habits now₁ uuid₁ habitId date habits habit hfind
  have hfind₂ := find?_toggle_target (toggleCompletion now₁ uuid₁ habitId date habits)
    now₂ uuid₂ habitId date (toggleCompletion now₁ uuid₁ habitId date habits) _ hfind₁
  have hstreak : (toggleHabit (toggleCompletion now₁ uuid₁ habitId date habits) now₂ uuid₂
      date (toggleHabit habits now₁ uuid₁ date habit)).streak =
      calculateStreak habits now₁ habitId (some habit.completions) := by
    show calculateStreak (toggleCompletion now₁ uuid₁ habitId date habits) now₂ habit.id
      (some _) = _
    rw [hid]
    exact calculateStreak_congr _ _ _ _ _ _ _ _ _ hfind₁ hfind rfl
      (toggleHabit_twice_completedOn habits (toggleCompletion now₁ uuid₁ habitId date habits)
        now₁ now₂ uuid₁ uuid₂ date habit hdistinct) hclock
  exact ⟨_, hfind₂, hstreak, fun hcur => by rw [hstreak, hcur]⟩

/-- C5 at a concrete input: on 2024-01-03 the tracked habit has streak 3, and toggling
2024-01-02 twice leaves it at 3. -/
theorem toggle_twice_streak_witness :
    ∃ habit'', (toggleCompletion (dayStart 19725 + 20) "c8" "h1" (dayStart 19724)
        (toggleCompletion (dayStart 19725 + 10) "c9" "h1" (dayStart 19724)
          [trackedHabit])).find? (fun h => h.id == "h1") = some habit'' ∧
      habit''.streak = calculateStreak [trackedHabit] (dayStart 19725 + 10) "h1"
        (some trackedHabit.completions) ∧
      (trackedHabit.streak = calculateStreak [trackedHabit] (dayStart 19725 + 10) "h1"
          (some trackedHabit.completions) →
        habit''.streak = trackedHabit.streak) :=
  toggle_twice_streak [trackedHabit] (dayStart 19725 + 10) (dayStart 19725 + 20) "c9" "c8"
    "h1" (dayStart 19724) trackedHabit (by decide) (by decide) (by decide)

/-- C5 as stated fails. A habit created and completed on 2024-01-03 has streak 1; on
2024-01-05 two successive toggles of 2024-01-05 leave streak 0. And a habit holding two
completions on 2024-01-03, with streak 1 on that day, has streak 0 after two successive
toggles of 2024-01-03. -/
theorem toggle_twice_changes_streak :
    (toggleCompletion (dayStart 19725 + 30000000) "c1" "h1" (dayStart 19725)
      [sampleHabit]).map (fun h => h.streak) = [1] ∧
    (toggleCompletion (dayStart 19727 + 20) "c3" "h1" (dayStart 19727)
      (toggleCompletion (dayStart 19727 + 10) "c2" "h1" (dayStart 19727)
        (toggleCompletion (dayStart 19725 + 30000000) "c1" "h1" (dayStart 19725)
          [sampleHabit]))).map (fun h => h.streak) = [0] ∧
    calculateStreak [doubledHabit] (dayStart 19725 + 10) "h1" none = doubledHabit.streak ∧
    (toggleCompletion (dayStart 19725 + 20) "c4" "h1" (dayStart 19725)
      (toggleCompletion (dayStart 19725 + 10) "c3" "h1" (dayStart 19725)
        [doubledHabit])).map (fun h => h.streak) = [0] := by
  decide

/-! ## C2: toggling consecutive days -/

theorem dayWalk_le_cap (done : Int → Bool) (fuel : Nat) :
    ∀ (day : Int) (streak daysPassed : Nat),
      dayWalk done fuel day streak daysPassed ≤ streak + (1001 - daysPassed) := by
  induction fuel with
  | zero => intro day streak daysPassed; simp [dayWalk]
  | succ fuel ih =>
    intro day streak daysPassed
    rw [dayWalk]
    split
    · split
      · have := ih (day - 1) (streak + 1) (daysPassed + 1)
        omega
      · omega
    · omega

theorem dayWalk_le_below (done : Int → Bool) (a : Int)
    (hbelow : ∀ x, x < a → done x = false) (fuel : Nat) :
    ∀ (day : Int) (streak daysPassed : Nat),
      dayWalk done fuel day streak daysPassed ≤ streak + (day + 1 - a).toNat := by
  induction fuel with
  | zero => intro day streak daysPassed; simp [dayWalk]
  | succ fuel ih =>
    intro day streak daysPassed
    rw [dayWalk]
    split
    · split
      · rename_i hdone
        have hday : a ≤ day := by
          by_contra hlt
          rw [hbelow day (by omega)] at hdone
          cases hdone
        have := ih (day - 1) (streak + 1) (daysPassed + 1)
        omega
      · omega
    · omega

/-- The daily streak is at most 1001 and at most the number of days from the first
completed day to today. -/
theorem dailyStreak_le (done : Int → Bool) (a today : Int)
    (hbelow : ∀ x, x < a → done x = false) :
    dailyStreak done today ≤ min (today + 1 - a).toNat 1001 := by
  rw [dailyStreak]
  split
  · have h1 := dayWalk_le_cap done 1001 (today - 1) 0 1
    have h2 := dayWalk_le_below done a hbelow 1001 (today - 1) 0 1
    omega
  · have h1 := dayWalk_le_cap done 1001 today 0 0
    have h2 := dayWalk_le_below done a hbelow 1001 today 0 0
    omega

/-- With today completed, a run of `k` completed days ending today, followed by a gap,
gives the streak `k` up to the cap: `min k 1001`. -/
theorem dailyStreak_today_capped (done : Int → Bool) (today : Int) (k : Nat) (hk1 : 1 ≤ k)
    (hrun : ∀ j : Nat, j < k → done (today - j) = true)
    (hgap : done (today - k) = false) : dailyStreak done today = min k 1001 := by
  by_cases hk : k ≤ 1000
  · rw [dailyStreak_today done today k hk1 hk hrun hgap]
    omega
  · have h0 : done today = true := by simpa using hrun 0 (by omega)
    rw [dailyStreak, h0]
    simp only [Bool.not_true, Bool.false_eq_true, if_false]
    rw [dayWalk_run done 1001 1001 today 0 0 (fun j hj => hrun j (by omega)) (by omega)
      (by omega)]
    simp only [Nat.sub_self, dayWalk]
    omega

theorem toggleHabit_streak_daily (habits : List Habit) (now : Int) (uuid habitId : String)
    (date : Int) (habit : Habit)
    (hfind : habits.find? (fun h => h.id == habitId) = some habit)
    (hdaily : habit.frequency.type = "daily") :
    (toggleHabit habits now uuid date habit).streak =
      dailyStreak (completedOn (toggleHabit habits now uuid date habit).completions)
        (formatYMD now) := by
  have hid : habit.id = habitId := by simpa using List.find?_some hfind
  show calculateStreak habits now habit.id (some _) = _
  rw [hid]
  exact calculateStreak_daily habits now habitId habit (some _) hfind hdaily

theorem toggleHabit_bestStreak (habits : List Habit) (now : Int) (uuid : String)
    (date : Int) (habit : Habit) :
    (toggleHabit habits now uuid date habit).bestStreak =
      max (toggleHabit habits now uuid date habit).streak habit.bestStreak :=
  rfl

theorem toggleAll_append_single (calls : List ToggleCall) (call : ToggleCall)
    (habits : List Habit) :
    toggleAll (calls ++ [call]) habits =
      toggleCompletion call.now call.uuid call.habitId call.date (toggleAll calls habits) := by
  simp [toggleAll, List.foldl_append]

theorem toggleAll_range_succ (calls : Nat → ToggleCall) (m : Nat) (habits : List Habit) :
    toggleAll ((List.range (m + 1)).map calls) habits =
      toggleCompletion (calls m).now (calls m).uuid (calls m).habitId (calls m).date
        (toggleAll ((List.range m).map calls) habits) := by
  rw [List.range_succ, List.map_append, List.map_singleton, toggleAll_append_single]

/-- The state of a daily habit without completions after the first `m` of `n` calls that
toggle, oldest first, the `n` consecutive days ending today. After all `n` calls its
streak and best streak are `min n 1001`. -/
theorem toggle_run_state (habits : List Habit) (habitId : String)
    (calls : Nat → ToggleCall) (today : Int) (n : Nat) (habit₀ : Habit)
    (hfind : habits.find? (fun h => h.id == habitId) = some habit₀)
    (hdaily : habit₀.frequency.type = "daily")
    (hempty : habit₀.completions = []) (hbest : habit₀.bestStreak = 0)
    (hcalls : ∀ i, i < n → (calls i).habitId = habitId ∧ formatYMD (calls i).now = today ∧
      formatYMD (calls i).date = today + 1 - n + i) :
    ∀ m, m ≤ n →
      ∃ h, (toggleAll ((List.range m).map calls) habits).find?
          (fun h => h.id == habitId) = some h ∧
        h.frequency.type = "daily" ∧ DistinctDays h.completions ∧
        (∀ day, completedOn h.completions day =
          decide (today + 1 - n ≤ day ∧ day < today + 1 - n + m)) ∧
        h.bestStreak ≤ min n 1001 ∧
        (0 < m → m = n → h.streak = min n 1001 ∧ h.bestStreak = min n 1001) := by
  intro m
  induction m with
  | zero =>
    intro _
    refine ⟨habit₀, by simpa [toggleAll] using hfind, hdaily, ?_, ?_, by omega,
      fun h => absurd h (by omega)⟩
    · rw [hempty]; exact List.nodup_nil
    · intro day
      have hno : ¬ (today + 1 - n ≤ day ∧ day < today + 1 - n + ((0 : Nat) : Int)) := by
        omega
      rw [hempty, decide_eq_false hno]
      rfl
  | succ m ih =>
    intro hm
    obtain ⟨h, hf, hd, hdist, hdays, hb, _⟩ := ih (by omega)
    obtain ⟨hcid, hcnow, hcdate⟩ := hcalls m (by omega)
    rw [toggleAll_range_succ, hcid]
    have hdays' : ∀ day, completedOn (toggleHabit (toggleAll ((List.range m).map calls) habits)
        (calls m).now (calls m).uuid (calls m).date h).completions day =
        decide (today + 1 - n ≤ day ∧ day < today + 1 - n + ((m + 1 : Nat) : Int)) := by
      intro day
      by_cases hday : day = formatYMD (calls m).date
      · rw [hday, toggleHabit_completedOn_self _ _ _ _ _ hdist, hdays, hcdate]
        have h1 : ¬ (today + 1 - n ≤ today + 1 - n + (m : Int) ∧
            today + 1 - n + (m : Int) < today + 1 - n + (m : Int)) := by omega
        have h2 : today + 1 - n ≤ today + 1 - n + (m : Int) ∧
            today + 1 - n + (m : Int) < today + 1 - n + ((m + 1 : Nat) : Int) := by
          push_cast; omega
        rw [decide_eq_false h1, decide_eq_true h2]
        rfl
      · rw [toggleHabit_completedOn_of_ne _ _ _ _ _ _ hday, hdays]
        rw [hcdate] at hday
        rw [Bool.eq_iff_iff, decide_eq_true_eq, decide_eq_true_eq]
        push_cast
        constructor <;> intro hh <;> omega
    have hstreak := toggleHabit_streak_daily (toggleAll ((List.range m).map calls) habits)
      (calls m).now (calls m).uuid habitId (calls m).date h hf hd
    rw [hcnow] at hstreak
    have hle : (toggleHabit (toggleAll ((List.range m).map calls) habits)
        (calls m).now (calls m).uuid (calls m).date h).streak ≤ min n 1001 := by
      rw [hstreak]
      have := dailyStreak_le (completedOn (toggleHabit
        (toggleAll ((List.range m).map calls) habits) (calls m).now (calls m).uuid
        (calls m).date h).completions) (today + 1 - n) today (fun x hx => by
        rw [hdays' x]; exact decide_eq_false (by omega))
      have e : (today + 1 - (today + 1 - (n : Int))).toNat = n := by
        have : today + 1 - (today + 1 - (n : Int)) = n := by ring
        rw [this]; exact Int.toNat_natCast n
      rw [e] at this
      exact this
    refine ⟨_, find?_toggle_target _ _ _ habitId _ _ h hf, hd,
      toggleHabit_distinctDays _ _ _ _ _ hdist, hdays', ?_, ?_⟩
    · rw [toggleHabit_bestStreak]
      exact Nat.max_le.mpr ⟨hle, hb⟩
    · intro _ hmn
      have hfinal : (toggleHabit (toggleAll ((List.range m).map calls) habits)
          (calls m).now (calls m).uuid (calls m).date h).streak = min n 1001 := by
        rw [hstreak]
        apply dailyStreak_today_capped _ today n (by omega)
        · intro j hj
          rw [hdays', decide_eq_true_eq]
          push_cast
          omega
        · rw [hdays']
          exact decide_eq_false (by push_cast; omega)
      refine ⟨hfinal, ?_⟩
      rw [toggleHabit_bestStreak, hfinal]
      exact Nat.max_eq_left hb

theorem find?_addHabit_fresh (habits : List Habit) (now now' : Int) (uuid : String)
    (habitData : HabitData) (hfresh : ∀ h ∈ habits, h.id ≠ uuid) :
    (addHabit now now' uuid habitData habits).1.find? (fun h => h.id == uuid) =
      some (newHabit now now' uuid habitData) := by
  simp only [addHabit]
  induction habits with
  | nil => simp [newHabit]
  | cons h hs ih =>
    have hne : h.id ≠ uuid := hfresh h (List.mem_cons_self _ _)
    rw [List.cons_append, List.find?_cons_of_neg _ (by simpa using hne)]
    exact ih (fun x hx => hfresh x (List.mem_cons_of_mem _ hx))

/-- C2, as the code has it. Let a daily habit be created by `addHabit` with an id that no
habit of the store has, and let `n` calls toggle, oldest first, the `n` consecutive
calendar days ending today, where `1 ≤ n ≤ 1001`. Then the habit has `streak = n` and
`bestStreak = n`; and after one more call toggling today, `streak = n - 1` and
`bestStreak = n`. -/
theorem toggle_consecutive_days (habits : List Habit) (now₀ now₁ : Int) (uuid₀ : String)
    (habitData : HabitData) (calls : Nat → ToggleCall) (again : ToggleCall) (today : Int)
    (n : Nat)
    (hfresh : ∀ h ∈ habits, h.id ≠ uuid₀)
    (hdaily : (newHabit now₀ now₁ uuid₀ habitData).frequency.type = "daily")
    (hn1 : 1 ≤ n) (hn : n ≤ 1001)
    (hcalls : ∀ i, i < n → (calls i).habitId = uuid₀ ∧ formatYMD (calls i).now = today ∧
      formatYMD (calls i).date = today + 1 - n + i)
    (hagain : again.habitId = uuid₀ ∧ formatYMD again.now = today ∧
      formatYMD again.date = today) :
    (∃ h, (toggleAll ((List.range n).map calls)
          (addHabit now₀ now₁ uuid₀ habitData habits).1).find? (fun h => h.id == uuid₀) =
            some h ∧
        h.streak = n ∧ h.bestStreak = n) ∧
    (∃ h, (toggleAll ((List.range n).map calls ++ [again])
          (addHabit now₀ now₁ uuid₀ habitData habits).1).find? (fun h => h.id == uuid₀) =
            some h ∧
        h.streak = n - 1 ∧ h.bestStreak = n) := by
  obtain ⟨h, hf, hd, hdist, hdays, _, hfin⟩ :=
    toggle_run_state (addHabit now₀ now₁ uuid₀ habitData habits).1 uuid₀ calls today n
      (newHabit now₀ now₁ uuid₀ habitData)
      (find?_addHabit_fresh habits now₀ now₁ uuid₀ habitData hfresh) hdaily rfl rfl hcalls n
      (Nat.le_refl n)
  obtain ⟨hs, hbs⟩ := hfin (by omega) rfl
  have hmin : min n 1001 = n := by omega
  rw [hmin] at hs hbs
  refine ⟨⟨h, hf, hs, hbs⟩, ?_⟩
  obtain ⟨haid, hanow, hadate⟩ := hagain
  rw [toggleAll_append_single, haid]
  have hstreak := toggleHabit_streak_daily
    (toggleAll ((List.range n).map calls) (addHabit now₀ now₁ uuid₀ habitData habits).1)
    again.now again.uuid uuid₀ again.date h hf hd
  rw [hanow] at hstreak
  have hother : ∀ day, day ≠ today →
      completedOn (toggleHabit
        (toggleAll ((List.range n).map calls) (addHabit now₀ now₁ uuid₀ habitData habits).1)
        again.now again.uuid again.date h).completions day =
      decide (today + 1 - n ≤ day ∧ day < today + 1 - n + n) := by
    intro day hday
    rw [toggleHabit_completedOn_of_ne _ _ _ _ _ _ (by rw [hadate]; exact hday), hdays]
  have htoday : completedOn (toggleHabit
        (toggleAll ((List.range n).map calls) (addHabit now₀ now₁ uuid₀ habitData habits).1)
        again.now again.uuid again.date h).completions today = false := by
    have := toggleHabit_completedOn_self
      (toggleAll ((List.range n).map calls) (addHabit now₀ now₁ uuid₀ habitData habits).1)
      again.now again.uuid again.date h hdist
    rw [hadate, hdays] at this
    rw [this, decide_eq_true (by omega)]
    rfl
  have hnew : (toggleHabit
        (toggleAll ((List.range n).map calls) (addHabit now₀ now₁ uuid₀ habitData habits).1)
        again.now again.uuid again.date h).streak = n - 1 := by
    rw [hstreak]
    apply dailyStreak_yesterday _ today (n - 1) (by omega) htoday
    · intro j hj
      rw [hother _ (by omega), decide_eq_true_eq]
      omega
    · rw [hother _ (by omega)]
      exact decide_eq_false (by omega)
  refine ⟨_, find?_toggle_target _ _ _ uuid₀ _ _ h hf, hnew, ?_⟩
  rw [toggleHabit_bestStreak, hnew, hbs]
  omega

/-- C2 at the input of the scenario: a habit created on 2024-01-03, then 2024-01-01, 01-02
and 01-03 toggled on that day, gives streak 3 and best streak 3; toggling 01-03 again
gives streak 2 and best streak 3. The second part evaluates the code on that input. -/
theorem toggle_consecutive_days_witness :
    ((∃ h, (toggleAll ((List.range 3).map threeDayCall)
          (addHabit (dayStart 19725 + 28800000) (dayStart 19725 + 28800000) "h1"
            { name := "Run" } []).1).find?
            (fun h => h.id == "h1") = some h ∧ h.streak = 3 ∧ h.bestStreak = 3) ∧
      (∃ h, (toggleAll ((List.range 3).map threeDayCall ++ [undoCall])
          (addHabit (dayStart 19725 + 28800000) (dayStart 19725 + 28800000) "h1"
            { name := "Run" } []).1).find?
            (fun h => h.id == "h1") = some h ∧ h.streak = 3 - 1 ∧ h.bestStreak = 3)) ∧
    (toggleAll ((List.range 3).map threeDayCall)
        (addHabit (dayStart 19725 + 28800000) (dayStart 19725 + 28800000) "h1"
            { name := "Run" } []).1).map
      (fun h => (h.streak, h.bestStreak)) = [(3, 3)] ∧
    (toggleAll ((List.range 3).map threeDayCall ++ [undoCall])
        (addHabit (dayStart 19725 + 28800000) (dayStart 19725 + 28800000) "h1"
            { name := "Run" } []).1).map
      (fun h => (h.streak, h.bestStreak)) = [(2, 3)] :=
  ⟨toggle_consecutive_days [] (dayStart 19725 + 28800000) (dayStart 19725 + 28800000) "h1"
      { name := "Run" }
      threeDayCall undoCall 19725 3 (by decide) (by decide) (by decide) (by decide)
      (by decide) (by decide),
    by decide, by decide⟩

/-- C2 as stated fails beyond the cap of the loop: a habit created on 2024-01-03 and
completed on each of the 1002 consecutive days ending today has streak 1001, not 1002. -/
theorem toggle_1002_days_streak :
    ∃ h, (toggleAll ((List.range 1002).map longRunCall)
        (addHabit (dayStart 19725 + 28800000) (dayStart 19725 + 28800000) "h1"
            { name := "Run" } []).1).find?
          (fun h => h.id == "h1") = some h ∧
      h.streak = 1001 ∧ h.streak ≠ 1002 := by
  obtain ⟨h, hf, _, _, _, _, hfin⟩ :=
    toggle_run_state (addHabit (dayStart 19725 + 28800000) (dayStart 19725 + 28800000) "h1"
            { name := "Run" } []).1
      "h1" longRunCall 20726 1002
      (newHabit (dayStart 19725 + 28800000) (dayStart 19725 + 28800000) "h1" { name := "Run" })
      (by decide) (by decide) rfl rfl
      (fun i _ => ⟨rfl, formatYMD_dayStart_add 20726 3600000 (by decide) (by decide), by
        rw [longRunCall, formatYMD_dayStart]; push_cast; ring⟩)
      1002 (Nat.le_refl _)
  obtain ⟨hs, _⟩ := hfin (by decide) rfl
  have h1001 : h.streak = 1001 := by rw [hs]; rfl
  exact ⟨h, hf, h1001, by rw [h1001]; decide⟩

/-! ## C11: only the calendar day of the date matters -/

theorem startOfDay_eq_of_formatYMD_eq (t₁ t₂ : Int) (h : formatYMD t₁ = formatYMD t₂) :
    startOfDay t₁ = startOfDay t₂ := by
  unfold formatYMD at h
  unfold startOfDay
  rw [h]

theorem startOfDay_le (t : Int) : startOfDay t ≤ t := by
  have h := Int.ediv_add_emod t msPerDay
  have hm := Int.emod_nonneg t (show msPerDay ≠ 0 by decide)
  rw [startOfDay, Int.fdiv_eq_ediv t (show (0 : Int) ≤ msPerDay by decide)]
  rw [Int.mul_comm] at h
  omega

theorem lt_startOfDay_add (t : Int) : t < startOfDay t + msPerDay := by
  have h := Int.ediv_add_emod t msPerDay
  have hm := Int.emod_lt_of_pos t (show (0 : Int) < msPerDay by decide)
  rw [startOfDay, Int.fdiv_eq_ediv t (show (0 : Int) ≤ msPerDay by decide)]
  rw [Int.mul_comm] at h
  omega

theorem toggleHabit_same_day (habits : List Habit) (now : Int) (uuid : String)
    (t₁ t₂ : Int) (habit : Habit) (h : formatYMD t₁ = formatYMD t₂) :
    toggleHabit habits now uuid t₁ habit = toggleHabit habits now uuid t₂ habit := by
  simp only [toggleHabit, startOfDay_eq_of_formatYMD_eq t₁ t₂ h]

/-- The dates of a sorted completion list depend only on the dates of the list. -/
theorem sortCompletions_dates (l₁ l₂ : List Completion)
    (h : l₁.map (fun c => c.date) = l₂.map (fun c => c.date)) :
    (sortCompletions l₁).map (fun c => c.date) =
      (sortCompletions l₂).map (fun c => c.date) := by
  letI : DecidableRel (fun a b : Int => compareDesc a b ≤ 0) := fun a b => Int.decLe _ _
  unfold sortCompletions
  rw [List.map_insertionSort sortsBefore (fun a b : Int => compareDesc a b ≤ 0)
      (fun c => c.date) l₁ (fun _ _ _ _ => Iff.rfl),
    List.map_insertionSort sortsBefore (fun a b : Int => compareDesc a b ≤ 0)
      (fun c => c.date) l₂ (fun _ _ _ _ => Iff.rfl), h]

/-- The completion dates a toggle stores depend neither on the captured collection, nor on
the clock reading, nor on the generated id, and on the date only through its day. -/
theorem toggleHabit_dates (habits₁ habits₂ : List Habit) (now₁ now₂ : Int)
    (uuid₁ uuid₂ : String) (t₁ t₂ : Int) (habit : Habit)
    (h : formatYMD t₁ = formatYMD t₂) :
    (toggleHabit habits₁ now₁ uuid₁ t₁ habit).completions.map (fun c => c.date) =
      (toggleHabit habits₂ now₂ uuid₂ t₂ habit).completions.map (fun c => c.date) := by
  rw [toggleHabit_completions, toggleHabit_completions, h,
    startOfDay_eq_of_formatYMD_eq t₁ t₂ h]
  apply sortCompletions_dates
  split <;> simp

/-- C11. For two instants `t₁` and `t₂` on the same calendar day:
`isHabitCompletedForDate(habitId, t₁)` and `isHabitCompletedForDate(habitId, t₂)` agree;
`toggleHabitCompletion(habitId, t₁)` and `toggleHabitCompletion(habitId, t₂)` give the
same collection when they meet the same clock reading and generated id, and in any case
the same completion dates for every habit; and when the day was not completed, the stored
list is the old one plus one completion whose date is the start of the calendar day of
`t₁`: a multiple of the day length, at most `t₁` and less than a day before it. -/
theorem toggle_depends_on_day (habits habits' prevHabits : List Habit) (now now' : Int)
    (uuid uuid' habitId : String) (t₁ t₂ : Int) (hday : formatYMD t₁ = formatYMD t₂) :
    isHabitCompletedForDate prevHabits habitId t₁ =
      isHabitCompletedForDate prevHabits habitId t₂ ∧
    toggleHabitCompletion habits now uuid habitId t₁ prevHabits =
      toggleHabitCompletion habits now uuid habitId t₂ prevHabits ∧
    (toggleHabitCompletion habits now uuid habitId t₁ prevHabits).map
        (fun h => h.completions.map (fun c => c.date)) =
      (toggleHabitCompletion habits' now' uuid' habitId t₂ prevHabits).map
        (fun h => h.completions.map (fun c => c.date)) ∧
    (∀ habit, prevHabits.find? (fun h => h.id == habitId) = some habit →
      isHabitCompletedForDate prevHabits habitId t₁ = false →
      ∃ habit', (toggleHabitCompletion habits now uuid habitId t₁ prevHabits).find?
          (fun h => h.id == habitId) = some habit' ∧
        habit'.completions.Perm
          (habit.completions ++ [{ id := uuid, date := startOfDay t₁, timestamp := now }])) ∧
    startOfDay t₁ = formatYMD t₁ * msPerDay ∧
    startOfDay t₁ ≤ t₁ ∧ t₁ < startOfDay t₁ + msPerDay := by
  refine ⟨?_, ?_, ?_, ?_, rfl, startOfDay_le t₁, lt_startOfDay_add t₁⟩
  · simp only [isHabitCompletedForDate, formatYMD_startOfDay, hday]
  · unfold toggleHabitCompletion
    apply List.map_congr_left
    intro habit _
    rw [toggleHabit_same_day habits now uuid t₁ t₂ habit hday]
  · unfold toggleHabitCompletion
    rw [List.map_map, List.map_map]
    apply List.map_congr_left
    intro habit _
    simp only [Function.comp]
    split
    · rfl
    · exact toggleHabit_dates habits habits' now now' uuid uuid' t₁ t₂ habit hday
  · intro habit hfind hnot
    refine ⟨_, find?_toggle_target habits now uuid habitId t₁ prevHabits habit hfind, ?_⟩
    rw [isHabitCompletedForDate_eq _ _ _ _ hfind] at hnot
    rw [toggleHabit_completions, hnot]
    exact perm_sortCompletions _

/-- C11 at a concrete input: 00:00:00.005 and 12:00 of 2024-01-02 are the same day for the
query and for the toggle of the tracked habit. -/
theorem toggle_depends_on_day_witness :
    isHabitCompletedForDate [trackedHabit] "h1" (dayStart 19724 + 5) =
      isHabitCompletedForDate [trackedHabit] "h1" (dayStart 19724 + 43200000) ∧
    toggleHabitCompletion [trackedHabit] (dayStart 19725 + 9) "c9" "h1" (dayStart 19724 + 5)
        [trackedHabit] =
      toggleHabitCompletion [trackedHabit] (dayStart 19725 + 9) "c9" "h1"
        (dayStart 19724 + 43200000) [trackedHabit] :=
  ⟨(toggle_depends_on_day [trackedHabit] [trackedHabit] [trackedHabit] (dayStart 19725 + 9)
      (dayStart 19725 + 10) "c9" "c8" "h1" (dayStart 19724 + 5) (dayStart 19724 + 43200000)
      (by decide)).1,
   (toggle_depends_on_day [trackedHabit] [trackedHabit] [trackedHabit] (dayStart 19725 + 9)
      (dayStart 19725 + 10) "c9" "c8" "h1" (dayStart 19724 + 5) (dayStart 19724 + 43200000)
      (by decide)).2.1⟩

/-! ## C12: delete cascades -/

theorem find?_deleteHabit (id : String) (habits : List Habit) :
    (deleteHabit id habits).find? (fun h => h.id == id) = none := by
  rw [List.find?_eq_none]
  intro h hmem
  have := (List.mem_filter.mp hmem).2
  simpa using this

/-- C12. After `deleteHabit(id)` no habit of the collection has the id and
`isHabitCompletedForDate(id, date)` is false for every date; the collection is a sublist
of the old one (what remains is unchanged and in the same order), and every habit with
another id remains, as many times as it occurred. -/
theorem delete_cascades (habits : List Habit) (id : String) (date : Int) :
    (∀ h ∈ deleteHabit id habits, h.id ≠ id) ∧
    isHabitCompletedForDate (deleteHabit id habits) id date = false ∧
    (deleteHabit id habits).Sublist habits ∧
    (∀ h : Habit, h.id ≠ id → (deleteHabit id habits).count h = habits.count h) := by
  refine ⟨?_, ?_, List.filter_sublist habits, ?_⟩
  · intro h hmem
    simpa using (List.mem_filter.mp hmem).2
  · simp only [isHabitCompletedForDate, find?_deleteHabit]
  · intro h hid
    unfold deleteHabit
    rw [List.count_filter]
    simpa using hid

/-- C12 at a concrete input: deleting `h1` from a store of two habits leaves the other
habit and makes the query false. -/
theorem delete_cascades_witness :
    isHabitCompletedForDate (deleteHabit "h1" [trackedHabit, otherHabit]) "h1"
        (dayStart 19724) = false ∧
    (deleteHabit "h1" [trackedHabit, otherHabit]).count otherHabit =
      [trackedHabit, otherHabit].count otherHabit :=
  ⟨(delete_cascades [trackedHabit, otherHabit] "h1" (dayStart 19724)).2.1,
   (delete_cascades [trackedHabit, otherHabit] "h1" (dayStart 19724)).2.2.2 otherHabit
     (by decide)⟩

/-! ## C13: an unknown id changes nothing -/

/-- C13. When no habit of the collection has the id, `updateHabit`, `deleteHabit` and
`toggleHabitCompletion` return the collection unchanged; and on any collection
`deleteHabit(id)` twice gives what `deleteHabit(id)` gives once. All three operations are
total functions. -/
theorem unknown_id_noop (habits captured store : List Habit) (now : Int)
    (uuid id : String) (date : Int) (updatedData : UpdatedData)
    (hunknown : ∀ h ∈ habits, h.id ≠ id) :
    updateHabit now id updatedData habits = habits ∧
    deleteHabit id habits = habits ∧
    toggleHabitCompletion captured now uuid id date habits = habits ∧
    deleteHabit id (deleteHabit id store) = deleteHabit id store := by
  refine ⟨?_, ?_, ?_, ?_⟩
  · unfold updateHabit
    conv_rhs => rw [← List.map_id habits]
    apply List.map_congr_left
    intro h hmem
    simp [hunknown h hmem]
  · unfold deleteHabit
    rw [List.filter_eq_self]
    intro h hmem
    simpa using hunknown h hmem
  · unfold toggleHabitCompletion
    conv_rhs => rw [← List.map_id habits]
    apply List.map_congr_left
    intro h hmem
    simp [hunknown h hmem]
  · unfold deleteHabit
    rw [List.filter_filter]
    congr 1
    funext h
    simp

/-- C13 at a concrete input: the id `h7` is not in the store. -/
theorem unknown_id_noop_witness :
    updateHabit (dayStart 19726) "h7" { name := some "Walk" } [trackedHabit, otherHabit] =
      [trackedHabit, otherHabit] ∧
    deleteHabit "h7" [trackedHabit, otherHabit] = [trackedHabit, otherHabit] ∧
    toggleHabitCompletion [trackedHabit, otherHabit] (dayStart 19726) "c9" "h7"
      (dayStart 19726) [trackedHabit, otherHabit] = [trackedHabit, otherHabit] ∧
    deleteHabit "h7" (deleteHabit "h7" [trackedHabit]) = deleteHabit "h7" [trackedHabit] :=
  unknown_id_noop [trackedHabit, otherHabit] [trackedHabit, otherHabit] [trackedHabit]
    (dayStart 19726) "c9" "h7" (dayStart 19726) { name := some "Walk" } (by decide)

/-! ## C14: what an update leaves alone -/

theorem getElem?_updateHabit (now : Int) (id : String) (updatedData : UpdatedData)
    (habits : List Habit) (i : Nat) (habit : Habit) (hget : habits[i]? = some habit)
    (hid : habit.id = id) :
    (updateHabit now id updatedData habits)[i]? = some (mergeHabit now habit updatedData) := by
  unfold updateHabit
  rw [List.getElem?_map, hget]
  simp [hid]

/-- C14, as the code has it. For a habit with id `id` at position `i`, after
`updateHabit(id, updatedData)` each of `streak`, `bestStreak` and `completions` of the
habit at position `i` is the value `updatedData` gives for it, and the habit's previous
value when `updatedData` gives none; nothing is recomputed. In particular the three are
unchanged when `updatedData` names none of them. -/
theorem update_keeps_unlisted_fields (now : Int) (id : String) (updatedData : UpdatedData)
    (habits : List Habit) (i : Nat) (habit : Habit) (hget : habits[i]? = some habit)
    (hid : habit.id = id) :
    ∃ habit', (updateHabit now id updatedData habits)[i]? = some habit' ∧
      habit'.streak = updatedData.streak.getD habit.streak ∧
      habit'.bestStreak = updatedData.bestStreak.getD habit.bestStreak ∧
      habit'.completions = updatedData.completions.getD habit.completions ∧
      (updatedData.streak = none → habit'.streak = habit.streak) ∧
      (updatedData.bestStreak = none → habit'.bestStreak = habit.bestStreak) ∧
      (updatedData.completions = none → habit'.completions = habit.completions) := by
  refine ⟨_, getElem?_updateHabit now id updatedData habits i habit hget hid, rfl, rfl, rfl,
    ?_, ?_, ?_⟩
  · intro h; simp [mergeHabit, h]
  · intro h; simp [mergeHabit, h]
  · intro h; simp [mergeHabit, h]

/-- C14 at a concrete input: changing the tracked habit from daily to weekly leaves its
streak, best streak and completions as they were. -/
theorem update_keeps_unlisted_fields_witness :
    ∃ habit', (updateHabit (dayStart 19726) "h1"
        { frequency := some { type := "weekly", days := some [1, 3, 5] } }
        [trackedHabit])[0]? = some habit' ∧
      habit'.streak = trackedHabit.streak ∧
      habit'.bestStreak = trackedHabit.bestStreak ∧
      habit'.completions = trackedHabit.completions :=
  match update_keeps_unlisted_fields (dayStart 19726) "h1"
      { frequency := some { type := "weekly", days := some [1, 3, 5] } }
      [trackedHabit] 0 trackedHabit (by decide) (by decide) with
  | ⟨habit', hget, _, _, _, hs, hb, hc⟩ => ⟨habit', hget, hs rfl, hb rfl, hc rfl⟩

/-- C14 as stated fails: `updateHabit("h1", {completions: [], streak: 9})` on the tracked
habit, which has three completions, streak 3 and best streak 3, leaves no completions and
streak 9. -/
theorem update_overwrites_completion_data :
    [trackedHabit].map (fun h => (h.streak, h.bestStreak, h.completions.length)) =
      [(3, 3, 3)] ∧
    (updateHabit (dayStart 19726) "h1" { completions := some [], streak := some 9 }
      [trackedHabit]).map (fun h => (h.streak, h.bestStreak, h.completions.length)) =
      [(9, 3, 0)] := by
  decide

/-! ## C15: what `addHabit` creates -/

/-- C15, as the code has it. The operation `addHabit` returns the old collection followed
by exactly one new habit, and the id of that habit. The new habit has no completions,
`streak = 0` and `bestStreak = 0`; `createdAt` is the first and `updatedAt` the second of
the two clock readings `new Date()` that build the habit, so the two fields are equal
exactly when the two readings are; its reminders are empty, its category is "General"
and its frequency is daily whenever the input gives none for that field. -/
theorem addHabit_appends (now now' : Int) (uuid : String) (habitData : HabitData)
    (prevHabits : List Habit) :
    ∃ habit, (addHabit now now' uuid habitData prevHabits).1 = prevHabits ++ [habit] ∧
      (addHabit now now' uuid habitData prevHabits).2 = habit.id ∧
      habit.completions = [] ∧ habit.streak = 0 ∧ habit.bestStreak = 0 ∧
      habit.createdAt = now ∧ habit.updatedAt = now' ∧
      (habit.createdAt = habit.updatedAt ↔ now = now') ∧
      (habitData.reminders = none → habit.reminders = []) ∧
      (habitData.category = none → habit.category = "General") ∧
      (habitData.frequency = none → habit.frequency = { type := "daily" }) := by
  refine ⟨newHabit now now' uuid habitData, rfl, rfl, rfl, rfl, rfl, rfl, rfl, Iff.rfl,
    ?_, ?_, ?_⟩
  · intro h; simp [newHabit, h]
  · intro h; simp [newHabit, h, strOr]
  · intro h; simp [newHabit, h]

/-- C15 at a concrete input: a habit named "Read", with no other field given, added to a
store holding the tracked habit, the clock reading 2024-01-04 00:00:00.000 both times. -/
theorem addHabit_appends_witness :
    ∃ habit,
      (addHabit (dayStart 19726) (dayStart 19726) "h2" { name := "Read" } [trackedHabit]).1 =
        [trackedHabit] ++ [habit] ∧
      (addHabit (dayStart 19726) (dayStart 19726) "h2" { name := "Read" } [trackedHabit]).2 =
        habit.id ∧
      habit.completions = [] ∧ habit.streak = 0 ∧ habit.bestStreak = 0 ∧
      habit.createdAt = dayStart 19726 ∧ habit.updatedAt = dayStart 19726 ∧
      habit.createdAt = habit.updatedAt ∧
      habit.reminders = [] ∧ habit.category = "General" ∧
      habit.frequency = { type := "daily" } :=
  match addHabit_appends (dayStart 19726) (dayStart 19726) "h2" { name := "Read" }
    [trackedHabit] with
  | ⟨habit, h1, h2, h3, h4, h5, h6, h7, h8, h9, h10, h11⟩ =>
    ⟨habit, h1, h2, h3, h4, h5, h6, h7, h8.mpr rfl, h9 rfl, h10 rfl, h11 rfl⟩

/-- C15 as stated fails: when the clock advances by one millisecond between the two
`new Date()` of `addHabit`, the new habit has `updatedAt` one millisecond after
`createdAt`. -/
theorem addHabit_reads_clock_twice :
    (addHabit (dayStart 19726) (dayStart 19726 + 1) "h2" { name := "Read" }
      [trackedHabit]).1.map (fun h => (h.id, h.createdAt, h.updatedAt)) =
      [("h1", dayStart 19725 + 28800000, dayStart 19725 + 28800000),
        ("h2", dayStart 19726, dayStart 19726 + 1)] ∧
    ∃ habit ∈ (addHabit (dayStart 19726) (dayStart 19726 + 1) "h2" { name := "Read" }
      [trackedHabit]).1, habit.id = "h2" ∧ habit.createdAt ≠ habit.updatedAt := by
  refine ⟨by decide, newHabit (dayStart 19726) (dayStart 19726 + 1) "h2" { name := "Read" },
    by simp [addHabit], rfl, by decide⟩

/-! ## C19: the cases in which the streak is 0 -/

/-- C19. The function `calculateStreak` returns 0 when the habit found has a frequency
other than daily, whatever the completion list; when no habit of the collection has the
id; and when the completion list (the argument, or the habit's own list when the argument
is absent) is empty. -/
theorem calculateStreak_zero_cases (habits : List Habit) (now : Int) (habitId : String)
    (completions : Option (List Completion)) :
    (∀ habit, habits.find? (fun h => h.id == habitId) = some habit →
      habit.frequency.type ≠ "daily" →
      calculateStreak habits now habitId completions = 0) ∧
    ((∀ h ∈ habits, h.id ≠ habitId) →
      calculateStreak habits now habitId completions = 0) ∧
    calculateStreak habits now habitId (some []) = 0 ∧
    (∀ habit, habits.find? (fun h => h.id == habitId) = some habit →
      habit.completions = [] → calculateStreak habits now habitId none = 0) := by
  refine ⟨?_, ?_, ?_, ?_⟩
  · intro habit hfind hfreq
    exact calculateStreak_not_daily habits now habitId habit completions hfind hfreq
  · intro hnone
    have hfind : habits.find? (fun h => h.id == habitId) = none := by
      rw [List.find?_eq_none]
      intro h hh
      simpa using hnone h hh
    simp [calculateStreak, hfind]
  · cases hfind : habits.find? (fun h => h.id == habitId) <;> simp [calculateStreak, hfind]
  · intro habit hfind hempty
    simp [calculateStreak, hfind, hempty]

/-- C19 at a concrete input: a weekly habit with three consecutive completions ending
today, an id that is not in the store, and a daily habit without completions. -/
theorem calculateStreak_zero_cases_witness :
    calculateStreak [trackedHabit, weeklyHabit] (dayStart 19725 + 9) "h3"
      (some sampleCompletions) = 0 ∧
    calculateStreak [trackedHabit, weeklyHabit] (dayStart 19725 + 9) "h7"
      (some sampleCompletions) = 0 ∧
    calculateStreak [sampleHabit] (dayStart 19725 + 9) "h1" none = 0 :=
  ⟨(calculateStreak_zero_cases [trackedHabit, weeklyHabit] (dayStart 19725 + 9) "h3"
      (some sampleCompletions)).1 weeklyHabit (by decide) (by decide),
   (calculateStreak_zero_cases [trackedHabit, weeklyHabit] (dayStart 19725 + 9) "h7"
      (some sampleCompletions)).2.1 (by decide),
   (calculateStreak_zero_cases [sampleHabit] (dayStart 19725 + 9) "h1" none).2.2.2
      sampleHabit (by decide) (by decide)⟩

/-! ## C17: habit ids -/

theorem map_id_addHabit (now now' : Int) (uuid : String) (habitData : HabitData)
    (habits : List Habit) :
    (addHabit now now' uuid habitData habits).1.map (fun h => h.id) =
      habits.map (fun h => h.id) ++ [uuid] := by
  simp [addHabit, newHabit]

theorem map_id_updateHabit (now : Int) (id : String) (updatedData : UpdatedData)
    (habits : List Habit) (hid : updatedData.id = none) :
    (updateHabit now id updatedData habits).map (fun h => h.id) =
      habits.map (fun h => h.id) := by
  unfold updateHabit
  rw [List.map_map]
  apply List.map_congr_left
  intro h _
  simp only [Function.comp]
  split
  · simp [mergeHabit, hid]
  · rfl

theorem map_id_toggleHabitCompletion (captured : List Habit) (now : Int)
    (uuid habitId : String) (date : Int) (habits : List Habit) :
    (toggleHabitCompletion captured now uuid habitId date habits).map (fun h => h.id) =
      habits.map (fun h => h.id) := by
  unfold toggleHabitCompletion
  rw [List.map_map]
  apply List.map_congr_left
  intro h _
  simp only [Function.comp]
  split <;> rfl

/-- An operation other than `addHabit` that gives no `id` field adds no id and keeps the
order of the ids. -/
theorem map_id_applyOp_sublist (op : StoreOp) (habits : List Habit)
    (hgives : givesId op = false) (hcreated : createdIds [op] = []) :
    ((applyOp op habits).map (fun h => h.id)).Sublist (habits.map (fun h => h.id)) := by
  cases op with
  | create now uuid habitData => simp [createdIds] at hcreated
  | update now id updatedData =>
    have hid : updatedData.id = none := by simpa [givesId] using hgives
    rw [applyOp, map_id_updateHabit now id updatedData habits hid]
  | delete id => exact (List.filter_sublist habits).map _
  | toggle now uuid habitId date =>
    rw [applyOp, toggleCompletion, map_id_toggleHabitCompletion]

theorem runOps_ids_nodup (ops : List StoreOp) :
    ∀ habits : List Habit, (habits.map fun h => h.id).Nodup →
      (∀ h ∈ habits, h.id ∉ createdIds ops) → (createdIds ops).Nodup →
      (∀ op ∈ ops, givesId op = false) →
      ((runOps ops habits).map fun h => h.id).Nodup := by
  induction ops with
  | nil => intro habits hnodup _ _ _; exact hnodup
  | cons op ops ih =>
    intro habits hnodup hfresh hgen hgives
    have hrest : ∀ o ∈ ops, givesId o = false :=
      fun o ho => hgives o (List.mem_cons_of_mem _ ho)
    show ((runOps ops (applyOp op habits)).map fun h => h.id).Nodup
    by_cases hc : ∃ now now' uuid habitData, op = StoreOp.create now now' uuid habitData
    · obtain ⟨now, now', uuid, habitData, rfl⟩ := hc
      simp only [createdIds, List.nodup_cons] at hgen
      simp only [createdIds, List.mem_cons, not_or] at hfresh
      apply ih _ _ _ hgen.2 hrest
      · rw [applyOp, map_id_addHabit, List.nodup_append]
        refine ⟨hnodup, List.nodup_singleton _, ?_⟩
        intro x hx hx'
        rw [List.mem_singleton] at hx'
        obtain ⟨h, hh, rfl⟩ := List.mem_map.mp hx
        exact (hfresh h hh).1 hx'
      · intro h hmem
        rcases List.mem_append.mp hmem with hold | hnew
        · exact (hfresh h hold).2
        · rw [List.mem_singleton.mp hnew]
          exact hgen.1
    · have hcreated : createdIds [op] = [] := by
        cases op with
        | create now now' uuid habitData => exact absurd ⟨now, now', uuid, habitData, rfl⟩ hc
        | update _ _ _ => rfl
        | delete _ => rfl
        | toggle _ _ _ _ => rfl
      have hsame : createdIds (op :: ops) = createdIds ops := by
        cases op with
        | create now now' uuid habitData => exact absurd ⟨now, now', uuid, habitData, rfl⟩ hc
        | update _ _ _ => rfl
        | delete _ => rfl
        | toggle _ _ _ _ => rfl
      rw [hsame] at hgen hfresh
      have hsub := map_id_applyOp_sublist op habits (hgives op (List.mem_cons_self _ _))
        hcreated
      apply ih _ (List.Nodup.sublist hsub hnodup) _ hgen hrest
      intro h hmem
      have hin : h.id ∈ habits.map (fun h => h.id) :=
        hsub.subset (List.mem_map.mpr ⟨h, hmem, rfl⟩)
      obtain ⟨h', hh', heq⟩ := List.mem_map.mp hin
      rw [← heq]
      exact hfresh h' hh'

/-- C17, as the code has it. Let the ids generated for the habits of a sequence of
`addHabit`, `updateHabit`, `deleteHabit` and `toggleHabitCompletion` calls be pairwise
distinct, and let no `updatedData` of the sequence give an `id` field. Then, starting
from the empty store, the ids of the habits are pairwise distinct after the sequence.
Moreover `addHabit` keeps the ids of the existing habits and appends the new id,
`updateHabit` without an `id` field and `toggleHabitCompletion` keep the id of every
habit in place, and `deleteHabit` leaves a sublist of the collection. -/
theorem ids_unique_and_kept (ops : List StoreOp) (habits captured : List Habit)
    (now now' : Int) (uuid id : String) (date : Int) (habitData : HabitData)
    (updatedData : UpdatedData)
    (hgen : (createdIds ops).Nodup) (hgives : ∀ op ∈ ops, givesId op = false) :
    ((runOps ops []).map fun h => h.id).Nodup ∧
    (addHabit now now' uuid habitData habits).1.map (fun h => h.id) =
      habits.map (fun h => h.id) ++ [uuid] ∧
    (updatedData.id = none →
      (updateHabit now id updatedData habits).map (fun h => h.id) =
        habits.map (fun h => h.id)) ∧
    (toggleHabitCompletion captured now uuid id date habits).map (fun h => h.id) =
      habits.map (fun h => h.id) ∧
    (deleteHabit id habits).Sublist habits :=
  ⟨runOps_ids_nodup ops [] List.nodup_nil (fun _ h => absurd h (List.not_mem_nil _)) hgen
      hgives,
    map_id_addHabit now now' uuid habitData habits,
    map_id_updateHabit now id updatedData habits,
    map_id_toggleHabitCompletion captured now uuid id date habits,
    List.filter_sublist habits⟩

/-- C17 at a concrete input: the ids after the sample sequence are pairwise distinct. -/
theorem ids_unique_and_kept_witness :
    ((runOps sampleOps []).map fun h => h.id).Nodup :=
  (ids_unique_and_kept sampleOps [] [] 0 0 "h9" "h1" 0 { name := "Run" } { }
    (by decide) (by decide)).1

/-- C17 as stated fails: after two `addHabit` calls with the distinct ids `h1` and `h2`,
the call `updateHabit("h1", {id: "h2"})` changes the id of the first habit and leaves two
habits with the id `h2`. -/
theorem update_can_duplicate_ids :
    (createdIds renumberOps).Nodup ∧
    (runOps (renumberOps.take 2) []).map (fun h => h.id) = ["h1", "h2"] ∧
    (runOps renumberOps []).map (fun h => h.id) = ["h2", "h2"] ∧
    ¬ ((runOps renumberOps []).map fun h => h.id).Nodup := by
  decide

/-! ## C16: where the name is validated -/

/-- C16, as the code has it. The name is validated by the habit form, not by `addHabit`:
for every form state whose name is empty or only white space, `validateForm` reports
"Name is required" and fails, and `handleSubmit` leaves the habit collection unchanged, in
create mode and in edit mode. -/
theorem handleSubmit_rejects_blank_name (now now' : Int) (uuid : String)
    (isEditMode : Bool)
    (id : String) (formData : FormData) (prevHabits : List Habit)
    (hblank : trim formData.name = "") :
    ("name", "Name is required") ∈ formErrors formData ∧
    validateForm formData = false ∧
    handleSubmit now now' uuid isEditMode id formData prevHabits = prevHabits := by
  have herr : ("name", "Name is required") ∈ formErrors formData := by
    simp [formErrors, hblank]
  have hvalid : validateForm formData = false := by
    have hpos : 0 < (formErrors formData).length := List.length_pos_of_mem herr
    simp only [validateForm, beq_eq_false_iff_ne, ne_eq]
    omega
  exact ⟨herr, hvalid, by simp [handleSubmit, hvalid]⟩

/-- C16 at a concrete input: the form is submitted with the name left empty. -/
theorem handleSubmit_rejects_blank_name_witness :
    validateForm emptyForm = false ∧
    handleSubmit (dayStart 19726) (dayStart 19726) "h2" false "" emptyForm [trackedHabit] =
      [trackedHabit] :=
  (handleSubmit_rejects_blank_name (dayStart 19726) (dayStart 19726) "h2" false "" emptyForm
    [trackedHabit] (by decide)).2

/-- C16 as stated fails: `addHabit` called with an empty name returns the new id and
appends a habit with that name to the collection. -/
theorem addHabit_accepts_empty_name :
    (addHabit (dayStart 19726) (dayStart 19726) "h2" { name := "" } [trackedHabit]).2 = "h2" ∧
    (addHabit (dayStart 19726) (dayStart 19726) "h2" { name := "" } [trackedHabit]).1.map
      (fun h => (h.id, h.name)) = [("h1", "Run"), ("h2", "")] ∧
    (addHabit (dayStart 19726) (dayStart 19726) "h2" { name := "" } [trackedHabit]).1 ≠
      [trackedHabit] := by
  decide

/-! ## C20: saving and loading -/

/-- What loading gives for a saved collection: `createdAt`, `updatedAt` and the `date` of
every completion are dates again, and the `timestamp` of every completion is the ISO-8601
string of the original instant. -/
theorem parseHabits_stringify (habits : List Habit) :
    parseHabits (stringify (habits.map Habit.toValue)) =
      habits.map fun habit =>
        { habit.toValue with
          completions := habit.completions.map fun comp =>
            { id := comp.id, date := .date comp.date,
              timestamp := .isoString comp.timestamp } } := by
  simp only [parseHabits, stringify, List.map_map]
  apply List.map_congr_left
  intro habit _
  simp [Habit.toValue, Completion.toValue, DateValue.toJSON, DateValue.toDate,
    Function.comp]

/-- C20 on a store holding the tracked habit: after saving and loading, the collection
differs from the original, because the `timestamp` of each completion is a string and no
longer a date; `createdAt`, `updatedAt` and the completion dates are dates equal to the
originals. -/
theorem load_leaves_timestamp_string :
    parseHabits (stringify ([trackedHabit].map Habit.toValue)) ≠
      [trackedHabit].map Habit.toValue ∧
    (parseHabits (stringify ([trackedHabit].map Habit.toValue))).map
        (fun h => h.completions.map fun c => c.timestamp) =
      [[.isoString (dayStart 19724 + 100), .isoString (dayStart 19725 + 100),
        .isoString (dayStart 19723 + 100)]] ∧
    ([trackedHabit].map Habit.toValue).map
        (fun h => h.completions.map fun c => c.timestamp) =
      [[.date (dayStart 19724 + 100), .date (dayStart 19725 + 100),
        .date (dayStart 19723 + 100)]] ∧
    (parseHabits (stringify ([trackedHabit].map Habit.toValue))).map
        (fun h => (h.createdAt, h.updatedAt, h.completions.map fun c => c.date)) =
      ([trackedHabit].map Habit.toValue).map
        (fun h => (h.createdAt, h.updatedAt, h.completions.map fun c => c.date)) := by
  decide

/-! ## C18: the completion rate -/

theorem floorLog2Fuel_spec (fuel : Nat) :
    ∀ n : Nat, 0 < n → n ≤ fuel →
      2 ^ floorLog2Fuel fuel n ≤ n ∧ n < 2 ^ (floorLog2Fuel fuel n + 1) := by
  induction fuel with
  | zero => intro n hn hle; omega
  | succ fuel ih =>
    intro n hn hle
    rw [floorLog2Fuel]
    split
    · rename_i h2
      have := ih (n / 2) (by omega) (by omega)
      rw [pow_succ, pow_succ]
      constructor <;> omega
    · simp; omega

theorem floorLog2_spec (n : Nat) (hn : 0 < n) :
    2 ^ floorLog2 n ≤ n ∧ n < 2 ^ (floorLog2 n + 1) :=
  floorLog2Fuel_spec n n hn (Nat.le_refl n)

/-- Scaling numerator and denominator by the two parts of an integer power of two. -/
theorem scaled_ratio (n d : Nat) (k : Int) :
    ((n * 2 ^ k.toNat : Nat) : ℚ) / ((d * 2 ^ (-k).toNat : Nat) : ℚ) =
      (n : ℚ) / d * (2 : ℚ) ^ k := by
  rcases le_or_lt 0 k with hk | hk
  · obtain ⟨j, rfl⟩ := Int.eq_ofNat_of_zero_le hk
    have h0 : (-(j : Int)).toNat = 0 := by omega
    simp only [Int.toNat_ofNat, h0, pow_zero, mul_one, Nat.cast_mul, Nat.cast_pow,
      Nat.cast_ofNat, zpow_natCast]
    ring
  · obtain ⟨j, rfl⟩ : ∃ j : Nat, k = -(j : Int) := ⟨(-k).toNat, by omega⟩
    have h0 : (-(j : Int)).toNat = 0 := by omega
    simp only [h0, neg_neg, Int.toNat_ofNat, pow_zero, mul_one, Nat.cast_mul, Nat.cast_pow,
      Nat.cast_ofNat, zpow_neg, zpow_natCast]
    rw [div_mul_eq_div_div, div_eq_mul_inv ((n : ℚ) / d)]

theorem binade_spec (n d : Nat) (hn : 0 < n) (hd : 0 < d) :
    (2 : ℚ) ^ binade n d ≤ (n : ℚ) / d ∧ (n : ℚ) / d < (2 : ℚ) ^ (binade n d + 1) := by
  obtain ⟨ha1, ha2⟩ := floorLog2_spec n hn
  obtain ⟨hb1, hb2⟩ := floorLog2_spec d hd
  have hdq : (0 : ℚ) < d := by exact_mod_cast hd
  have ha1q : (2 : ℚ) ^ (floorLog2 n : Int) ≤ n := by
    rw [zpow_natCast]; exact_mod_cast ha1
  have ha2q : (n : ℚ) < (2 : ℚ) ^ ((floorLog2 n : Int) + 1) := by
    have : (n : ℚ) < (2 : ℚ) ^ (floorLog2 n + 1) := by exact_mod_cast ha2
    rw [← zpow_natCast] at this
    push_cast at this
    exact this
  have hb1q : (2 : ℚ) ^ (floorLog2 d : Int) ≤ d := by
    rw [zpow_natCast]; exact_mod_cast hb1
  have hb2q : (d : ℚ) < (2 : ℚ) ^ ((floorLog2 d : Int) + 1) := by
    have : (d : ℚ) < (2 : ℚ) ^ (floorLog2 d + 1) := by exact_mod_cast hb2
    rw [← zpow_natCast] at this
    push_cast at this
    exact this
  have h2 : (2 : ℚ) ≠ 0 := by norm_num
  have hpos : ∀ k : Int, (0 : ℚ) < (2 : ℚ) ^ k := fun k => zpow_pos (by norm_num) k
  -- the quotient lies strictly between `2 ^ (e0 - 1)` and `2 ^ (e0 + 1)`
  have hlow : (2 : ℚ) ^ ((floorLog2 n : Int) - floorLog2 d - 1) ≤ (n : ℚ) / d := by
    rw [le_div_iff₀ hdq]
    calc (2 : ℚ) ^ ((floorLog2 n : Int) - floorLog2 d - 1) * d
        ≤ (2 : ℚ) ^ ((floorLog2 n : Int) - floorLog2 d - 1) *
            (2 : ℚ) ^ ((floorLog2 d : Int) + 1) :=
          mul_le_mul_of_nonneg_left hb2q.le (hpos _).le
      _ = (2 : ℚ) ^ (floorLog2 n : Int) := by
          rw [← zpow_add₀ h2]; congr 1; ring
      _ ≤ n := ha1q
  have hhigh : (n : ℚ) / d < (2 : ℚ) ^ ((floorLog2 n : Int) - floorLog2 d + 1) := by
    rw [div_lt_iff₀ hdq]
    calc (n : ℚ) < (2 : ℚ) ^ ((floorLog2 n : Int) + 1) := ha2q
      _ = (2 : ℚ) ^ ((floorLog2 n : Int) - floorLog2 d + 1) * (2 : ℚ) ^ (floorLog2 d : Int) := by
          rw [← zpow_add₀ h2]; congr 1; ring
      _ ≤ (2 : ℚ) ^ ((floorLog2 n : Int) - floorLog2 d + 1) * d :=
          mul_le_mul_of_nonneg_left hb1q (hpos _).le
  -- the comparison made by `binade` is the comparison of the quotient with `2 ^ e0`
  have hcmp : n * 2 ^ (-((floorLog2 n : Int) - floorLog2 d)).toNat <
        d * 2 ^ ((floorLog2 n : Int) - floorLog2 d).toNat ↔
      (n : ℚ) / d < (2 : ℚ) ^ ((floorLog2 n : Int) - floorLog2 d) := by
    have hs := scaled_ratio n d (-((floorLog2 n : Int) - floorLog2 d))
    rw [neg_neg] at hs
    have hD : (0 : ℚ) < ((d * 2 ^ ((floorLog2 n : Int) - floorLog2 d).toNat : Nat) : ℚ) := by
      exact_mod_cast Nat.mul_pos hd (Nat.two_pow_pos _)
    rw [← Nat.cast_lt (α := ℚ), ← div_lt_one hD, hs, zpow_neg, ← div_eq_mul_inv,
      div_lt_one (hpos _)]
  unfold binade
  simp only
  split
  · rename_i hlt
    have hlt' := hcmp.mp hlt
    refine ⟨hlow, ?_⟩
    have e : (floorLog2 n : Int) - floorLog2 d - 1 + 1 = (floorLog2 n : Int) - floorLog2 d := by
      ring
    rw [e]
    exact hlt'
  · rename_i hge
    have hge' : ¬ (n : ℚ) / d < (2 : ℚ) ^ ((floorLog2 n : Int) - floorLog2 d) :=
      fun h => hge (hcmp.mpr h)
    exact ⟨not_lt.mp hge', hhigh⟩

theorem nearestEven_spec (N D : Nat) (hD : 0 < D) :
    N / D ≤ nearestEven N D ∧ nearestEven N D ≤ N / D + 1 ∧
    |(N : ℚ) / D - nearestEven N D| ≤ 1 / 2 ∧
    (|(N : ℚ) / D - nearestEven N D| = 1 / 2 → nearestEven N D % 2 = 0) := by
  have hDq : (0 : ℚ) < D := by exact_mod_cast hD
  have hdm : (N : ℚ) = D * (N / D : Nat) + (N % D : Nat) := by
    exact_mod_cast (Nat.div_add_mod N D).symm
  have hr : N % D < D := Nat.mod_lt N hD
  have hval : (N : ℚ) / D = (N / D : Nat) + ((N % D : Nat) : ℚ) / D := by
    rw [hdm]; field_simp; ring
  have hrq : ((N % D : Nat) : ℚ) / D < 1 := by
    rw [div_lt_one hDq]; exact_mod_cast hr
  have hr0 : (0 : ℚ) ≤ ((N % D : Nat) : ℚ) / D := by positivity
  unfold nearestEven
  simp only
  split
  · rename_i h1
    have h1q : ((N % D : Nat) : ℚ) / D < 1 / 2 := by
      rw [div_lt_iff₀ hDq]
      have : ((2 * (N % D) : Nat) : ℚ) < D := by exact_mod_cast h1
      push_cast at this; linarith
    refine ⟨le_refl _, Nat.le_succ _, ?_, ?_⟩
    · rw [hval, add_sub_cancel_left, abs_of_nonneg hr0]; exact h1q.le
    · intro h
      rw [hval, add_sub_cancel_left, abs_of_nonneg hr0] at h
      linarith
  · split
    · rename_i h1 h2
      have h2q : 1 / 2 < ((N % D : Nat) : ℚ) / D := by
        rw [lt_div_iff₀ hDq]
        have : (D : ℚ) < ((2 * (N % D) : Nat) : ℚ) := by exact_mod_cast h2
        push_cast at this; linarith
      have hneg : (N : ℚ) / D - ((N / D + 1 : Nat) : ℚ) = ((N % D : Nat) : ℚ) / D - 1 := by
        rw [hval]; push_cast; ring
      refine ⟨Nat.le_succ _, le_refl _, ?_, ?_⟩
      · rw [hneg, abs_of_nonpos (by linarith)]; linarith
      · intro h
        rw [hneg, abs_of_nonpos (by linarith)] at h
        linarith
    · rename_i h1 h2
      have htie : ((N % D : Nat) : ℚ) / D = 1 / 2 := by
        have : 2 * (N % D) = D := by omega
        rw [div_eq_iff hDq.ne']
        have : ((2 * (N % D) : Nat) : ℚ) = D := by exact_mod_cast this
        push_cast at this; linarith
      split
      · rename_i heven
        refine ⟨le_refl _, Nat.le_succ _, ?_, fun _ => heven⟩
        rw [hval, add_sub_cancel_left, abs_of_nonneg hr0, htie]
      · rename_i hodd
        have hneg : (N : ℚ) / D - ((N / D + 1 : Nat) : ℚ) = ((N % D : Nat) : ℚ) / D - 1 := by
          rw [hval]; push_cast; ring
        refine ⟨Nat.le_succ _, le_refl _, ?_, fun _ => by omega⟩
        rw [hneg, htie]; norm_num [abs_of_nonpos]

/-- The value `roundRatio n d` is a nearest binary64 value to `n / d`: its mantissa has 53
bits (or is `2 ^ 53`), it is within half a unit in the last place of `n / d`, and when
`n / d` is exactly halfway between two such values the mantissa is even. -/
theorem roundRatio_nearest (n d : Nat) (hn : 0 < n) (hd : 0 < d) :
    2 ^ 52 ≤ (roundRatio n d).mantissa ∧ (roundRatio n d).mantissa ≤ 2 ^ 53 ∧
    |(n : ℚ) / d - (roundRatio n d).mantissa * (2 : ℚ) ^ (roundRatio n d).exponent| ≤
      (2 : ℚ) ^ (roundRatio n d).exponent / 2 ∧
    (|(n : ℚ) / d - (roundRatio n d).mantissa * (2 : ℚ) ^ (roundRatio n d).exponent| =
        (2 : ℚ) ^ (roundRatio n d).exponent / 2 →
      (roundRatio n d).mantissa % 2 = 0) := by
  have h2 : (2 : ℚ) ≠ 0 := by norm_num
  have hpos : ∀ k : Int, (0 : ℚ) < (2 : ℚ) ^ k := fun k => zpow_pos (by norm_num) k
  obtain ⟨hb1, hb2⟩ := binade_spec n d hn hd
  have hD : 0 < d * 2 ^ (binade n d - 52).toNat := Nat.mul_pos hd (Nat.two_pow_pos _)
  have hDq : (0 : ℚ) < ((d * 2 ^ (binade n d - 52).toNat : Nat) : ℚ) := by exact_mod_cast hD
  -- the scaled quotient `N / D` is `n / d * 2 ^ (52 - e)` and lies in `[2 ^ 52, 2 ^ 53)`
  have hs : ((n * 2 ^ (52 - binade n d).toNat : Nat) : ℚ) /
      ((d * 2 ^ (binade n d - 52).toNat : Nat) : ℚ) =
      (n : ℚ) / d * (2 : ℚ) ^ (52 - binade n d) := by
    have := scaled_ratio n d (52 - binade n d)
    rw [neg_sub] at this
    exact this
  have hlo : ((2 ^ 52 : Nat) : ℚ) ≤ ((n * 2 ^ (52 - binade n d).toNat : Nat) : ℚ) /
      ((d * 2 ^ (binade n d - 52).toNat : Nat) : ℚ) := by
    rw [hs]
    calc ((2 ^ 52 : Nat) : ℚ) = (2 : ℚ) ^ binade n d * (2 : ℚ) ^ (52 - binade n d) := by
          rw [← zpow_add₀ h2]
          have : binade n d + (52 - binade n d) = ((52 : Nat) : Int) := by push_cast; ring
          rw [this, zpow_natCast]; norm_num
      _ ≤ (n : ℚ) / d * (2 : ℚ) ^ (52 - binade n d) :=
          mul_le_mul_of_nonneg_right hb1 (hpos _).le
  have hhi : ((n * 2 ^ (52 - binade n d).toNat : Nat) : ℚ) /
      ((d * 2 ^ (binade n d - 52).toNat : Nat) : ℚ) < ((2 ^ 53 : Nat) : ℚ) := by
    rw [hs]
    calc (n : ℚ) / d * (2 : ℚ) ^ (52 - binade n d)
        < (2 : ℚ) ^ (binade n d + 1) * (2 : ℚ) ^ (52 - binade n d) :=
          mul_lt_mul_of_pos_right hb2 (hpos _)
      _ = ((2 ^ 53 : Nat) : ℚ) := by
          rw [← zpow_add₀ h2]
          have : binade n d + 1 + (52 - binade n d) = ((53 : Nat) : Int) := by push_cast; ring
          rw [this, zpow_natCast]; norm_num
  have hqlo : 2 ^ 52 ≤ n * 2 ^ (52 - binade n d).toNat / (d * 2 ^ (binade n d - 52).toNat) := by
    rw [Nat.le_div_iff_mul_le hD]
    rw [le_div_iff₀ hDq] at hlo
    exact_mod_cast hlo
  have hqhi : n * 2 ^ (52 - binade n d).toNat / (d * 2 ^ (binade n d - 52).toNat) < 2 ^ 53 := by
    rw [Nat.div_lt_iff_lt_mul hD]
    rw [div_lt_iff₀ hDq] at hhi
    exact_mod_cast hhi
  obtain ⟨hm1, hm2, hm3, hm4⟩ := nearestEven_spec (n * 2 ^ (52 - binade n d).toNat)
    (d * 2 ^ (binade n d - 52).toNat) hD
  -- back to the scale of `n / d`
  have hback : (n : ℚ) / d = ((n * 2 ^ (52 - binade n d).toNat : Nat) : ℚ) /
      ((d * 2 ^ (binade n d - 52).toNat : Nat) : ℚ) * (2 : ℚ) ^ (binade n d - 52) := by
    rw [hs, mul_assoc, ← zpow_add₀ h2]
    have : 52 - binade n d + (binade n d - 52) = 0 := by ring
    rw [this, zpow_zero, mul_one]
  have hdiff : (n : ℚ) / d -
      (nearestEven (n * 2 ^ (52 - binade n d).toNat) (d * 2 ^ (binade n d - 52).toNat) : ℚ) *
        (2 : ℚ) ^ (binade n d - 52) =
      (((n * 2 ^ (52 - binade n d).toNat : Nat) : ℚ) /
        ((d * 2 ^ (binade n d - 52).toNat : Nat) : ℚ) -
        nearestEven (n * 2 ^ (52 - binade n d).toNat) (d * 2 ^ (binade n d - 52).toNat)) *
        (2 : ℚ) ^ (binade n d - 52) := by
    rw [sub_mul, ← hback]
  have hmant : (roundRatio n d).mantissa =
      nearestEven (n * 2 ^ (52 - binade n d).toNat) (d * 2 ^ (binade n d - 52).toNat) := by
    simp [roundRatio, Nat.pos_iff_ne_zero.mp hn]
  have hexp : (roundRatio n d).exponent = binade n d - 52 := by
    simp [roundRatio, Nat.pos_iff_ne_zero.mp hn]
  rw [hmant, hexp, hdiff, abs_mul, abs_of_pos (hpos _)]
  refine ⟨by omega, by omega, ?_, ?_⟩
  · calc _ ≤ 1 / 2 * (2 : ℚ) ^ (binade n d - 52) :=
          mul_le_mul_of_nonneg_right hm3 (hpos _).le
      _ = (2 : ℚ) ^ (binade n d - 52) / 2 := by ring
  · intro htie
    apply hm4
    have hp := hpos (binade n d - 52)
    have : |((n * 2 ^ (52 - binade n d).toNat : Nat) : ℚ) /
        ((d * 2 ^ (binade n d - 52).toNat : Nat) : ℚ) -
        nearestEven (n * 2 ^ (52 - binade n d).toNat) (d * 2 ^ (binade n d - 52).toNat)| *
        (2 : ℚ) ^ (binade n d - 52) = 1 / 2 * (2 : ℚ) ^ (binade n d - 52) := by
      rw [htie]; ring
    exact mul_right_cancel₀ hp.ne' this

/-- The ratio that `Binary64.div` rounds is the exact quotient of the two values. -/
theorem div_ratio (a b : Binary64) :
    ((a.mantissa * 2 ^ (a.exponent - b.exponent).toNat : Nat) : ℚ) /
      ((b.mantissa * 2 ^ (b.exponent - a.exponent).toNat : Nat) : ℚ) =
      a.toRat / b.toRat := by
  have h2 : (2 : ℚ) ≠ 0 := by norm_num
  have := scaled_ratio a.mantissa b.mantissa (a.exponent - b.exponent)
  rw [neg_sub] at this
  rw [this, Binary64.toRat, Binary64.toRat, zpow_sub₀ h2]
  ring

/-- The ratio that `Binary64.mul` rounds is the exact product of the two values. -/
theorem mul_ratio (a b : Binary64) :
    ((a.mantissa * b.mantissa * 2 ^ (a.exponent + b.exponent).toNat : Nat) : ℚ) /
      ((2 ^ (-(a.exponent + b.exponent)).toNat : Nat) : ℚ) =
      a.toRat * b.toRat := by
  have h2 : (2 : ℚ) ≠ 0 := by norm_num
  have := scaled_ratio (a.mantissa * b.mantissa) 1 (a.exponent + b.exponent)
  rw [one_mul] at this
  rw [this, Binary64.toRat, Binary64.toRat, zpow_add₀ h2]
  push_cast
  ring

/-- The function `Binary64.round` is `x ↦ ⌊x + 1/2⌋`. -/
theorem round_eq_floor (a : Binary64) : a.round = ⌊a.toRat + 1 / 2⌋₊ := by
  have h := scaled_ratio a.mantissa 1 a.exponent
  rw [one_mul] at h
  have hpos : (0 : ℚ) < ((2 ^ (-a.exponent).toNat : Nat) : ℚ) := by
    exact_mod_cast Nat.two_pow_pos _
  have hval : a.toRat + 1 / 2 =
      ((2 * a.mantissa * 2 ^ a.exponent.toNat + 2 ^ (-a.exponent).toNat : Nat) : ℚ) /
        ((2 * 2 ^ (-a.exponent).toNat : Nat) : ℚ) := by
    rw [Binary64.toRat]
    have h' : (a.mantissa : ℚ) * (2 : ℚ) ^ a.exponent =
        ((a.mantissa * 2 ^ a.exponent.toNat : Nat) : ℚ) /
          ((2 ^ (-a.exponent).toNat : Nat) : ℚ) := by
      rw [h]; simp
    rw [h']
    push_cast at hpos ⊢
    field_simp
    ring
  rw [hval, Nat.floor_div_eq_div]
  rfl

/-- C18 on the code. `calculateCompletionRate(c, 0)` is 0 for every `c`, and the two
values of the scenario hold: `calculateCompletionRate(6, 30) = 20` and
`calculateCompletionRate(0, 0) = 0`. But `calculateCompletionRate(23, 40)` is 57, while
`100 * 23 / 40 = 57.5` and `floor((200 * 23 + 40) / (2 * 40)) = 58`: the quotient
`23 / 40` is rounded to binary64 before it is multiplied by 100, and the product is the
binary64 value just below 57.5. -/
theorem calculateCompletionRate_misrounds :
    (∀ c : Nat, calculateCompletionRate c 0 = 0) ∧
    calculateCompletionRate 6 30 = 20 ∧
    calculateCompletionRate 0 0 = 0 ∧
    calculateCompletionRate 23 40 = 57 ∧
    (200 * 23 + 40) / (2 * 40) = 58 ∧
    Binary64.div ⟨23, 0⟩ ⟨40, 0⟩ = ⟨5179139571476070, -53⟩ ∧
    Binary64.mul ⟨5179139571476070, -53⟩ ⟨100, 0⟩ = ⟨8092405580431359, -47⟩ ∧
    8092405580431359 * 2 < 115 * 2 ^ 47 := by
  refine ⟨fun c => rfl, ?_, ?_, ?_, ?_, ?_, ?_, ?_⟩ <;> decide

/-! ## C24: the cap of the streak walk -/

theorem dayWalk_fuel (done : Int → Bool) (fuel : Nat) :
    ∀ (fuel' : Nat) (day : Int) (streak daysPassed : Nat),
      1001 ≤ fuel + daysPassed → 1001 ≤ fuel' + daysPassed →
      dayWalk done fuel day streak daysPassed = dayWalk done fuel' day streak daysPassed := by
  induction fuel with
  | zero =>
    intro fuel' day streak daysPassed h h'
    rw [dayWalk_cap done 0 day streak daysPassed (by omega),
      dayWalk_cap done fuel' day streak daysPassed (by omega)]
  | succ fuel ih =>
    intro fuel' day streak daysPassed h h'
    by_cases hcap : 1000 < daysPassed
    · rw [dayWalk_cap done _ day streak daysPassed hcap,
        dayWalk_cap done fuel' day streak daysPassed hcap]
    · obtain ⟨f, rfl⟩ : ∃ f, fuel' = f + 1 := ⟨fuel' - 1, by omega⟩
      rw [dayWalk, dayWalk]
      split
      · split
        · exact ih f (day - 1) (streak + 1) (daysPassed + 1) (by omega) (by omega)
        · rfl
      · rfl

/-- The loop of `calculateStreak` ends by its own guard: any bound on the number of
iterations from 1001 on gives the same result. -/
theorem streakLoop_fuel (completions : List Completion) (extra : Nat) (currentDate : Int)
    (streak daysPassed : Nat) :
    streakLoop completions (1001 + extra) currentDate streak daysPassed =
      streakLoop completions 1001 currentDate streak daysPassed := by
  rw [streakLoop_eq_dayWalk, streakLoop_eq_dayWalk]
  exact dayWalk_fuel _ _ _ _ _ _ (by omega) (by omega)

theorem dailyStreak_le_cap (done : Int → Bool) (today : Int) :
    dailyStreak done today ≤ 1001 ∧ (done today = false → dailyStreak done today ≤ 1000) := by
  constructor
  · rw [dailyStreak]
    split
    · have := dayWalk_le_cap done 1001 (today - 1) 0 1
      omega
    · have := dayWalk_le_cap done 1001 today 0 0
      omega
  · intro h
    rw [dailyStreak, h]
    have := dayWalk_le_cap done 1001 (today - 1) 0 1
    simpa using this

/-- C24, as the code has it. The function `calculateStreak` is total and its loop ends by
its own guard `daysPassed <= 1000` (a larger bound on the iterations changes nothing). It
counts at most 1001 days, those with `daysPassed` from 0 to 1000, so its result is at most
1001; when today has no completion the count starts at `daysPassed = 1` and the result is
at most 1000. -/
theorem calculateStreak_le_cap (habits : List Habit) (now : Int) (habitId : String)
    (completions : Option (List Completion)) :
    calculateStreak habits now habitId completions ≤ 1001 ∧
    (∀ habit, habits.find? (fun h => h.id == habitId) = some habit →
      (∀ c ∈ completions.getD habit.completions, formatYMD c.date ≠ formatYMD now) →
      calculateStreak habits now habitId completions ≤ 1000) ∧
    (∀ (comps : List Completion) (extra : Nat) (currentDate : Int) (daysPassed : Nat),
      streakLoop comps (1001 + extra) currentDate 0 daysPassed =
        streakLoop comps 1001 currentDate 0 daysPassed) := by
  refine ⟨?_, ?_, fun comps extra currentDate daysPassed =>
    streakLoop_fuel comps extra currentDate 0 daysPassed⟩
  · cases hfind : habits.find? (fun h => h.id == habitId) with
    | none => simp [calculateStreak, hfind]
    | some habit =>
      by_cases hd : habit.frequency.type = "daily"
      · rw [calculateStreak_daily habits now habitId habit completions hfind hd]
        exact (dailyStreak_le_cap _ _).1
      · rw [calculateStreak_not_daily habits now habitId habit completions hfind hd]
        omega
  · intro habit hfind hnot
    by_cases hd : habit.frequency.type = "daily"
    · rw [calculateStreak_daily habits now habitId habit completions hfind hd]
      exact (dailyStreak_le_cap _ _).2 ((completedOn_eq_false_iff _ _).mpr hnot)
    · rw [calculateStreak_not_daily habits now habitId habit completions hfind hd]
      omega

/-- C24 at a concrete input: on 2024-01-04 the tracked habit has no completion today, and
its streak is at most 1000. -/
theorem calculateStreak_le_cap_witness :
    calculateStreak [trackedHabit] (dayStart 19726 + 9) "h1" none ≤ 1000 :=
  (calculateStreak_le_cap [trackedHabit] (dayStart 19726 + 9) "h1" none).2.1 trackedHabit
    (by decide) (by decide)

theorem longRun_completedOn (day : Int) :
    completedOn ((List.range 1001).map longRunCompletion) day =
      decide (20726 - 1000 ≤ day ∧ day ≤ 20726) := by
  rw [Bool.eq_iff_iff, completedOn_iff, decide_eq_true_eq]
  constructor
  · rintro ⟨c, hc, hday⟩
    obtain ⟨i, hi, rfl⟩ := List.mem_map.mp hc
    rw [List.mem_range] at hi
    rw [longRunCompletion, formatYMD_dayStart] at hday
    omega
  · intro h
    refine ⟨longRunCompletion (20726 - day).toNat, List.mem_map.mpr
      ⟨(20726 - day).toNat, List.mem_range.mpr (by omega), rfl⟩, ?_⟩
    rw [longRunCompletion, formatYMD_dayStart]
    omega

/-- C24 as stated fails: with a completion on each of the 1001 consecutive days ending
today, `calculateStreak` counts all of them and returns 1001. -/
theorem calculateStreak_reaches_1001 :
    calculateStreak [sampleHabit] (dayStart 20726 + 3600000) "h1"
        (some ((List.range 1001).map longRunCompletion)) = 1001 ∧
    ¬ calculateStreak [sampleHabit] (dayStart 20726 + 3600000) "h1"
        (some ((List.range 1001).map longRunCompletion)) ≤ 1000 := by
  have h : calculateStreak [sampleHabit] (dayStart 20726 + 3600000) "h1"
      (some ((List.range 1001).map longRunCompletion)) = 1001 := by
    rw [calculateStreak_daily [sampleHabit] _ "h1" sampleHabit _ (by decide) (by decide),
      formatYMD_dayStart_add 20726 3600000 (by decide) (by decide), Option.getD_some,
      dailyStreak_today_capped (completedOn ((List.range 1001).map longRunCompletion))
        20726 1001 (by decide)
        (fun j hj => by rw [longRun_completedOn, decide_eq_true_eq]; omega)
        (by rw [longRun_completedOn]; exact decide_eq_false (by omega))]
    rfl
  exact ⟨h, by rw [h]; decide⟩

/-! ## C25: a streak ends today or yesterday -/

theorem le_dayWalk (done : Int → Bool) (fuel : Nat) :
    ∀ (day : Int) (streak daysPassed : Nat),
      streak ≤ dayWalk done fuel day streak daysPassed := by
  induction fuel with
  | zero => intro day streak daysPassed; exact Nat.le_refl _
  | succ fuel ih =>
    intro day streak daysPassed
    rw [dayWalk]
    split
    · split
      · have := ih (day - 1) (streak + 1) (daysPassed + 1)
        omega
      · exact Nat.le_refl _
    · exact Nat.le_refl _

theorem dailyStreak_pos_iff (done : Int → Bool) (today : Int) :
    0 < dailyStreak done today ↔ done today = true ∨ done (today - 1) = true := by
  rw [dailyStreak]
  by_cases h0 : done today = true
  · simp only [h0, Bool.not_true, Bool.false_eq_true, if_false, true_or, iff_true]
    rw [dayWalk, if_pos (by omega), if_pos h0]
    have := le_dayWalk done 1000 (today - 1) (0 + 1) (0 + 1)
    omega
  · have h0' : done today = false := by simpa using h0
    simp only [h0', Bool.not_false, if_true, Bool.false_eq_true, false_or]
    rw [dayWalk, if_pos (by omega)]
    by_cases h1 : done (today - 1) = true
    · rw [if_pos h1]
      have := le_dayWalk done 1000 (today - 1 - 1) (0 + 1) (1 + 1)
      simp only [h1, iff_true]
      omega
    · rw [if_neg h1]
      simp [h1]

/-- C25. For a daily habit that `habitId` names in the store and every completion list
(the argument, or the habit's own list when the argument is absent), `calculateStreak`
returns a value greater than 0 exactly when the list holds a completion dated today or a
completion dated yesterday. -/
theorem calculateStreak_pos_iff (habits : List Habit) (now : Int) (habitId : String)
    (habit : Habit) (completions : Option (List Completion))
    (hfind : habits.find? (fun h => h.id == habitId) = some habit)
    (hdaily : habit.frequency.type = "daily") :
    0 < calculateStreak habits now habitId completions ↔
      (∃ c ∈ completions.getD habit.completions, formatYMD c.date = formatYMD now) ∨
      (∃ c ∈ completions.getD habit.completions, formatYMD c.date = formatYMD now - 1) := by
  rw [calculateStreak_daily habits now habitId habit completions hfind hdaily,
    dailyStreak_pos_iff, completedOn_iff, completedOn_iff]

/-- C25 at a concrete input: on 2024-01-04 the tracked habit, last completed on
2024-01-03, has a positive streak. -/
theorem calculateStreak_pos_iff_witness :
    0 < calculateStreak [trackedHabit] (dayStart 19726 + 9) "h1" none :=
  (calculateStreak_pos_iff [trackedHabit] (dayStart 19726 + 9) "h1" trackedHabit none
    (by decide) (by decide)).mpr (by decide)

/-! ## C30: the streak and the set of completed days -/

/-- The walk adds to the count the length of a run of completed days that starts at `day`
and goes back in time. -/
theorem dayWalk_counts (done : Int → Bool) (fuel : Nat) :
    ∀ (day : Int) (streak daysPassed : Nat),
      ∃ k : Nat, dayWalk done fuel day streak daysPassed = streak + k ∧
        ∀ j : Nat, j < k → done (day - j) = true := by
  induction fuel with
  | zero => intro day streak daysPassed; exact ⟨0, rfl, fun j hj => absurd hj (by omega)⟩
  | succ fuel ih =>
    intro day streak daysPassed
    rw [dayWalk]
    split
    · split
      · rename_i hdone
        obtain ⟨k, hk, hrun⟩ := ih (day - 1) (streak + 1) (daysPassed + 1)
        refine ⟨k + 1, by omega, ?_⟩
        intro j hj
        cases j with
        | zero => simpa using hdone
        | succ j =>
          have := hrun j (by omega)
          have e : day - ((j + 1 : Nat) : Int) = day - 1 - (j : Int) := by push_cast; ring
          rw [e]; exact this
      · exact ⟨0, rfl, fun j hj => absurd hj (by omega)⟩
    · exact ⟨0, rfl, fun j hj => absurd hj (by omega)⟩

theorem dailyStreak_counts (done : Int → Bool) (today : Int) :
    ∃ start : Int, ∀ j : Nat, j < dailyStreak done today → done (start - j) = true := by
  rw [dailyStreak]
  split
  · obtain ⟨k, hk, hrun⟩ := dayWalk_counts done 1001 (today - 1) 0 1
    exact ⟨today - 1, fun j hj => hrun j (by omega)⟩
  · obtain ⟨k, hk, hrun⟩ := dayWalk_counts done 1001 today 0 0
    exact ⟨today, fun j hj => hrun j (by omega)⟩

/-- A run of completed days is no longer than the number of distinct days of the list. -/
theorem run_le_distinct_days (completions : List Completion) (start : Int) (k : Nat)
    (hrun : ∀ j : Nat, j < k → completedOn completions (start - j) = true) :
    k ≤ ((completions.map fun c => formatYMD c.date).dedup).length := by
  have hnodup : ((List.range k).map fun j : Nat => start - (j : Int)).Nodup := by
    apply List.Nodup.map _ (List.nodup_range k)
    intro a b hab
    have : start - (a : Int) = start - (b : Int) := hab
    omega
  have hsub : ((List.range k).map fun j : Nat => start - (j : Int)) ⊆
      (completions.map fun c => formatYMD c.date).dedup := by
    intro x hx
    obtain ⟨j, hj, rfl⟩ := List.mem_map.mp hx
    rw [List.mem_range] at hj
    obtain ⟨c, hc, hday⟩ := (completedOn_iff _ _).mp (hrun j hj)
    exact List.mem_dedup.mpr (List.mem_map.mpr ⟨c, hc, hday⟩)
  have := (hnodup.subperm hsub).length_le
  simpa using this

/-- C30. For every completion list, `calculateStreak` returns at most the number of
distinct calendar days among the completions, hence at most the length of the list; and
two lists with the same set of calendar days, whatever their order, ids and timestamps,
give the same value. This holds for a daily habit and, with the value 0, in every other
case. -/
theorem calculateStreak_le_distinct_days (habits : List Habit) (now : Int)
    (habitId : String) (completions completions' : List Completion) :
    calculateStreak habits now habitId (some completions) ≤
      ((completions.map fun c => formatYMD c.date).dedup).length ∧
    calculateStreak habits now habitId (some completions) ≤ completions.length ∧
    ((∀ day : Int, (∃ c ∈ completions, formatYMD c.date = day) ↔
        (∃ c ∈ completions', formatYMD c.date = day)) →
      calculateStreak habits now habitId (some completions) =
        calculateStreak habits now habitId (some completions')) := by
  have hbound : calculateStreak habits now habitId (some completions) ≤
      ((completions.map fun c => formatYMD c.date).dedup).length := by
    cases hfind : habits.find? (fun h => h.id == habitId) with
    | none => simp [calculateStreak, hfind]
    | some habit =>
      by_cases hd : habit.frequency.type = "daily"
      · rw [calculateStreak_daily habits now habitId habit _ hfind hd, Option.getD_some]
        obtain ⟨start, hrun⟩ := dailyStreak_counts (completedOn completions) (formatYMD now)
        exact run_le_distinct_days completions start _ hrun
      · rw [calculateStreak_not_daily habits now habitId habit _ hfind hd]
        omega
  refine ⟨hbound, ?_, ?_⟩
  · have h1 := (List.dedup_sublist (completions.map fun c => formatYMD c.date)).length_le
    rw [List.length_map] at h1
    omega
  · intro hdays
    cases hfind : habits.find? (fun h => h.id == habitId) with
    | none => simp [calculateStreak, hfind]
    | some habit =>
      apply calculateStreak_congr habits habits now now habitId habit habit completions
        completions' hfind hfind rfl _ rfl
      intro day
      rw [Bool.eq_iff_iff, completedOn_iff, completedOn_iff]
      exact hdays day

/-- C30 at a concrete input: the three completions of the tracked habit, in their stored
order and in reverse order, give the same streak. -/
theorem calculateStreak_le_distinct_days_witness :
    calculateStreak [trackedHabit] (dayStart 19725 + 9) "h1" (some sampleCompletions) =
      calculateStreak [trackedHabit] (dayStart 19725 + 9) "h1"
        (some sampleCompletions.reverse) :=
  (calculateStreak_le_distinct_days [trackedHabit] (dayStart 19725 + 9) "h1"
    sampleCompletions sampleCompletions.reverse).2.2
    (fun day => by simp only [List.mem_reverse])

/-! ## C29: the frame of a toggle -/

theorem length_sortCompletions (completions : List Completion) :
    (sortCompletions completions).length = completions.length :=
  (perm_sortCompletions completions).length_eq

/-- C29. The operation `toggleHabitCompletion(habitId, date)` keeps the number of habits
and the id at every position. At every position the habit is unchanged when its id is
not `habitId`; when it is, every field other than `completions`, `streak`, `bestStreak`
and `updatedAt` is unchanged, and the list of completions is longer by one when the day
had no completion and shorter by one when it had. -/
theorem toggle_frame (habits prevHabits : List Habit) (now : Int) (uuid habitId : String)
    (date : Int) :
    (toggleHabitCompletion habits now uuid habitId date prevHabits).length =
      prevHabits.length ∧
    (toggleHabitCompletion habits now uuid habitId date prevHabits).map (fun h => h.id) =
      prevHabits.map (fun h => h.id) ∧
    ∀ (i : Nat) (habit : Habit), prevHabits[i]? = some habit →
      ∃ habit', (toggleHabitCompletion habits now uuid habitId date prevHabits)[i]? =
          some habit' ∧
        (habit.id ≠ habitId → habit' = habit) ∧
        (habit.id = habitId →
          habit' = { habit with
            completions := habit'.completions, streak := habit'.streak,
            bestStreak := habit'.bestStreak, updatedAt := habit'.updatedAt } ∧
          ((∀ c ∈ habit.completions, formatYMD c.date ≠ formatYMD date) →
            habit'.completions.length = habit.completions.length + 1) ∧
          ((∃ c ∈ habit.completions, formatYMD c.date = formatYMD date) →
            habit'.completions.length + 1 = habit.completions.length)) := by
  refine ⟨by simp [toggleHabitCompletion],
    map_id_toggleHabitCompletion habits now uuid habitId date prevHabits, ?_⟩
  intro i habit hget
  by_cases hid : habit.id = habitId
  · refine ⟨_, getElem?_toggleHabitCompletion habits now uuid habitId date prevHabits i habit
      hget hid, fun hne => absurd hid hne, fun _ => ⟨rfl, ?_, ?_⟩⟩
    · intro hnot
      rw [toggleHabit_completions, (completedOn_eq_false_iff _ _).mpr hnot,
        length_sortCompletions]
      simp
    · intro hdone
      rw [toggleHabit_completions, (completedOn_iff _ _).mpr hdone, length_sortCompletions]
      obtain ⟨c, hc, hday⟩ := hdone
      simp only [if_true]
      exact List.length_eraseP_add_one hc (by simpa using hday)
  · refine ⟨habit, ?_, fun _ => rfl, fun h => absurd h hid⟩
    unfold toggleHabitCompletion
    rw [List.getElem?_map, hget]
    simp [hid]

/-- C29 at a concrete input: toggling 2024-01-05 on the tracked habit, in a store of two
habits, leaves the other habit as it was and adds one completion. -/
theorem toggle_frame_witness :
    ∃ habit', (toggleHabitCompletion [trackedHabit, otherHabit] (dayStart 19727 + 9) "c9"
        "h1" (dayStart 19727) [trackedHabit, otherHabit])[1]? = some habit' ∧
      habit' = otherHabit :=
  match (toggle_frame [trackedHabit, otherHabit] [trackedHabit, otherHabit]
      (dayStart 19727 + 9) "c9" "h1" (dayStart 19727)).2.2 1 otherHabit (by decide) with
  | ⟨habit', hget, hother, _⟩ => ⟨habit', hget, hother (by decide)⟩

/-! ## C27: the days behind the completion rate -/

theorem length_eachDayOfInterval_30 (now : Int) :
    (eachDayOfInterval (now - 30 * msPerDay) now).length = 31 := by
  have h : formatYMD (now - 30 * msPerDay) = formatYMD now - 30 := by
    simp only [formatYMD_eq_ediv]
    have h := Int.add_mul_ediv_right now (-30) (show msPerDay ≠ 0 by decide)
    have e : now + -30 * msPerDay = now - 30 * msPerDay := by ring
    rw [e] at h
    rw [h]; ring
  rw [eachDayOfInterval, List.length_map, List.length_range, h]
  have e : formatYMD now - (formatYMD now - 30) + 1 = 31 := by ring
  rw [e]
  rfl

/-- C27 on the code. In `calculateStats` the list of days examined, from `now` minus 30
days to `now`, has 31 entries for every `now`, so the rate is
`calculateCompletionRate(k, 31)`. For a habit completed on each of the 30 days ending
today and on no other day, `calculateStats` gives the rate 97, while
`calculateCompletionRate(30, 30)` is 100. -/
theorem calculateStats_examines_31_days :
    (∀ now : Int, (eachDayOfInterval (now - 30 * msPerDay) now).length = 31) ∧
    (∀ (habits : List Habit) (habit : Habit) (now : Int),
      (calculateStats habits (some habit) now).2 =
        calculateCompletionRate
          ((eachDayOfInterval (now - 30 * msPerDay) now).filter fun day =>
            isHabitCompletedForDate habits habit.id day).length 31) ∧
    calculateStats [steadyHabit] (some steadyHabit) (dayStart 19725 + 28800000) = (30, 97) ∧
    calculateCompletionRate 30 30 = 100 := by
  refine ⟨length_eachDayOfInterval_30, ?_, by decide, by decide⟩
  intro habits habit now
  simp only [calculateStats, length_eachDayOfInterval_30]

/-! ## C21: loading what is stored -/

/-- C21, as the code has it. The load effect never fails: whatever is stored and whatever
`JSON.parse` does with it, the effect ends with `loading = false`. When the stored string
is absent or empty, the collection stays empty and nothing is logged. When `JSON.parse`
with the reviver throws, the error is logged once by `console.error` and the collection
is the empty one. When the string parses, the parsed value becomes the state `habits` as
it is and nothing is logged. So the state `habits` differs from the empty collection only
when the stored string parsed to that value, and something is logged only when the parse
threw. -/
theorem loadHabits_cases (jsonParse : String → Except String JsValue)
    (storedHabits : Option String) :
    (loadHabits jsonParse storedHabits).loading = false ∧
    ((storedHabits = none ∨ storedHabits = some "") →
      (loadHabits jsonParse storedHabits).habits = .array [] ∧
      (loadHabits jsonParse storedHabits).logged = []) ∧
    (∀ text error, storedHabits = some text → text ≠ "" → jsonParse text = .error error →
      (loadHabits jsonParse storedHabits).habits = .array [] ∧
      (loadHabits jsonParse storedHabits).logged =
        [("Error parsing stored habits:", error)]) ∧
    (∀ text parsedHabits, storedHabits = some text → text ≠ "" →
      jsonParse text = .ok parsedHabits →
      (loadHabits jsonParse storedHabits).habits = parsedHabits ∧
      (loadHabits jsonParse storedHabits).logged = []) ∧
    ((loadHabits jsonParse storedHabits).habits ≠ .array [] →
      ∃ text, storedHabits = some text ∧ text ≠ "" ∧
        jsonParse text = .ok (loadHabits jsonParse storedHabits).habits) ∧
    ((loadHabits jsonParse storedHabits).logged ≠ [] →
      ∃ text error, storedHabits = some text ∧ text ≠ "" ∧ jsonParse text = .error error) := by
  cases storedHabits with
  | none => simp [loadHabits, initialLoadState]
  | some stored =>
    by_cases hempty : stored = ""
    · subst hempty
      refine ⟨rfl, fun _ => ⟨rfl, rfl⟩, ?_, ?_, ?_, ?_⟩
      · intro text error htext hne
        exact absurd (Option.some.inj htext).symm hne
      · intro text parsedHabits htext hne
        exact absurd (Option.some.inj htext).symm hne
      · intro hne
        exact absurd rfl hne
      · intro hne
        exact absurd rfl hne
    · cases hparse : jsonParse stored with
      | error e =>
        refine ⟨rfl, ?_, ?_, ?_, ?_, ?_⟩
        · rintro (h | h)
          · cases h
          · exact absurd (Option.some.inj h) hempty
        · intro text error htext _ herr
          cases htext
          rw [hparse] at herr
          cases herr
          simp [loadHabits, initialLoadState, hempty, hparse]
        · intro text parsedHabits htext _ hok
          cases htext
          rw [hparse] at hok
          cases hok
        · intro hne
          exact absurd (by simp [loadHabits, initialLoadState, hempty, hparse]) hne
        · intro _
          exact ⟨stored, e, rfl, hempty, hparse⟩
      | ok value =>
        refine ⟨rfl, ?_, ?_, ?_, ?_, ?_⟩
        · rintro (h | h)
          · cases h
          · exact absurd (Option.some.inj h) hempty
        · intro text error htext _ herr
          cases htext
          rw [hparse] at herr
          cases herr
        · intro text parsedHabits htext _ hok
          cases htext
          rw [hparse] at hok
          cases hok
          simp [loadHabits, initialLoadState, hempty, hparse]
        · intro _
          refine ⟨stored, rfl, hempty, ?_⟩
          simp [loadHabits, initialLoadState, hempty, hparse]
        · intro hne
          exact absurd (by simp [loadHabits, initialLoadState, hempty, hparse]) hne

/-- C21 at concrete inputs: on the stored text `not json`, on which `JSON.parse` throws,
the effect logs the error and leaves the empty collection; with nothing stored it logs
nothing. -/
theorem loadHabits_cases_witness :
    ((loadHabits sampleJsonParse (some "not json")).habits = .array [] ∧
      (loadHabits sampleJsonParse (some "not json")).logged =
        [("Error parsing stored habits:", "SyntaxError")]) ∧
    ((loadHabits sampleJsonParse none).habits = .array [] ∧
      (loadHabits sampleJsonParse none).logged = []) :=
  ⟨(loadHabits_cases sampleJsonParse (some "not json")).2.2.1 "not json" "SyntaxError" rfl
      (by decide) (by simp [sampleJsonParse]),
    (loadHabits_cases sampleJsonParse none).2.1 (Or.inl rfl)⟩

/-- C21 as stated fails: the stored text of the empty object literal is not the
serialization of a habit array; `JSON.parse` returns the empty object for it, and the load
effect makes that object the state `habits`, not the empty collection, without logging
anything. The same holds for the stored text `42`. -/
theorem loadHabits_keeps_other_values :
    (loadHabits sampleJsonParse (some "\x7b\x7d")).habits = .object [] ∧
    (loadHabits sampleJsonParse (some "\x7b\x7d")).habits ≠ .array [] ∧
    (loadHabits sampleJsonParse (some "\x7b\x7d")).logged = [] ∧
    (loadHabits sampleJsonParse (some "42")).habits = .number 42 ∧
    (loadHabits sampleJsonParse (some "42")).habits ≠ .array [] := by
  have h1 : (loadHabits sampleJsonParse (some "\x7b\x7d")).habits = .object [] := by
    simp [loadHabits, sampleJsonParse, initialLoadState]
  have h2 : (loadHabits sampleJsonParse (some "42")).habits = .number 42 := by
    simp [loadHabits, sampleJsonParse, initialLoadState]
  refine ⟨h1, ?_, ?_, h2, ?_⟩
  · rw [h1]; simp
  · simp [loadHabits, sampleJsonParse, initialLoadState]
  · rw [h2]; simp

/-! ## C22: the CSV export -/

theorem ite_char_ne {c : Prop} [Decidable c] {a b x : Char} (ha : a ≠ x) (hb : b ≠ x) :
    (if c then a else b) ≠ x := by
  split <;> assumption

theorem digitChar_ne_newline (n : Nat) : Nat.digitChar n ≠ '\n' := by
  unfold Nat.digitChar
  repeat' (first | apply ite_char_ne | decide)

theorem toDigitsCore_no_newline (fuel : Nat) :
    ∀ (n : Nat) (ds : List Char), '\n' ∉ ds → '\n' ∉ Nat.toDigitsCore 10 fuel n ds := by
  induction fuel with
  | zero => intro n ds h; exact h
  | succ fuel ih =>
    intro n ds h
    have hcons : '\n' ∉ Nat.digitChar (n % 10) :: ds := by
      rw [List.mem_cons, not_or]
      exact ⟨fun e => digitChar_ne_newline _ e.symm, h⟩
    rw [Nat.toDigitsCore]
    split
    · exact hcons
    · exact ih _ _ hcons

theorem toString_nat_no_newline (n : Nat) : '\n' ∉ (toString n).data := by
  show '\n' ∉ (Nat.toDigits 10 n).asString.data
  exact toDigitsCore_no_newline _ _ _ (List.not_mem_nil _)

theorem textLines_append_newline (l rest : List Char) (h : '\n' ∉ l) :
    textLines (l ++ '\n' :: rest) = l :: textLines rest := by
  induction l with
  | nil => simp [textLines]
  | cons c l ih =>
    rw [List.mem_cons, not_or] at h
    have hc : c ≠ '\n' := fun e => h.1 e.symm
    rw [List.cons_append, textLines, if_neg hc, ih h.2]

theorem textLines_single (l : List Char) (h : '\n' ∉ l) (hne : l ≠ []) :
    textLines l = [l] := by
  induction l with
  | nil => exact absurd rfl hne
  | cons c l ih =>
    rw [List.mem_cons, not_or] at h
    have hc : c ≠ '\n' := fun e => h.1 e.symm
    rw [textLines, if_neg hc]
    cases l with
    | nil => rfl
    | cons d l => rw [ih h.2 (List.cons_ne_nil _ _)]

theorem textLines_join (rows : List String)
    (h : ∀ r ∈ rows, '\n' ∉ r.data ∧ r.data ≠ []) :
    textLines (join "\n" rows).data = rows.map fun r => r.data := by
  induction rows with
  | nil => rfl
  | cons r rows ih =>
    have hr := h r (List.mem_cons_self _ _)
    cases rows with
    | nil => simpa [join] using textLines_single r.data hr.1 hr.2
    | cons t rest =>
      have ih' := ih (fun x hx => h x (List.mem_cons_of_mem _ hx))
      rw [join, String.data_append, String.data_append, List.append_assoc]
      show textLines (r.data ++ '\n' :: (join "\n" (t :: rest)).data) = _
      rw [textLines_append_newline _ _ hr.1, ih']
      rfl

/-- The template literal of `exportHabits` is the six fields, each wrapped in double
quotes, joined by commas. -/
theorem csvRow_eq_join (dateToString : Int → String) (habit : Habit) :
    csvRow dateToString habit =
      join ","
        ([habit.id, habit.name, habit.description, habit.category,
            dateToString habit.createdAt, toString habit.completions.length].map
          fun field => "\"" ++ field ++ "\"") := by
  simp only [csvRow, join, List.map, String.append_assoc]
  rfl

theorem csvRow_no_newline (dateToString : Int → String) (habit : Habit)
    (h : ∀ field ∈ [habit.id, habit.name, habit.description, habit.category,
      dateToString habit.createdAt], '\n' ∉ field.data) :
    '\n' ∉ (csvRow dateToString habit).data ∧ (csvRow dateToString habit).data ≠ [] := by
  have h1 := h habit.id (by simp)
  have h2 := h habit.name (by simp)
  have h3 := h habit.description (by simp)
  have h4 := h habit.category (by simp)
  have h5 := h (dateToString habit.createdAt) (by simp)
  have h6 := toString_nat_no_newline habit.completions.length
  constructor
  · simp only [csvRow, String.data_append, List.mem_append, not_or]
    refine ⟨⟨⟨⟨⟨⟨⟨⟨⟨⟨⟨⟨by decide, h1⟩, by decide⟩, h2⟩, by decide⟩, h3⟩, by decide⟩, h4⟩,
      by decide⟩, h5⟩, by decide⟩, h6⟩, by decide⟩
  · simp [csvRow, String.data_append]

/-- C22, as the code has it. The call `exportHabits('csv')` returns the header
`id,name,description,category,createdAt,completions`, a line feed, and the rows of the
habits in store order joined by line feeds; the row of a habit is its id, name,
description, category, creation date and number of completions, each wrapped in double
quotes and joined by commas. When no field of any habit contains a line feed, the lines
of the text are the header line followed by exactly one line per habit. -/
theorem exportHabits_csv (jsonStringify : List Habit → String)
    (dateToString : Int → String) (habits : List Habit) :
    exportHabits jsonStringify dateToString habits "csv" =
      some ("id,name,description,category,createdAt,completions" ++ "\n" ++
        join "\n" (habits.map fun habit =>
          join ","
            ([habit.id, habit.name, habit.description, habit.category,
                dateToString habit.createdAt, toString habit.completions.length].map
              fun field => "\"" ++ field ++ "\""))) ∧
    ((∀ habit ∈ habits, ∀ field ∈ [habit.id, habit.name, habit.description,
        habit.category, dateToString habit.createdAt], '\n' ∉ field.data) →
      ∃ text, exportHabits jsonStringify dateToString habits "csv" = some text ∧
        textLines text.data =
          "id,name,description,category,createdAt,completions".data ::
            habits.map fun habit => (csvRow dateToString habit).data) := by
  have hrows : (habits.map fun habit =>
      join ","
        ([habit.id, habit.name, habit.description, habit.category,
            dateToString habit.createdAt, toString habit.completions.length].map
          fun field => "\"" ++ field ++ "\"")) = habits.map (csvRow dateToString) :=
    List.map_congr_left fun habit _ => (csvRow_eq_join dateToString habit).symm
  have hexport : exportHabits jsonStringify dateToString habits "csv" =
      some ("id,name,description,category,createdAt,completions" ++ "\n" ++
        join "\n" (habits.map (csvRow dateToString))) := by
    have hfmt : ("csv" == "json") = false := by decide
    simp only [exportHabits, hfmt, Bool.false_eq_true, if_false, beq_self_eq_true, if_true]
    rfl
  refine ⟨by rw [hrows]; exact hexport, ?_⟩
  intro hfields
  refine ⟨_, hexport, ?_⟩
  rw [String.data_append, String.data_append, List.append_assoc]
  show textLines ("id,name,description,category,createdAt,completions".data ++
    '\n' :: (join "\n" (habits.map (csvRow dateToString))).data) = _
  rw [textLines_append_newline _ _ (by decide), textLines_join, List.map_map]
  · rfl
  · intro r hr
    obtain ⟨habit, hh, rfl⟩ := List.mem_map.mp hr
    exact csvRow_no_newline dateToString habit (hfields habit hh)

/-- C22 at the input of the scenario: a store with one habit named `A, B`. The text has
two lines, and the row wraps the name in double quotes. -/
theorem exportHabits_csv_witness :
    (∃ text, exportHabits (fun _ => "[]") sampleDateToString [commaHabit] "csv" = some text ∧
      textLines text.data =
        "id,name,description,category,createdAt,completions".data ::
          [commaHabit].map fun habit => (csvRow sampleDateToString habit).data) ∧
    exportHabits (fun _ => "[]") sampleDateToString [commaHabit] "csv" =
      some ("id,name,description,category,createdAt,completions\n" ++
        "\"h1\",\"A, B\",\"\",\"General\",\"day 19725\",\"0\"") :=
  ⟨(exportHabits_csv (fun _ => "[]") sampleDateToString [commaHabit]).2 (by decide),
    by decide⟩

/-- C22 as stated fails: a store with one habit whose description has two lines gives a
text of three lines, the header line and two lines for the one habit. -/
theorem exportHabits_csv_row_spans_lines :
    (exportHabits (fun _ => "[]") sampleDateToString [twoLineHabit] "csv").map
        (fun text => (textLines text.data).map String.mk) =
      some ["id,name,description,category,createdAt,completions",
        "\"h1\",\"A, B\",\"Morning", "run\",\"General\",\"day 19725\",\"0\""] ∧
    (exportHabits (fun _ => "[]") sampleDateToString [twoLineHabit] "csv").map
        (fun text => (textLines text.data).length) = some 3 := by
  decide

/-! ## C26: week buckets -/

/-- C26 on the code. The completions dated 2024-01-01 and 2024-12-30 lie 364 days apart,
and `groupCompletionsByPeriod` with the period `week` puts both under the key `2024-W1`:
the week number of 2024-12-30 is 1, counted in the week-numbering year 2025, while the
year of the key is the calendar year 2024. -/
theorem week_key_joins_distant_days :
    groupCompletionsByPeriod yearEndCompletions "week" =
      [(.week 2024 1, yearEndCompletions)] ∧
    yearEndCompletions.map (fun c => formatYMD c.date) = [19723, 20087] ∧
    yearEndCompletions.map
        (fun c => (getFullYear c.date, getMonth c.date + 1, getDate c.date, getDay c.date)) =
      [(2024, 1, 1, 1), (2024, 12, 30, 1)] ∧
    yearEndCompletions.map (fun c => (getWeekYear c.date, getWeek c.date)) =
      [(2024, 1), (2025, 1)] := by
  decide

/-! ## C23: grouping is a partition -/

theorem keys_addToGroup (grouped : List (PeriodKey × List Completion)) (key : PeriodKey)
    (completion : Completion) :
    (addToGroup grouped key completion).map (fun kb => kb.1) =
      if key ∈ grouped.map (fun kb => kb.1) then grouped.map (fun kb => kb.1)
      else grouped.map (fun kb => kb.1) ++ [key] := by
  induction grouped with
  | nil => simp [addToGroup]
  | cons kb rest ih =>
    obtain ⟨k, bucket⟩ := kb
    by_cases hk : k = key
    · simp [addToGroup, hk]
    · have hk' : ¬ key = k := fun e => hk e.symm
      simp only [addToGroup, if_neg hk, List.map_cons, ih, List.mem_cons, hk', false_or]
      split <;> simp

theorem bucketOf_addToGroup (grouped : List (PeriodKey × List Completion))
    (key key' : PeriodKey) (completion : Completion) :
    bucketOf (addToGroup grouped key completion) key' =
      bucketOf grouped key' ++ (if key = key' then [completion] else []) := by
  induction grouped with
  | nil =>
    by_cases h : key = key' <;> simp [addToGroup, bucketOf, h]
  | cons kb rest ih =>
    obtain ⟨k, bucket⟩ := kb
    by_cases hk : k = key
    · subst hk
      by_cases h : k = key' <;> simp [addToGroup, bucketOf, h]
    · by_cases h : k = key'
      · subst h
        simp [addToGroup, bucketOf, hk, Ne.symm hk]
      · simp [addToGroup, bucketOf, hk, h, ih]

theorem sum_lengths_addToGroup (grouped : List (PeriodKey × List Completion))
    (key : PeriodKey) (completion : Completion) :
    ((addToGroup grouped key completion).map fun kb => kb.2.length).sum =
      (grouped.map fun kb => kb.2.length).sum + 1 := by
  induction grouped with
  | nil => simp [addToGroup]
  | cons kb rest ih =>
    obtain ⟨k, bucket⟩ := kb
    by_cases hk : k = key
    · simp [addToGroup, hk]; omega
    · simp only [addToGroup, if_neg hk, List.map_cons, List.sum_cons, ih]; omega

theorem mem_iff_bucketOf (grouped : List (PeriodKey × List Completion))
    (hnodup : (grouped.map fun kb => kb.1).Nodup) (kb : PeriodKey × List Completion) :
    kb ∈ grouped → kb.2 = bucketOf grouped kb.1 := by
  induction grouped with
  | nil => intro h; cases h
  | cons head rest ih =>
    obtain ⟨k, bucket⟩ := head
    rw [List.map_cons, List.nodup_cons] at hnodup
    intro hmem
    rcases List.mem_cons.mp hmem with rfl | hrest
    · simp [bucketOf]
    · have hne : k ≠ kb.1 := by
        intro e
        exact hnodup.1 (List.mem_map.mpr ⟨kb, hrest, e.symm⟩)
      simp only [bucketOf, if_neg hne]
      exact ih hnodup.2 hrest

/-- The state of the loop of `groupCompletionsByPeriod` after the completions `processed`,
for any choice `keyOf` of the key of a completion: the keys are pairwise distinct, a key
is present exactly when a processed completion has it, the bucket of every key holds the
processed completions with that key, in order, and the sizes add up. -/
theorem group_fold_invariant (keyOf : Completion → PeriodKey) (rest : List Completion) :
    ∀ (grouped : List (PeriodKey × List Completion)) (processed : List Completion),
      (grouped.map fun kb => kb.1).Nodup →
      (∀ key, key ∈ grouped.map (fun kb => kb.1) ↔ ∃ c ∈ processed, keyOf c = key) →
      (∀ key, bucketOf grouped key = processed.filter fun c => decide (keyOf c = key)) →
      (grouped.map fun kb => kb.2.length).sum = processed.length →
      ((rest.foldl (fun g c => addToGroup g (keyOf c) c) grouped).map fun kb => kb.1).Nodup ∧
      (∀ key, key ∈ (rest.foldl (fun g c => addToGroup g (keyOf c) c) grouped).map
          (fun kb => kb.1) ↔ ∃ c ∈ processed ++ rest, keyOf c = key) ∧
      (∀ key, bucketOf (rest.foldl (fun g c => addToGroup g (keyOf c) c) grouped) key =
          (processed ++ rest).filter fun c => decide (keyOf c = key)) ∧
      ((rest.foldl (fun g c => addToGroup g (keyOf c) c) grouped).map
          fun kb => kb.2.length).sum = (processed ++ rest).length := by
  induction rest with
  | nil =>
    intro grouped processed h1 h2 h3 h4
    simp only [List.foldl_nil, List.append_nil]
    exact ⟨h1, h2, h3, h4⟩
  | cons c rest ih =>
    intro grouped processed h1 h2 h3 h4
    have e : processed ++ c :: rest = (processed ++ [c]) ++ rest := by simp
    rw [List.foldl_cons, e]
    apply ih (addToGroup grouped (keyOf c) c) (processed ++ [c])
    · rw [keys_addToGroup]
      split
      · exact h1
      · rename_i hnew
        rw [List.nodup_append]
        refine ⟨h1, List.nodup_singleton _, ?_⟩
        intro x hx hx'
        rw [List.mem_singleton] at hx'
        exact hnew (hx' ▸ hx)
    · intro key
      rw [keys_addToGroup]
      split
      · rename_i hold
        rw [h2 key]
        constructor
        · rintro ⟨x, hx, hk⟩
          exact ⟨x, List.mem_append_left _ hx, hk⟩
        · rintro ⟨x, hx, hk⟩
          rcases List.mem_append.mp hx with hx | hx
          · exact ⟨x, hx, hk⟩
          · rw [List.mem_singleton] at hx
            subst hx
            rw [← hk]
            exact (h2 _).mp hold
      · rw [List.mem_append, h2 key, List.mem_singleton]
        constructor
        · rintro (⟨x, hx, hk⟩ | rfl)
          · exact ⟨x, List.mem_append_left _ hx, hk⟩
          · exact ⟨c, List.mem_append_right _ (List.mem_singleton.mpr rfl), rfl⟩
        · rintro ⟨x, hx, hk⟩
          rcases List.mem_append.mp hx with hx | hx
          · exact Or.inl ⟨x, hx, hk⟩
          · rw [List.mem_singleton] at hx
            subst hx
            exact Or.inr hk.symm
    · intro key
      rw [bucketOf_addToGroup, h3 key, List.filter_append]
      congr 1
      by_cases hk : keyOf c = key <;> simp [List.filter, hk]
    · rw [sum_lengths_addToGroup, h4]
      simp

/-- C23. The result of `groupCompletionsByPeriod(completions, period)` has pairwise
distinct keys; a key is present exactly when some completion has it as the key of its
date; every bucket is not empty and holds, in their order, exactly the completions whose
date has the key of the bucket, so its size is their number; and the sizes of the buckets
add up to the number of completions. For the period `day` two dates have the same key
exactly when they are on the same calendar day, and for the period `month` exactly when
they have the same year and month. -/
theorem groupCompletionsByPeriod_partition (completions : List Completion)
    (period : String) (a b : Int) :
    ((groupCompletionsByPeriod completions period).map fun kb => kb.1).Nodup ∧
    (∀ key, key ∈ (groupCompletionsByPeriod completions period).map (fun kb => kb.1) ↔
      ∃ c ∈ completions, periodKey period c.date = key) ∧
    (∀ kb ∈ groupCompletionsByPeriod completions period,
      kb.2 ≠ [] ∧
      kb.2 = completions.filter fun c => decide (periodKey period c.date = kb.1)) ∧
    ((groupCompletionsByPeriod completions period).map fun kb => kb.2.length).sum =
      completions.length ∧
    (periodKey "day" a = periodKey "day" b ↔ startOfDay a = startOfDay b) ∧
    (periodKey "month" a = periodKey "month" b ↔
      getFullYear a = getFullYear b ∧ getMonth a = getMonth b) := by
  obtain ⟨h1, h2, h3, h4⟩ := group_fold_invariant (fun c => periodKey period c.date)
    completions [] [] List.nodup_nil (by simp) (by simp [bucketOf]) rfl
  simp only [List.nil_append] at h2 h3 h4
  refine ⟨h1, h2, ?_, h4, ?_, ?_⟩
  · intro kb hkb
    have hbucket := mem_iff_bucketOf _ h1 kb hkb
    have hfilter := h3 kb.1
    have hkey : kb.1 ∈ (groupCompletionsByPeriod completions period).map (fun kb => kb.1) :=
      List.mem_map.mpr ⟨kb, hkb, rfl⟩
    obtain ⟨c, hc, hk⟩ := (h2 kb.1).mp hkey
    have heq : kb.2 = completions.filter fun c => decide (periodKey period c.date = kb.1) :=
      hbucket.trans hfilter
    refine ⟨?_, heq⟩
    rw [heq]
    intro hnil
    have : c ∈ completions.filter fun c => decide (periodKey period c.date = kb.1) :=
      List.mem_filter.mpr ⟨hc, by simpa using hk⟩
    rw [hnil] at this
    cases this
  · have hd : periodKey "day" a = .day (formatYMD a) := by
      have h1 : ("day" == "week") = false := by decide
      have h2 : ("day" == "month") = false := by decide
      simp [periodKey, h1, h2]
    have hd' : periodKey "day" b = .day (formatYMD b) := by
      have h1 : ("day" == "week") = false := by decide
      have h2 : ("day" == "month") = false := by decide
      simp [periodKey, h1, h2]
    rw [hd, hd']
    constructor
    · intro h
      exact startOfDay_eq_of_formatYMD_eq a b (PeriodKey.day.inj h)
    · intro h
      have := congrArg formatYMD h
      rw [formatYMD_startOfDay, formatYMD_startOfDay] at this
      rw [this]
  · have hm : ∀ t, periodKey "month" t = .month (getFullYear t) (getMonth t + 1) := by
      intro t
      have h1 : ("month" == "week") = false := by decide
      simp [periodKey, h1]
    rw [hm a, hm b]
    constructor
    · intro h
      have := PeriodKey.month.inj h
      exact ⟨this.1, by omega⟩
    · rintro ⟨hy, hmo⟩
      rw [hy, hmo]

/-- C23 at a concrete input: the three sample completions, grouped by month, fall into one
bucket of three. -/
theorem groupCompletionsByPeriod_partition_witness :
    (groupCompletionsByPeriod sampleCompletions "month").map (fun kb => (kb.1, kb.2.length)) =
      [(.month 2024 1, 3)] ∧
    ((groupCompletionsByPeriod sampleCompletions "month").map fun kb => kb.2.length).sum =
      sampleCompletions.length :=
  ⟨by decide,
    (groupCompletionsByPeriod_partition sampleCompletions "month" 0 0).2.2.2.1⟩

/-! ## C28: the weeks of the month chart -/

theorem startOfDay_eq_dayStart (t : Int) : startOfDay t = dayStart (formatYMD t) := rfl

theorem startOfWeek_monday (t : Int) :
    startOfWeek t 1 = dayStart (formatYMD t - (formatYMD t + 3) % 7) := by
  simp only [startOfWeek, getDay, startOfDay_eq_dayStart, dayStart]
  have e : ((if (formatYMD t + 4) % 7 < 1 then 7 else 0) + (formatYMD t + 4) % 7 - 1 : Int) =
      (formatYMD t + 3) % 7 := by
    split <;> omega
  rw [e]; ring

theorem endOfWeek_monday (w : Int) (h : (w + 3) % 7 = 0) :
    endOfWeek (dayStart w) 1 = dayStart (w + 6) + (msPerDay - 1) := by
  simp only [endOfWeek, getDay, startOfDay_eq_dayStart, formatYMD_dayStart]
  simp only [dayStart]
  have e : ((if (w + 4) % 7 < 1 then -7 else 0) + 6 - ((w + 4) % 7 - 1) : Int) = 6 := by
    split <;> omega
  rw [e]; ring

theorem eachDayOfInterval_eq (start finish : Int) :
    eachDayOfInterval start finish =
      (List.range (formatYMD finish - formatYMD start + 1).toNat).map fun (i : Nat) =>
        dayStart (formatYMD start + i) := by
  simp only [eachDayOfInterval, startOfDay_eq_dayStart, dayStart]
  apply List.map_congr_left
  intro i _
  ring

theorem eachWeekOfInterval_monday (start finish : Int) :
    eachWeekOfInterval start finish 1 =
      (List.range (((formatYMD finish - (formatYMD finish + 3) % 7) -
          (formatYMD start - (formatYMD start + 3) % 7)) / 7 + 1).toNat).map fun (i : Nat) =>
        dayStart (formatYMD start - (formatYMD start + 3) % 7 + 7 * i) := by
  simp only [eachWeekOfInterval, startOfWeek_monday, formatYMD_dayStart]
  apply List.map_congr_left
  intro i _
  simp only [dayStart]
  ring

theorem dayStart_le_iff (a b : Int) : dayStart a ≤ dayStart b ↔ a ≤ b := by
  simp only [dayStart, msPerDay]; omega

theorem dayStart_le_end_iff (a b : Int) : dayStart a ≤ dayStart b + (msPerDay - 1) ↔ a ≤ b := by
  simp only [dayStart, msPerDay]; omega

theorem flatMap_range_seven (n : Nat) :
    ((List.range n).flatMap fun i => (List.range 7).map fun j => 7 * i + j) = List.range (7 * n) := by
  induction n with
  | zero => rfl
  | succ n ih =>
    rw [List.range_succ, List.flatMap_append, ih, Nat.mul_succ, List.range_add]
    simp

theorem filter_range_window (a len N : Nat) (h : len = 0 ∨ a + len ≤ N) :
    (List.range N).filter (fun m => decide (a ≤ m) && decide (m < a + len)) =
      List.range' a len := by
  rcases h with rfl | h
  · simp only [List.range'_zero, List.filter_eq_nil_iff]
    intro m _
    simp
  · obtain ⟨r, rfl⟩ : ∃ r, N = r + (len + a) := ⟨N - (a + len), by omega⟩
    rw [List.range_eq_range', ← List.range'_append_1 0 (len + a) r,
      ← List.range'_append_1 0 a len, List.filter_append, List.filter_append]
    have h1 : (List.range' 0 a).filter (fun m => decide (a ≤ m) && decide (m < a + len)) = [] := by
      rw [List.filter_eq_nil_iff]
      intro m hm
      rw [List.mem_range'_1] at hm
      simp; omega
    have h2 : (List.range' (0 + a) len).filter
        (fun m => decide (a ≤ m) && decide (m < a + len)) = List.range' (0 + a) len := by
      rw [List.filter_eq_self]
      intro m hm
      rw [List.mem_range'_1] at hm
      simp; omega
    have h3 : (List.range' (0 + (len + a)) r).filter
        (fun m => decide (a ≤ m) && decide (m < a + len)) = [] := by
      rw [List.filter_eq_nil_iff]
      intro m hm
      rw [List.mem_range'_1] at hm
      simp; omega
    rw [h1, h2, h3]
    simp
theorem flatMap_filter_map {α β γ : Type} (l : List α) (f : α → List β) (p : β → Bool)
    (g : β → γ) :
    (l.flatMap fun x => ((f x).filter p).map g) = ((l.flatMap f).filter p).map g := by
  induction l with
  | nil => rfl
  | cons x xs ih => simp [List.flatMap_cons, ih]

theorem sum_length_filter_flatMap {α β : Type} (l : List α) (f : α → List β)
    (p q : β → Bool) :
    (l.map fun x => ((f x).filter fun y => p y && q y).length).sum =
      ((l.flatMap fun x => (f x).filter p).filter q).length := by
  induction l with
  | nil => rfl
  | cons x xs ih =>
    simp only [List.map_cons, List.sum_cons, List.flatMap_cons, List.filter_append,
      List.length_append, ih, List.filter_filter]
    congr 2
    apply List.filter_congr
    intro y _
    exact Bool.and_comm _ _

/-- The Monday weeks of an interval of whole days cover it: the days of the weeks of
`eachWeekOfInterval`, restricted to the interval, are in order the days of the interval. -/
theorem weeks_cover_days (s e : Int) :
    ((eachWeekOfInterval (dayStart s) (dayStart e + (msPerDay - 1)) 1).flatMap fun w =>
      (eachDayOfInterval w (endOfWeek w 1)).filter fun day =>
        isWithinInterval day (dayStart s) (dayStart e + (msPerDay - 1))) =
      eachDayOfInterval (dayStart s) (dayStart e + (msPerDay - 1)) := by
  have hfin : formatYMD (dayStart e + (msPerDay - 1)) = e :=
    formatYMD_dayStart_add e _ (by decide) (by decide)
  rw [eachWeekOfInterval_monday, eachDayOfInterval_eq, hfin, formatYMD_dayStart]
  generalize hW : s - (s + 3) % 7 = W
  generalize hn : ((e - (e + 3) % 7 - W) / 7 + 1).toNat = n
  generalize hlen : (e - s + 1).toNat = len
  obtain ⟨a, ha⟩ : ∃ a : Nat, (a : Int) = (s + 3) % 7 := ⟨((s + 3) % 7).toNat, by omega⟩
  have hweek : ∀ i : Nat,
      ((eachDayOfInterval (dayStart (W + 7 * i)) (endOfWeek (dayStart (W + 7 * i)) 1)).filter
        fun day => isWithinInterval day (dayStart s) (dayStart e + (msPerDay - 1))) =
      ((((List.range 7).map fun j => 7 * i + j).filter
        fun m => decide (a ≤ m) && decide (m < a + len)).map
        fun (m : Nat) => dayStart (W + m)) := by
    intro i
    rw [endOfWeek_monday _ (by omega), eachDayOfInterval_eq,
      formatYMD_dayStart_add _ _ (by decide) (by decide), formatYMD_dayStart]
    have h7 : (W + 7 * (i : Int) + 6 - (W + 7 * i) + 1).toNat = 7 := by
      have : (W + 7 * (i : Int) + 6 - (W + 7 * i) + 1) = 7 := by ring
      rw [this]; rfl
    rw [h7, List.filter_map, List.filter_map, List.map_map]
    have hf : (List.range 7).filter
        ((fun day => isWithinInterval day (dayStart s) (dayStart e + (msPerDay - 1))) ∘
          fun (j : Nat) => dayStart (W + 7 * (i : Int) + j)) =
        (List.range 7).filter
          ((fun m => decide (a ≤ m) && decide (m < a + len)) ∘ fun j => 7 * i + j) := by
      apply List.filter_congr
      intro j _
      simp only [Function.comp, isWithinInterval, dayStart_le_iff, dayStart_le_end_iff]
      rw [Bool.eq_iff_iff]
      simp only [Bool.and_eq_true, decide_eq_true_eq]
      omega
    rw [hf]
    apply List.map_congr_left
    intro j _
    simp only [Function.comp]
    congr 1
    push_cast
    ring
  rw [List.flatMap_map]
  have hcongr : ((List.range n).flatMap fun (i : Nat) =>
      (eachDayOfInterval (dayStart (W + 7 * i)) (endOfWeek (dayStart (W + 7 * i)) 1)).filter
        fun day => isWithinInterval day (dayStart s) (dayStart e + (msPerDay - 1))) =
      ((List.range n).flatMap fun i =>
        ((((List.range 7).map fun j => 7 * i + j).filter
          fun m => decide (a ≤ m) && decide (m < a + len)).map
          fun (m : Nat) => dayStart (W + m))) := by
    congr 1
    funext i
    exact hweek i
  rw [hcongr, flatMap_filter_map, flatMap_range_seven,
    filter_range_window a len (7 * n) (by omega), List.range'_eq_map_range, List.map_map]
  apply List.map_congr_left
  intro k _
  simp only [Function.comp]
  congr 1
  push_cast
  omega

theorem startOfMonth_eq (now : Int) :
    startOfMonth now = dayStart (formatYMD now - (getDate now - 1)) := by
  simp only [startOfMonth, startOfDay_eq_dayStart, dayStart]
  ring

theorem endOfMonth_eq (now : Int) :
    endOfMonth now =
      dayStart (daysFromCivil (getFullYear now) (getMonth now + 2) 1 - 1) + (msPerDay - 1) :=
  rfl

theorem nodup_eachDayOfInterval (start finish : Int) :
    (eachDayOfInterval start finish).Nodup := by
  rw [eachDayOfInterval_eq]
  apply List.Nodup.map _ (List.nodup_range _)
  intro i j h
  simp only [dayStart, msPerDay] at h
  omega

/-! ## The civil calendar -/

/-- The year of the era that `civilFromDays` computes from the day of the era is the year
in which the day lies: the year starts on or before the day, and the next year starts
after it (the last day of the era is the leap day that ends year 399). -/
theorem yearOfEra_spec (doe Y : Int) (h0 : 0 ≤ doe) (h1 : doe ≤ 146096)
    (hY : Y = (doe - doe / 1460 + doe / 36524 - doe / 146096) / 365) :
    365 * Y + Y / 4 - Y / 100 ≤ doe ∧
    (doe < 365 * (Y + 1) + (Y + 1) / 4 - (Y + 1) / 100 ∨ doe = 146096) := by
  have hc : doe / 36524 = 0 ∨ doe / 36524 = 1 ∨ doe / 36524 = 2 ∨ doe / 36524 = 3 ∨
      doe / 36524 = 4 := by omega
  obtain ⟨q, hq⟩ : ∃ q, (doe - 36524 * (doe / 36524)) / 1461 = q := ⟨_, rfl⟩
  obtain ⟨s, hs⟩ : ∃ s, doe - 36524 * (doe / 36524) - 1461 * q = s := ⟨_, rfl⟩
  have hs0 : 0 ≤ s ∧ s ≤ 1460 := by omega
  have hq0 : 0 ≤ q ∧ q ≤ 24 := by omega
  have hg : doe / 146096 = 0 ∨ doe = 146096 := by omega
  rcases hg with hg | hg
  swap
  · subst hg; subst hY; decide
  rcases hc with h | h | h | h | h
  all_goals
    have he : doe / 1460 = 25 * (doe / 36524) + q ∨ doe / 1460 = 25 * (doe / 36524) + q + 1 := by
      omega
    have hu : Y = 100 * (doe / 36524) + 4 * q ∨ Y = 100 * (doe / 36524) + 4 * q + 1 ∨
        Y = 100 * (doe / 36524) + 4 * q + 2 ∨ Y = 100 * (doe / 36524) + 4 * q + 3 := by
      rcases he with he | he <;> omega
    rcases hu with hu | hu | hu | hu <;> rcases he with he | he <;> omega

/-- The parts of `civilFromDays z`: the era, the year of the era, the day of the year
counted from March 1st and the month counted from March. -/
theorem civilFromDays_parts (z : Int) :
    ∃ era Y doy mp : Int,
      civilFromDays z =
        (if (if mp < 10 then mp + 3 else mp - 9) ≤ 2 then Y + era * 400 + 1 else Y + era * 400,
          if mp < 10 then mp + 3 else mp - 9, doy - (153 * mp + 2) / 5 + 1) ∧
      z = era * 146097 + (Y * 365 + Y / 4 - Y / 100 + doy) - 719468 ∧
      0 ≤ Y ∧ Y ≤ 399 ∧ 0 ≤ doy ∧
      (Y * 365 + Y / 4 - Y / 100 + doy < (Y + 1) * 365 + (Y + 1) / 4 - (Y + 1) / 100 ∨
        (Y = 399 ∧ doy = 365)) ∧
      mp = (5 * doy + 2) / 153 := by
  have hspec := yearOfEra_spec ((z + 719468) - (z + 719468) / 146097 * 146097) _
    (by omega) (by omega) rfl
  refine ⟨(z + 719468) / 146097,
    ((z + 719468 - (z + 719468) / 146097 * 146097) -
      (z + 719468 - (z + 719468) / 146097 * 146097) / 1460 +
      (z + 719468 - (z + 719468) / 146097 * 146097) / 36524 -
      (z + 719468 - (z + 719468) / 146097 * 146097) / 146096) / 365,
    _, _, rfl, ?_, ?_, ?_, ?_, ?_, rfl⟩
  · generalize ((z + 719468 - (z + 719468) / 146097 * 146097) -
      (z + 719468 - (z + 719468) / 146097 * 146097) / 1460 +
      (z + 719468 - (z + 719468) / 146097 * 146097) / 36524 -
      (z + 719468 - (z + 719468) / 146097 * 146097) / 146096) / 365 = Y
    omega
  · omega
  · omega
  · generalize ((z + 719468 - (z + 719468) / 146097 * 146097) -
      (z + 719468 - (z + 719468) / 146097 * 146097) / 1460 +
      (z + 719468 - (z + 719468) / 146097 * 146097) / 36524 -
      (z + 719468 - (z + 719468) / 146097 * 146097) / 146096) / 365 = Y at hspec ⊢
    omega
  · rcases hspec.2 with h | h
    · generalize ((z + 719468 - (z + 719468) / 146097 * 146097) -
        (z + 719468 - (z + 719468) / 146097 * 146097) / 1460 +
        (z + 719468 - (z + 719468) / 146097 * 146097) / 36524 -
        (z + 719468 - (z + 719468) / 146097 * 146097) / 146096) / 365 = Y at h ⊢
      omega
    · simp only [h]
      decide

/-- The day number of a date given by its era, year of the era and month from March. -/
theorem daysFromCivil_parts (era Y mp day : Int) (hY0 : 0 ≤ Y) (hY1 : Y ≤ 399)
    (hmp0 : 0 ≤ mp) (hmp1 : mp ≤ 11) :
    daysFromCivil
        (if (if mp < 10 then mp + 3 else mp - 9) ≤ 2 then Y + era * 400 + 1 else Y + era * 400)
        (if mp < 10 then mp + 3 else mp - 9) day =
      era * 146097 + (Y * 365 + Y / 4 - Y / 100 + ((153 * mp + 2) / 5 + day - 1)) - 719468 := by
  simp only [daysFromCivil]
  split_ifs <;> omega

theorem monthIndex_bounds (doy mp : Int) (h0 : 0 ≤ doy) (h1 : doy ≤ 365)
    (hmp : mp = (5 * doy + 2) / 153) : 0 ≤ mp ∧ mp ≤ 11 := by
  omega

/-- The civil date of a day is a valid date, `daysFromCivil` gives the number of the day
back, and the day is before the first day of the next month. -/
theorem civilFromDays_spec (z : Int) :
    1 ≤ (civilFromDays z).2.1 ∧ (civilFromDays z).2.1 ≤ 12 ∧ 1 ≤ (civilFromDays z).2.2 ∧
    daysFromCivil (civilFromDays z).1 (civilFromDays z).2.1 1 =
      z - ((civilFromDays z).2.2 - 1) ∧
    z < daysFromCivil (civilFromDays z).1 ((civilFromDays z).2.1 + 1) 1 := by
  obtain ⟨era, Y, doy, mp, hc, hz, hY0, hY1, hdoy0, hdoy, hmp⟩ := civilFromDays_parts z
  have hdoy1 : doy ≤ 365 := by omega
  obtain ⟨hmp0, hmp1⟩ := monthIndex_bounds doy mp hdoy0 hdoy1 hmp
  rw [hc]
  simp only []
  refine ⟨by split_ifs <;> omega, by split_ifs <;> omega, by omega, ?_, ?_⟩
  · rw [daysFromCivil_parts era Y mp 1 hY0 hY1 hmp0 hmp1]
    omega
  · simp only [daysFromCivil]
    interval_cases mp <;> split_ifs <;> omega

theorem monthStart_step (K : Int) :
    daysFromCivil (K / 12) (K % 12 + 1) 1 <
      daysFromCivil ((K + 1) / 12) ((K + 1) % 12 + 1) 1 := by
  obtain ⟨y, hy⟩ : ∃ y, K / 12 = y := ⟨_, rfl⟩
  obtain ⟨m, hm⟩ : ∃ m, K % 12 = m := ⟨_, rfl⟩
  have hm0 : 0 ≤ m := by omega
  have hm1 : m ≤ 11 := by omega
  have hnext : ((K + 1) / 12 = y ∧ (K + 1) % 12 = m + 1) ∨
      (m = 11 ∧ (K + 1) / 12 = y + 1 ∧ (K + 1) % 12 = 0) := by omega
  rw [hy, hm]
  rcases hnext with ⟨h1, h2⟩ | ⟨h0, h1, h2⟩
  · rw [h1, h2]
    simp only [daysFromCivil]
    interval_cases m <;> split_ifs <;> omega
  · rw [h1, h2, h0]
    simp only [daysFromCivil]
    split_ifs <;> omega

theorem monthStart_strictMono :
    StrictMono fun K : Int => daysFromCivil (K / 12) (K % 12 + 1) 1 :=
  strictMono_int_of_lt_succ monthStart_step

theorem monthStart_of_civil (y m : Int) (h0 : 1 ≤ m) (h1 : m ≤ 12) :
    daysFromCivil y m 1 =
      (fun K : Int => daysFromCivil (K / 12) (K % 12 + 1) 1) (12 * y + (m - 1)) ∧
    daysFromCivil y (m + 1) 1 =
      (fun K : Int => daysFromCivil (K / 12) (K % 12 + 1) 1) (12 * y + (m - 1) + 1) := by
  have e1 : (12 * y + (m - 1)) / 12 = y := by omega
  have e2 : (12 * y + (m - 1)) % 12 + 1 = m := by omega
  constructor
  · simp only [e1, e2]
  · by_cases hm : m = 12
    · have e3 : (12 * y + (m - 1) + 1) / 12 = y + 1 := by omega
      have e4 : (12 * y + (m - 1) + 1) % 12 + 1 = 1 := by omega
      simp only [e3, e4, hm, daysFromCivil]
      split_ifs <;> omega
    · have e3 : (12 * y + (m - 1) + 1) / 12 = y := by omega
      have e4 : (12 * y + (m - 1) + 1) % 12 + 1 = m + 1 := by omega
      simp only [e3, e4]

/-- The days of a month: a day has the year and month of the day `z` exactly when it lies
from the first day of the month of `z` to the day before the first day of the next
month. -/
theorem same_month_iff (z z' : Int) :
    ((civilFromDays z').1 = (civilFromDays z).1 ∧
      (civilFromDays z').2.1 = (civilFromDays z).2.1) ↔
    (z - ((civilFromDays z).2.2 - 1) ≤ z' ∧
      z' ≤ daysFromCivil (civilFromDays z).1 ((civilFromDays z).2.1 + 1) 1 - 1) := by
  obtain ⟨hm0, hm1, hd, hstart, hnext⟩ := civilFromDays_spec z
  obtain ⟨hm0', hm1', hd', hstart', hnext'⟩ := civilFromDays_spec z'
  constructor
  · rintro ⟨hy, hm⟩
    rw [← hy, ← hm]
    rw [← hy, ← hm] at hstart
    omega
  · rintro ⟨hlo, hhi⟩
    rw [← hstart] at hlo
    obtain ⟨k1, k2⟩ := monthStart_of_civil (civilFromDays z).1 (civilFromDays z).2.1 hm0 hm1
    obtain ⟨k1', k2'⟩ :=
      monthStart_of_civil (civilFromDays z').1 (civilFromDays z').2.1 hm0' hm1'
    rw [k1] at hlo
    rw [k2] at hhi
    rw [k1'] at hstart'
    rw [k2'] at hnext'
    have hK : 12 * (civilFromDays z').1 + ((civilFromDays z').2.1 - 1) =
        12 * (civilFromDays z).1 + ((civilFromDays z).2.1 - 1) := by
      rcases lt_trichotomy (12 * (civilFromDays z').1 + ((civilFromDays z').2.1 - 1))
        (12 * (civilFromDays z).1 + ((civilFromDays z).2.1 - 1)) with h | h | h
      · have := monthStart_strictMono.monotone (Int.add_one_le_iff.mpr h)
        simp only at this hlo hnext'
        omega
      · exact h
      · have := monthStart_strictMono.monotone (Int.add_one_le_iff.mpr h)
        simp only at this hhi hstart'
        omega
    omega

theorem dayStart_le_iff_formatYMD (s t : Int) : dayStart s ≤ t ↔ s ≤ formatYMD t := by
  simp only [formatYMD_eq_ediv, dayStart, msPerDay]
  omega

theorem le_dayEnd_iff_formatYMD (e t : Int) :
    t ≤ dayStart e + (msPerDay - 1) ↔ formatYMD t ≤ e := by
  simp only [formatYMD_eq_ediv, dayStart, msPerDay]
  omega

/-- The instants from `startOfMonth(now)` to `endOfMonth(now)` are the instants of the
calendar month of `now`: those with the year and the month of `now`. -/
theorem month_interval_iff (now t : Int) :
    isWithinInterval t (startOfMonth now) (endOfMonth now) = true ↔
      (getFullYear t = getFullYear now ∧ getMonth t = getMonth now) := by
  have hmonth : getMonth now + 2 = (civilFromDays (formatYMD now)).2.1 + 1 := by
    unfold getMonth
    ring
  rw [isWithinInterval, Bool.and_eq_true, decide_eq_true_eq, decide_eq_true_eq,
    startOfMonth_eq, endOfMonth_eq, dayStart_le_iff_formatYMD, le_dayEnd_iff_formatYMD,
    hmonth]
  have h := same_month_iff (formatYMD now) (formatYMD t)
  simp only [getFullYear, getMonth, getDate]
  rw [← h]
  constructor
  · rintro ⟨h1, h2⟩
    exact ⟨h1, by omega⟩
  · rintro ⟨h1, h2⟩
    exact ⟨h1, by omega⟩

/-- C28. In the series of the time range `month`, with `startDate = startOfMonth(now)`
and `endDate = endOfMonth(now)`: the instants from `startDate` to `endDate` are those of
the calendar month of `now` (same year and month); every week of `eachWeekOfInterval`
starts on a Monday at the start of the day and has seven days; the days of these weeks
that pass `isWithinInterval(day, { start: startDate, end: endDate })`, taken week by
week, are exactly the days of the month from `startDate` to `endDate`, each once, so
every day of the month is in one weekly bucket and no other day is counted; and the
entries of the series add up to the number of days of the month on which the habit is
completed. -/
theorem monthChartData_weeks_partition (habits : List Habit) (habitId : String)
    (now : Int) :
    (∀ t : Int, isWithinInterval t (startOfMonth now) (endOfMonth now) = true ↔
      (getFullYear t = getFullYear now ∧ getMonth t = getMonth now)) ∧
    (∀ w ∈ eachWeekOfInterval (startOfMonth now) (endOfMonth now) 1,
      getDay w = 1 ∧ startOfDay w = w ∧ (eachDayOfInterval w (endOfWeek w 1)).length = 7) ∧
    ((eachWeekOfInterval (startOfMonth now) (endOfMonth now) 1).flatMap fun w =>
        (eachDayOfInterval w (endOfWeek w 1)).filter fun day =>
          isWithinInterval day (startOfMonth now) (endOfMonth now)) =
      eachDayOfInterval (startOfMonth now) (endOfMonth now) ∧
    (eachDayOfInterval (startOfMonth now) (endOfMonth now)).Nodup ∧
    (monthChartData habits habitId now).sum =
      ((eachDayOfInterval (startOfMonth now) (endOfMonth now)).filter fun day =>
        isHabitCompletedForDate habits habitId day).length := by
  have hcover := weeks_cover_days (formatYMD now - (getDate now - 1))
    (daysFromCivil (getFullYear now) (getMonth now + 2) 1 - 1)
  rw [← startOfMonth_eq, ← endOfMonth_eq] at hcover
  refine ⟨month_interval_iff now, ?_, hcover, nodup_eachDayOfInterval _ _, ?_⟩
  · intro w hw
    rw [eachWeekOfInterval_monday, List.mem_map] at hw
    obtain ⟨i, _, rfl⟩ := hw
    refine ⟨?_, ?_, ?_⟩
    · simp only [getDay, formatYMD_dayStart]
      omega
    · rw [startOfDay_eq_dayStart, formatYMD_dayStart]
    · rw [endOfWeek_monday _ (by omega), eachDayOfInterval_eq, List.length_map,
        List.length_range, formatYMD_dayStart_add _ _ (by decide) (by decide),
        formatYMD_dayStart]
      have e : formatYMD (startOfMonth now) - (formatYMD (startOfMonth now) + 3) % 7 +
          7 * (i : Int) + 6 - (formatYMD (startOfMonth now) -
            (formatYMD (startOfMonth now) + 3) % 7 + 7 * (i : Int)) + 1 = 7 := by ring
      rw [e]
      rfl
  · rw [← hcover]
    exact sum_length_filter_flatMap _ _ _ _

/-- C28 at concrete inputs: for the habit completed on the 30 days ending on 2024-01-03
and a clock reading in December 2023, a month that starts on a Friday, the series is
0, 6, 7, 7, 7 and adds up to the 27 completed days of December; in January 2024 it is
3, 0, 0, 0, 0. -/
theorem monthChartData_weeks_partition_witness :
    monthChartData [steadyHabit] "h1" (dayStart 19710 + 28800000) = [0, 6, 7, 7, 7] ∧
    monthChartData [steadyHabit] "h1" (dayStart 19725 + 28800000) = [3, 0, 0, 0, 0] ∧
    (eachDayOfInterval (startOfMonth (dayStart 19710 + 28800000))
      (endOfMonth (dayStart 19710 + 28800000))).map formatYMD =
      (List.range 31).map (fun (i : Nat) => (19692 + i : Int)) ∧
    (monthChartData [steadyHabit] "h1" (dayStart 19710 + 28800000)).sum =
      ((eachDayOfInterval (startOfMonth (dayStart 19710 + 28800000))
        (endOfMonth (dayStart 19710 + 28800000))).filter fun day =>
          isHabitCompletedForDate [steadyHabit] "h1" day).length :=
  ⟨by decide, by decide, by decide,
    (monthChartData_weeks_partition [steadyHabit] "h1" (dayStart 19710 + 28800000)).2.2.2.2⟩

end HabitTracker
